import Mathlib

/-!
# Vector math utility (`src/myMath.h`)

A shallow embedding of the `Vec2` / `Vec3` library of `myMath.h`.

The C++ `float` is modelled bit for bit as IEEE-754 binary32 (`F32`): a sign bit
and 31 magnitude bits.  `+`, `-`, `*`, `/` and `std::sqrt` round to nearest,
ties to even, with subnormals, signed zeros, infinities and NaN; every
operation is rounded on its own (no fused multiply-add, no excess precision).
`std::acos` is not defined by the header and has no exactly specified result,
so `Angle` takes it as a parameter.

Two things that IEEE-754 leaves to the platform are fixed by the model and
are not relied upon beyond what is said here.  The payload and the sign of a
NaN are not tracked: an operation that produces or propagates a NaN gives the
default quiet NaN `0x7FC00000`, so of a NaN result only the fact that it is a
NaN carries over to the compiled code.  `std::fmax` and `std::fmin` ignore a
NaN argument, treat a signalling NaN like a quiet one, and return their first
argument when the two compare equal (`+0` against `-0`).

Each operator and function of the header is translated one to one; the
compound assignments return the new value of `*this`.

Identities of real arithmetic are stated for floats in two ways.  Under
exactness predicates (`addIsExact`, `mulIsExact`, ...) they hold with `==`: a
finite float is an integer number of `units` of `2 ^ -149`, and an operation
is exact when its result is finite and its units are those of the real
result.  Under regularity predicates (`mulIsRegular`, `reflectIsRegular`,
...), which only exclude overflow and underflow, they hold up to a stated
tolerance on the real values `val` of the floats: a rounded result that is a
normal number differs from the exact result by at most `2 ^ -24` of its own
size.
-/

set_option maxRecDepth 100000

namespace MyMath

/-! ## IEEE-754 binary32 -/

/-- A `float`: the sign bit and the low 31 bits of the binary32 encoding
(8 bits of biased exponent followed by 23 bits of fraction). -/
structure F32 where
  sign : Bool
  mag : Fin 0x80000000
deriving DecidableEq, Repr

namespace F32

/-- Encoding of the magnitude of infinity (`0x7F800000`): exponent field all ones. -/
def infBits : Nat := 0x7F800000

/-- The literal `0.0f`. -/
def zero : F32 := ⟨false, 0⟩

/-- The literal `1.0f`. -/
def one : F32 := ⟨false, 0x3F800000⟩

/-- The literal `2.0f`. -/
def two : F32 := ⟨false, 0x40000000⟩

/-- The literal `-1.0f`. -/
def negOne : F32 := ⟨true, 0x3F800000⟩

/-- The default quiet NaN. -/
def nan : F32 := ⟨false, 0x7FC00000⟩

/-- Signed infinity. -/
def inf (s : Bool) : F32 := ⟨s, 0x7F800000⟩

/-- Signed zero. -/
def szero (s : Bool) : F32 := ⟨s, 0⟩

def isNaN (x : F32) : Bool := decide (infBits < x.mag.val)

def isInf (x : F32) : Bool := decide (x.mag.val = infBits)

def isFinite (x : F32) : Bool := decide (x.mag.val < infBits)

def isZero (x : F32) : Bool := decide (x.mag.val = 0)

/-- Integer significand of a finite value: the fraction for a subnormal, the
fraction with the hidden bit for a normal number. -/
def sig (x : F32) : Nat :=
  if x.mag.val < 0x800000 then x.mag.val else 0x800000 + x.mag.val % 0x800000

/-- Exponent of the last significand bit: a finite `x` is `± sig x * 2 ^ exp x`. -/
def exp (x : F32) : Int :=
  if x.mag.val < 0x800000 then -149 else ((x.mag.val / 0x800000 : Nat) : Int) - 150

/-- Loop of `ilog2`; `fuel` bounds the number of halvings. -/
def ilog2Fuel : Nat → Nat → Nat
  | 0, _ => 0
  | fuel + 1, m => if 2 ≤ m then ilog2Fuel fuel (m / 2) + 1 else 0

/-- Position of the leading bit of `m` (`0` for `m = 0`). -/
def ilog2 (m : Nat) : Nat := ilog2Fuel m m

/-- Loop of `isqrt`: the bits of the root are decided from position `i - 1` downwards. -/
def isqrtBits (n : Nat) : Nat → Nat → Nat
  | 0, r => r
  | i + 1, r => isqrtBits n i (if (r + 2 ^ i) * (r + 2 ^ i) ≤ n then r + 2 ^ i else r)

/-- Integer square root: the largest `r` with `r * r ≤ n`. -/
def isqrt (n : Nat) : Nat := isqrtBits n (ilog2 n / 2 + 1) 0

/-- The quotient `m / 2 ^ k` rounded to the nearest integer, ties to even. -/
def rne (m k : Nat) : Nat :=
  if 2 ^ k < 2 * (m % 2 ^ k) ∨ (2 * (m % 2 ^ k) = 2 ^ k ∧ (m / 2 ^ k) % 2 = 1) then
    m / 2 ^ k + 1
  else
    m / 2 ^ k

/-- Exponent of the unit in the last place of the binary32 number nearest to
`m * 2 ^ e` (`m ≠ 0`): 24 significant bits, but never below `2 ^ -149`. -/
def ulpExp (m : Nat) (e : Int) : Int := max ((ilog2 m : Int) + e - 23) (-149)

/-- The magnitude bits of `m * 2 ^ e` rounded to nearest-even, before the
overflow check.  Exponent and significand are added, so that a significand
rounded up to `2 ^ 24` carries into the exponent field. -/
def roundBits (m : Nat) (e : Int) : Nat :=
  if m = 0 then 0
  else
    (ulpExp m e + 149).toNat * 0x800000 +
      (if ulpExp m e ≤ e then m * 2 ^ (e - ulpExp m e).toNat else rne m (ulpExp m e - e).toNat)

/-- The value `(-1) ^ s * m * 2 ^ e` rounded to binary32 (nearest, ties to even;
overflow gives infinity). -/
def round (s : Bool) (m : Nat) (e : Int) : F32 :=
  ⟨s, ⟨min (roundBits m e) infBits, Nat.lt_of_le_of_lt (Nat.min_le_right _ _) (by decide)⟩⟩

/-- Unary minus flips the sign bit. -/
def neg (x : F32) : F32 := ⟨!x.sign, x.mag⟩

/-- The significand of a finite `x` as a signed integer multiple of `2 ^ e0`,
for `e0 ≤ exp x`. -/
def aligned (x : F32) (e0 : Int) : Int :=
  if x.sign then -((x.sig * 2 ^ (x.exp - e0).toNat : Nat) : Int)
  else ((x.sig * 2 ^ (x.exp - e0).toNat : Nat) : Int)

/-- Addition `x + y`. -/
def add (x y : F32) : F32 :=
  if x.isNaN || y.isNaN then nan
  else if x.isInf then (if y.isInf && (x.sign != y.sign) then nan else x)
  else if y.isInf then y
  else if x.aligned (min x.exp y.exp) + y.aligned (min x.exp y.exp) = 0 then
    szero (x.sign && y.sign)
  else
    round (decide (x.aligned (min x.exp y.exp) + y.aligned (min x.exp y.exp) < 0))
      (x.aligned (min x.exp y.exp) + y.aligned (min x.exp y.exp)).natAbs (min x.exp y.exp)

/-- Subtraction `x - y`. -/
def sub (x y : F32) : F32 := add x (neg y)

/-- Multiplication `x * y`. -/
def mul (x y : F32) : F32 :=
  if x.isNaN || y.isNaN then nan
  else if x.isInf || y.isInf then
    (if x.isZero || y.isZero then nan else inf (x.sign != y.sign))
  else round (x.sign != y.sign) (x.sig * y.sig) (x.exp + y.exp)

/-- Division `x / y`: the quotient of the significands is taken with 64 extra
bits, and a sticky bit records a nonzero remainder. -/
def div (x y : F32) : F32 :=
  if x.isNaN || y.isNaN then nan
  else if x.isInf then (if y.isInf then nan else inf (x.sign != y.sign))
  else if y.isInf then szero (x.sign != y.sign)
  else if y.isZero then (if x.isZero then nan else inf (x.sign != y.sign))
  else
    round (x.sign != y.sign)
      (2 * (x.sig * 2 ^ 64 / y.sig) + (if x.sig * 2 ^ 64 % y.sig = 0 then 0 else 1))
      (x.exp - y.exp - 65)

/-- Square root `std::sqrt(x)`, correctly rounded: the integer square root of
the significand is taken with 32 extra bits and a sticky bit. -/
def sqrt (x : F32) : F32 :=
  if x.isNaN then nan
  else if x.isZero then x
  else if x.sign then nan
  else if x.isInf then x
  else
    let m : Nat := if x.exp % 2 = 0 then x.sig else 2 * x.sig
    let e : Int := if x.exp % 2 = 0 then x.exp else x.exp - 1
    round false
      (2 * isqrt (m * 2 ^ 64) + (if isqrt (m * 2 ^ 64) * isqrt (m * 2 ^ 64) = m * 2 ^ 64 then 0 else 1))
      (e / 2 - 33)

/-- Position of a non-NaN value on the number line of encodings: both zeros are
at `0`, and the order of magnitudes is the order of their encodings. -/
def key (x : F32) : Int := if x.sign then -(x.mag.val : Int) else (x.mag.val : Int)

/-- Comparison `x < y` (false when either side is NaN). -/
def lt (x y : F32) : Bool := !x.isNaN && !y.isNaN && decide (x.key < y.key)

/-- Comparison `x > y`. -/
def gt (x y : F32) : Bool := lt y x

/-- Comparison `x <= y` (false when either side is NaN). -/
def le (x y : F32) : Bool := !x.isNaN && !y.isNaN && decide (x.key ≤ y.key)

/-- Comparison `x == y` (false when either side is NaN; `+0 == -0`). -/
def eq (x y : F32) : Bool := !x.isNaN && !y.isNaN && decide (x.key = y.key)

/-- Comparison `x != y`. -/
def ne (x y : F32) : Bool := !(eq x y)

/-- The function `std::fmax`: a NaN argument is ignored in favour of the other
one, and the first argument is returned when the two compare equal. -/
def fmax (x y : F32) : F32 :=
  if x.isNaN then y else if y.isNaN then x else if lt x y then y else x

/-- The function `std::fmin`: a NaN argument is ignored in favour of the other
one, and the first argument is returned when the two compare equal. -/
def fmin (x y : F32) : F32 :=
  if x.isNaN then y else if y.isNaN then x else if lt y x then y else x

/-- The value of a finite float counted in units of `2 ^ -149`, the spacing of
the subnormal numbers: every finite float is an integer number of them. -/
def units (x : F32) : Int := x.aligned (-149)

/-- The difference `x - y` is finite and was computed without rounding error. -/
def subIsExact (x y : F32) : Bool :=
  (sub x y).isFinite && decide ((sub x y).units = x.units - y.units)

/-- The sum `x + y` is finite and was computed without rounding error. -/
def addIsExact (x y : F32) : Bool :=
  (add x y).isFinite && decide ((add x y).units = x.units + y.units)

/-- The product `x * y` is finite and was computed without rounding error
(a product of two numbers of units of `2 ^ -149` counts units of `2 ^ -298`). -/
def mulIsExact (x y : F32) : Bool :=
  (mul x y).isFinite && decide ((mul x y).units * 2 ^ 149 = x.units * y.units)

/-- The quotient `x / y` by a finite `y` is finite and was computed without
rounding error. -/
def divIsExact (x y : F32) : Bool :=
  (div x y).isFinite && y.isFinite && decide ((div x y).units * y.units = x.units * 2 ^ 149)

/-- The real value of a finite float, as a rational number. -/
def val (x : F32) : ℚ := (x.units : ℚ) / 2 ^ 149

/-- The float nearest to the number pi (`0x40490FDB`), the largest value an
arc cosine takes. -/
def pi : F32 := ⟨false, 0x40490FDB⟩

/-- The float nearest to the integer `n` (used to write literals). -/
def ofInt (n : Int) : F32 := round (decide (n < 0)) n.natAbs 0

/-- A normal number: finite, with a nonzero exponent field (magnitude at least
`2 ^ -126`), so that it carries 24 significant bits. -/
def isNormal (x : F32) : Bool := decide (0x800000 ≤ x.mag.val) && decide (x.mag.val < infBits)

/-- The product `x * y` neither overflows nor underflows: it is a normal
number, or it is finite and one of the factors is a zero. -/
def mulIsRegular (x y : F32) : Bool :=
  (mul x y).isNormal || ((mul x y).isFinite && (x.isZero || y.isZero))

/-- No step of `(x * s) * (1.0f / s)` overflows or underflows: the reciprocal
is a normal number, and `x` is a zero or both products are normal numbers. -/
def scaleDivIsRegular (x s : F32) : Bool :=
  (div one s).isNormal &&
    (x.isZero || ((mul x s).isNormal && (mul (mul x s) (div one s)).isNormal))

end F32

/-! ## The vectors of `myMath.h` -/

/-- The struct `Vec2`. -/
structure Vec2 where
  x : F32
  y : F32
deriving DecidableEq, Repr

/-- The struct `Vec3`. -/
structure Vec3 where
  x : F32
  y : F32
  z : F32
deriving DecidableEq, Repr

namespace Vec2

/-- The default constructor `Vec2()`. -/
def zero : Vec2 := ⟨F32.zero, F32.zero⟩

/-- Member `operator+`. -/
def add (a other : Vec2) : Vec2 := ⟨F32.add a.x other.x, F32.add a.y other.y⟩

/-- Member `operator-` (binary). -/
def sub (a other : Vec2) : Vec2 := ⟨F32.sub a.x other.x, F32.sub a.y other.y⟩

/-- Member `operator*(float)`. -/
def mul (a : Vec2) (scalar : F32) : Vec2 := ⟨F32.mul a.x scalar, F32.mul a.y scalar⟩

/-- Member `operator/(float)`. -/
def div (a : Vec2) (scalar : F32) : Vec2 :=
  if F32.ne scalar F32.zero then
    ⟨F32.mul a.x (F32.div F32.one scalar), F32.mul a.y (F32.div F32.one scalar)⟩
  else a

/-- Member `operator+=`: the value of `*this` afterwards. -/
def addAssign (a other : Vec2) : Vec2 := ⟨F32.add a.x other.x, F32.add a.y other.y⟩

/-- Member `operator-=`: the value of `*this` afterwards. -/
def subAssign (a other : Vec2) : Vec2 := ⟨F32.sub a.x other.x, F32.sub a.y other.y⟩

/-- Member `operator*=`: the value of `*this` afterwards. -/
def mulAssign (a : Vec2) (scalar : F32) : Vec2 := ⟨F32.mul a.x scalar, F32.mul a.y scalar⟩

/-- Member `operator/=`: the value of `*this` afterwards. -/
def divAssign (a : Vec2) (scalar : F32) : Vec2 :=
  if F32.ne scalar F32.zero then
    ⟨F32.mul a.x (F32.div F32.one scalar), F32.mul a.y (F32.div F32.one scalar)⟩
  else a

/-- Member `operator-` (unary). -/
def neg (a : Vec2) : Vec2 := ⟨F32.neg a.x, F32.neg a.y⟩

/-- Member `operator==`. -/
def eq (a other : Vec2) : Bool := F32.eq a.x other.x && F32.eq a.y other.y

/-- Member `operator!=`. -/
def ne (a other : Vec2) : Bool := !(eq a other)

/-- `Dot(const Vec2&, const Vec2&)`. -/
def Dot (a b : Vec2) : F32 := F32.add (F32.mul a.x b.x) (F32.mul a.y b.y)

/-- `Cross(const Vec2&, const Vec2&)`. -/
def Cross (a b : Vec2) : F32 := F32.sub (F32.mul a.x b.y) (F32.mul a.y b.x)

/-- `Length(const Vec2&)`. -/
def Length (v : Vec2) : F32 := F32.sqrt (F32.add (F32.mul v.x v.x) (F32.mul v.y v.y))

/-- `LengthSquared(const Vec2&)`. -/
def LengthSquared (v : Vec2) : F32 := F32.add (F32.mul v.x v.x) (F32.mul v.y v.y)

/-- `Normalize(const Vec2&)`. -/
def Normalize (v : Vec2) : Vec2 :=
  if F32.gt (Length v) F32.zero then div v (Length v) else v

/-- `Distance(const Vec2&, const Vec2&)`. -/
def Distance (a b : Vec2) : F32 := Length (sub b a)

/-- `DistanceSquared(const Vec2&, const Vec2&)`. -/
def DistanceSquared (a b : Vec2) : F32 := LengthSquared (sub b a)

/-- `Angle(const Vec2&, const Vec2&)`.  The library function `std::acos` is
not part of the header and is a parameter. -/
def Angle (acos : F32 → F32) (a b : Vec2) : F32 :=
  if F32.gt (F32.mul (Length a) (Length b)) F32.zero then
    acos (F32.fmax F32.negOne (F32.fmin F32.one (F32.div (Dot a b) (F32.mul (Length a) (Length b)))))
  else F32.zero

/-- `Lerp(const Vec2&, const Vec2&, float)`. -/
def Lerp (a b : Vec2) (t : F32) : Vec2 :=
  add a (mul (sub b a) (F32.fmax F32.zero (F32.fmin F32.one t)))

/-- `Reflect(const Vec2&, const Vec2&)`. -/
def Reflect (v normal : Vec2) : Vec2 := sub v (mul (mul normal F32.two) (Dot v normal))

/-- `operator*(float, const Vec2&)`. -/
def smul (scalar : F32) (v : Vec2) : Vec2 := mul v scalar

/-- Both products and the sum of `Dot(a, b)` are finite and free of rounding error. -/
def dotIsExact (a b : Vec2) : Bool :=
  F32.mulIsExact a.x b.x && F32.mulIsExact a.y b.y &&
    F32.addIsExact (F32.mul a.x b.x) (F32.mul a.y b.y)

/-- The vector `normal * 2.0f * Dot(v, normal)` that `Reflect` subtracts from
`v` is computed without rounding error, all intermediate results included. -/
def reflectTermIsExact (v normal : Vec2) : Bool :=
  F32.mulIsExact normal.x F32.two && F32.mulIsExact normal.y F32.two && dotIsExact v normal &&
    F32.mulIsExact (F32.mul normal.x F32.two) (Dot v normal) &&
    F32.mulIsExact (F32.mul normal.y F32.two) (Dot v normal)

/-- Every operation of `Reflect(v, normal)` is finite and free of rounding error. -/
def reflectIsExact (v normal : Vec2) : Bool :=
  reflectTermIsExact v normal &&
    F32.subIsExact v.x (F32.mul (F32.mul normal.x F32.two) (Dot v normal)) &&
    F32.subIsExact v.y (F32.mul (F32.mul normal.y F32.two) (Dot v normal))

/-- No step of `(v * s) / s` overflows or underflows, in either component. -/
def scaleDivIsRegular (v : Vec2) (s : F32) : Bool :=
  F32.scaleDivIsRegular v.x s && F32.scaleDivIsRegular v.y s

/-- No operation of `Length(v)` overflows or underflows: each square is a
normal number or the square of a zero, and the length is a normal number. -/
def lengthIsRegular (v : Vec2) : Bool :=
  F32.mulIsRegular v.x v.x && F32.mulIsRegular v.y v.y && (Length v).isNormal

/-- No operation of `Length(Normalize(v))` overflows or underflows. -/
def normalizeIsRegular (v : Vec2) : Bool :=
  lengthIsRegular v && (F32.div F32.one (Length v)).isNormal &&
    F32.mulIsRegular v.x (F32.div F32.one (Length v)) &&
    F32.mulIsRegular v.y (F32.div F32.one (Length v)) &&
    lengthIsRegular (Normalize v)

/-- The normal `n` has unit length as the header computes it: `Dot(n, n) == 1.0f`,
neither square underflowing. -/
def isUnit (n : Vec2) : Bool :=
  F32.mulIsRegular n.x n.x && F32.mulIsRegular n.y n.y && F32.eq (Dot n n) F32.one

/-- No operation of `Reflect(v, normal)` overflows or underflows: every product
is a normal number or has a zero factor, and the sum and the differences are
finite. -/
def reflectIsRegular (v normal : Vec2) : Bool :=
  F32.mulIsRegular normal.x F32.two && F32.mulIsRegular normal.y F32.two &&
    F32.mulIsRegular v.x normal.x && F32.mulIsRegular v.y normal.y &&
    (Dot v normal).isFinite &&
    F32.mulIsRegular (F32.mul normal.x F32.two) (Dot v normal) &&
    F32.mulIsRegular (F32.mul normal.y F32.two) (Dot v normal) &&
    (Reflect v normal).x.isFinite && (Reflect v normal).y.isFinite

end Vec2

namespace Vec3

/-- The default constructor `Vec3()`. -/
def zero : Vec3 := ⟨F32.zero, F32.zero, F32.zero⟩

/-- The converting constructor `Vec3(const Vec2&, float z)`. -/
def ofVec2 (v : Vec2) (z : F32) : Vec3 := ⟨v.x, v.y, z⟩

/-- Member `operator+`. -/
def add (a other : Vec3) : Vec3 :=
  ⟨F32.add a.x other.x, F32.add a.y other.y, F32.add a.z other.z⟩

/-- Member `operator-` (binary). -/
def sub (a other : Vec3) : Vec3 :=
  ⟨F32.sub a.x other.x, F32.sub a.y other.y, F32.sub a.z other.z⟩

/-- Member `operator*(float)`. -/
def mul (a : Vec3) (scalar : F32) : Vec3 :=
  ⟨F32.mul a.x scalar, F32.mul a.y scalar, F32.mul a.z scalar⟩

/-- Member `operator/(float)`. -/
def div (a : Vec3) (scalar : F32) : Vec3 :=
  if F32.ne scalar F32.zero then
    ⟨F32.mul a.x (F32.div F32.one scalar), F32.mul a.y (F32.div F32.one scalar),
      F32.mul a.z (F32.div F32.one scalar)⟩
  else a

/-- Member `operator+=`: the value of `*this` afterwards. -/
def addAssign (a other : Vec3) : Vec3 :=
  ⟨F32.add a.x other.x, F32.add a.y other.y, F32.add a.z other.z⟩

/-- Member `operator-=`: the value of `*this` afterwards. -/
def subAssign (a other : Vec3) : Vec3 :=
  ⟨F32.sub a.x other.x, F32.sub a.y other.y, F32.sub a.z other.z⟩

/-- Member `operator*=`: the value of `*this` afterwards. -/
def mulAssign (a : Vec3) (scalar : F32) : Vec3 :=
  ⟨F32.mul a.x scalar, F32.mul a.y scalar, F32.mul a.z scalar⟩

/-- Member `operator/=`: the value of `*this` afterwards. -/
def divAssign (a : Vec3) (scalar : F32) : Vec3 :=
  if F32.ne scalar F32.zero then
    ⟨F32.mul a.x (F32.div F32.one scalar), F32.mul a.y (F32.div F32.one scalar),
      F32.mul a.z (F32.div F32.one scalar)⟩
  else a

/-- Member `operator-` (unary). -/
def neg (a : Vec3) : Vec3 := ⟨F32.neg a.x, F32.neg a.y, F32.neg a.z⟩

/-- Member `operator==`. -/
def eq (a other : Vec3) : Bool :=
  F32.eq a.x other.x && F32.eq a.y other.y && F32.eq a.z other.z

/-- Member `operator!=`. -/
def ne (a other : Vec3) : Bool := !(eq a other)

/-- `Dot(const Vec3&, const Vec3&)`. -/
def Dot (a b : Vec3) : F32 :=
  F32.add (F32.add (F32.mul a.x b.x) (F32.mul a.y b.y)) (F32.mul a.z b.z)

/-- `Cross(const Vec3&, const Vec3&)`. -/
def Cross (a b : Vec3) : Vec3 :=
  ⟨F32.sub (F32.mul a.y b.z) (F32.mul a.z b.y),
   F32.sub (F32.mul a.z b.x) (F32.mul a.x b.z),
   F32.sub (F32.mul a.x b.y) (F32.mul a.y b.x)⟩

/-- `Length(const Vec3&)`. -/
def Length (v : Vec3) : F32 :=
  F32.sqrt (F32.add (F32.add (F32.mul v.x v.x) (F32.mul v.y v.y)) (F32.mul v.z v.z))

/-- `LengthSquared(const Vec3&)`. -/
def LengthSquared (v : Vec3) : F32 :=
  F32.add (F32.add (F32.mul v.x v.x) (F32.mul v.y v.y)) (F32.mul v.z v.z)

/-- `Normalize(const Vec3&)`. -/
def Normalize (v : Vec3) : Vec3 :=
  if F32.gt (Length v) F32.zero then div v (Length v) else v

/-- `Distance(const Vec3&, const Vec3&)`. -/
def Distance (a b : Vec3) : F32 := Length (sub b a)

/-- `DistanceSquared(const Vec3&, const Vec3&)`. -/
def DistanceSquared (a b : Vec3) : F32 := LengthSquared (sub b a)

/-- `Angle(const Vec3&, const Vec3&)`.  The library function `std::acos` is
not part of the header and is a parameter. -/
def Angle (acos : F32 → F32) (a b : Vec3) : F32 :=
  if F32.gt (F32.mul (Length a) (Length b)) F32.zero then
    acos (F32.fmax F32.negOne (F32.fmin F32.one (F32.div (Dot a b) (F32.mul (Length a) (Length b)))))
  else F32.zero

/-- `Lerp(const Vec3&, const Vec3&, float)`. -/
def Lerp (a b : Vec3) (t : F32) : Vec3 :=
  add a (mul (sub b a) (F32.fmax F32.zero (F32.fmin F32.one t)))

/-- `Reflect(const Vec3&, const Vec3&)`. -/
def Reflect (v normal : Vec3) : Vec3 := sub v (mul (mul normal F32.two) (Dot v normal))

/-- `Project(const Vec3&, const Vec3&)`. -/
def Project (a b : Vec3) : Vec3 :=
  if F32.gt (LengthSquared b) F32.zero then mul b (F32.div (Dot a b) (LengthSquared b))
  else zero

/-- `operator*(float, const Vec3&)`. -/
def smul (scalar : F32) (v : Vec3) : Vec3 := mul v scalar

/-- The three products and the first sum of `Dot(a, b)` are finite and free of
rounding error (the last sum is left open). -/
def dotPartIsExact (a b : Vec3) : Bool :=
  F32.mulIsExact a.x b.x && F32.mulIsExact a.y b.y && F32.mulIsExact a.z b.z &&
    F32.addIsExact (F32.mul a.x b.x) (F32.mul a.y b.y)

/-- All products and sums of `Dot(a, b)` are finite and free of rounding error. -/
def dotIsExact (a b : Vec3) : Bool :=
  dotPartIsExact a b &&
    F32.addIsExact (F32.add (F32.mul a.x b.x) (F32.mul a.y b.y)) (F32.mul a.z b.z)

/-- The vector `normal * 2.0f * Dot(v, normal)` that `Reflect` subtracts from
`v` is computed without rounding error, all intermediate results included. -/
def reflectTermIsExact (v normal : Vec3) : Bool :=
  F32.mulIsExact normal.x F32.two && F32.mulIsExact normal.y F32.two &&
    F32.mulIsExact normal.z F32.two && dotIsExact v normal &&
    F32.mulIsExact (F32.mul normal.x F32.two) (Dot v normal) &&
    F32.mulIsExact (F32.mul normal.y F32.two) (Dot v normal) &&
    F32.mulIsExact (F32.mul normal.z F32.two) (Dot v normal)

/-- Every operation of `Reflect(v, normal)` is finite and free of rounding error. -/
def reflectIsExact (v normal : Vec3) : Bool :=
  reflectTermIsExact v normal &&
    F32.subIsExact v.x (F32.mul (F32.mul normal.x F32.two) (Dot v normal)) &&
    F32.subIsExact v.y (F32.mul (F32.mul normal.y F32.two) (Dot v normal)) &&
    F32.subIsExact v.z (F32.mul (F32.mul normal.z F32.two) (Dot v normal))

/-- The six products and three differences of `Cross(a, b)` are finite and
free of rounding error. -/
def crossIsExact (a b : Vec3) : Bool :=
  F32.mulIsExact a.y b.z && F32.mulIsExact a.z b.y &&
    F32.subIsExact (F32.mul a.y b.z) (F32.mul a.z b.y) &&
    F32.mulIsExact a.z b.x && F32.mulIsExact a.x b.z &&
    F32.subIsExact (F32.mul a.z b.x) (F32.mul a.x b.z) &&
    F32.mulIsExact a.x b.y && F32.mulIsExact a.y b.x &&
    F32.subIsExact (F32.mul a.x b.y) (F32.mul a.y b.x)

/-- Every operation of `Project(a, b)` on its main branch is finite and free
of rounding error: the two dot products, their quotient, and the scaling of `b`. -/
def projectIsExact (a b : Vec3) : Bool :=
  dotIsExact b b && dotIsExact a b && F32.divIsExact (Dot a b) (LengthSquared b) &&
    F32.mulIsExact b.x (F32.div (Dot a b) (LengthSquared b)) &&
    F32.mulIsExact b.y (F32.div (Dot a b) (LengthSquared b)) &&
    F32.mulIsExact b.z (F32.div (Dot a b) (LengthSquared b))

/-- The three differences of `a - b` are finite and free of rounding error. -/
def subIsExact (a b : Vec3) : Bool :=
  F32.subIsExact a.x b.x && F32.subIsExact a.y b.y && F32.subIsExact a.z b.z

/-- No step of `(v * s) / s` overflows or underflows, in any component. -/
def scaleDivIsRegular (v : Vec3) (s : F32) : Bool :=
  F32.scaleDivIsRegular v.x s && F32.scaleDivIsRegular v.y s && F32.scaleDivIsRegular v.z s

/-- No operation of `Length(v)` overflows or underflows: each square is a
normal number or the square of a zero, and the length is a normal number. -/
def lengthIsRegular (v : Vec3) : Bool :=
  F32.mulIsRegular v.x v.x && F32.mulIsRegular v.y v.y && F32.mulIsRegular v.z v.z &&
    (Length v).isNormal

/-- No operation of `Length(Normalize(v))` overflows or underflows. -/
def normalizeIsRegular (v : Vec3) : Bool :=
  lengthIsRegular v && (F32.div F32.one (Length v)).isNormal &&
    F32.mulIsRegular v.x (F32.div F32.one (Length v)) &&
    F32.mulIsRegular v.y (F32.div F32.one (Length v)) &&
    F32.mulIsRegular v.z (F32.div F32.one (Length v)) &&
    lengthIsRegular (Normalize v)

/-- The normal `n` has unit length as the header computes it: `Dot(n, n) == 1.0f`,
no square underflowing. -/
def isUnit (n : Vec3) : Bool :=
  F32.mulIsRegular n.x n.x && F32.mulIsRegular n.y n.y && F32.mulIsRegular n.z n.z &&
    F32.eq (Dot n n) F32.one

/-- No operation of `Reflect(v, normal)` overflows or underflows: every product
is a normal number or has a zero factor, and the sums and the differences are
finite. -/
def reflectIsRegular (v normal : Vec3) : Bool :=
  F32.mulIsRegular normal.x F32.two && F32.mulIsRegular normal.y F32.two &&
    F32.mulIsRegular normal.z F32.two &&
    F32.mulIsRegular v.x normal.x && F32.mulIsRegular v.y normal.y &&
    F32.mulIsRegular v.z normal.z && (Dot v normal).isFinite &&
    F32.mulIsRegular (F32.mul normal.x F32.two) (Dot v normal) &&
    F32.mulIsRegular (F32.mul normal.y F32.two) (Dot v normal) &&
    F32.mulIsRegular (F32.mul normal.z F32.two) (Dot v normal) &&
    (Reflect v normal).x.isFinite && (Reflect v normal).y.isFinite &&
    (Reflect v normal).z.isFinite

end Vec3

/-! ## Facts about comparisons -/

namespace F32

theorem isNaN_false_of_eq {x y : F32} (h : eq x y = true) : x.isNaN = false := by
  unfold eq at h
  cases hx : x.isNaN <;> simp_all

theorem key_eq_of_eq {x y : F32} (h : eq x y = true) : x.key = y.key := by
  unfold eq at h
  simp only [Bool.and_eq_true, decide_eq_true_eq] at h
  exact h.2

theorem mag_zero_of_eq_zero {x : F32} (h : eq x zero = true) : x.mag.val = 0 := by
  have hk := key_eq_of_eq h
  unfold key zero at hk
  split at hk <;> simp at hk <;> omega

/-- A value that compares equal to `0.0f` is not greater than `0.0f`. -/
theorem gt_zero_false_of_eq_zero {x : F32} (h : eq x zero = true) : gt x zero = false := by
  have hk := key_eq_of_eq h
  unfold gt lt
  simp [hk]

theorem roundBits_zero (e : Int) : roundBits 0 e = 0 := by
  simp [roundBits]

theorem round_zero (s : Bool) (e : Int) : round s 0 e = szero s := by
  simp [round, roundBits, szero]

theorem sig_eq_zero_of_mag {x : F32} (h : x.mag.val = 0) : x.sig = 0 := by
  simp [sig, h]

/-- A product with a factor that compares equal to `0.0f` is a zero or a NaN,
hence never greater than `0.0f`. -/
theorem mul_gt_zero_false_of_eq_zero_left {x : F32} (y : F32) (h : eq x zero = true) :
    gt (mul x y) zero = false := by
  have hm := mag_zero_of_eq_zero h
  have hs := sig_eq_zero_of_mag hm
  unfold mul
  split
  · decide
  · split
    · split
      · decide
      · simp_all [isZero]
    · simp [hs, round_zero, gt, lt, key, szero, zero]

theorem mul_gt_zero_false_of_eq_zero_right (x : F32) {y : F32} (h : eq y zero = true) :
    gt (mul x y) zero = false := by
  have hm := mag_zero_of_eq_zero h
  have hs := sig_eq_zero_of_mag hm
  unfold mul
  split
  · decide
  · split
    · split
      · decide
      · simp_all [isZero]
    · simp [hs, round_zero, gt, lt, key, szero, zero]

/-! ## Facts about rounding -/

theorem ilog2Fuel_spec (fuel : Nat) : ∀ m : Nat, m ≤ fuel → m ≠ 0 →
    2 ^ ilog2Fuel fuel m ≤ m ∧ m < 2 ^ (ilog2Fuel fuel m + 1) := by
  induction fuel with
  | zero => intro m h hm; omega
  | succ f ih =>
    intro m h hm
    unfold ilog2Fuel
    split
    · have h2 := ih (m / 2) (by omega) (by omega)
      have e1 : 2 ^ (ilog2Fuel f (m / 2) + 1) = 2 ^ ilog2Fuel f (m / 2) * 2 := Nat.pow_succ _ _
      have e2 : 2 ^ (ilog2Fuel f (m / 2) + 1 + 1) = 2 ^ (ilog2Fuel f (m / 2) + 1) * 2 := Nat.pow_succ _ _
      omega
    · have : m = 1 := by omega
      subst this
      decide

theorem ilog2_spec {m : Nat} (hm : m ≠ 0) : 2 ^ ilog2 m ≤ m ∧ m < 2 ^ (ilog2 m + 1) :=
  ilog2Fuel_spec m m (Nat.le_refl m) hm

theorem ilog2_unique {m k : Nat} (h1 : 2 ^ k ≤ m) (h2 : m < 2 ^ (k + 1)) : ilog2 m = k := by
  have hm : m ≠ 0 := by
    have := Nat.two_pow_pos k
    omega
  obtain ⟨h3, h4⟩ := ilog2_spec hm
  have h5 : 2 ^ k < 2 ^ (ilog2 m + 1) := Nat.lt_of_le_of_lt h1 h4
  have h6 : 2 ^ ilog2 m < 2 ^ (k + 1) := Nat.lt_of_le_of_lt h3 h2
  rw [Nat.pow_lt_pow_iff_right (by decide)] at h5 h6
  omega

theorem ilog2_mul_pow {m : Nat} (hm : m ≠ 0) (k : Nat) : ilog2 (m * 2 ^ k) = ilog2 m + k := by
  obtain ⟨h3, h4⟩ := ilog2_spec hm
  apply ilog2_unique
  · rw [Nat.pow_add]
    exact Nat.mul_le_mul_right _ h3
  · rw [show ilog2 m + k + 1 = (ilog2 m + 1) + k by omega, Nat.pow_add]
    exact Nat.mul_lt_mul_of_pos_right h4 (Nat.two_pow_pos k)

theorem rne_zero (m : Nat) : rne m 0 = m := by
  simp [rne, Nat.mod_one]

theorem rne_mul_pow (m s k : Nat) : rne (m * 2 ^ k) (s + k) = rne m s := by
  have hk : 0 < 2 ^ k := Nat.two_pow_pos k
  have hq : m * 2 ^ k / 2 ^ (s + k) = m / 2 ^ s := by
    rw [Nat.pow_add, Nat.mul_div_mul_right _ _ hk]
  have hr : m * 2 ^ k % 2 ^ (s + k) = m % 2 ^ s * 2 ^ k := by
    rw [Nat.pow_add, Nat.mul_mod_mul_right]
  unfold rne
  rw [hq, hr]
  have e1 : (2 ^ (s + k) < 2 * (m % 2 ^ s * 2 ^ k)) ↔ (2 ^ s < 2 * (m % 2 ^ s)) := by
    rw [Nat.pow_add, ← Nat.mul_assoc]
    exact Nat.mul_lt_mul_right hk
  have e2 : (2 * (m % 2 ^ s * 2 ^ k) = 2 ^ (s + k)) ↔ (2 * (m % 2 ^ s) = 2 ^ s) := by
    rw [Nat.pow_add, ← Nat.mul_assoc]
    exact Nat.mul_left_inj (Nat.pos_iff_ne_zero.mp hk)
  simp only [e1, e2]

theorem ulpExp_mul_pow {m : Nat} (hm : m ≠ 0) (k : Nat) (e : Int) :
    ulpExp (m * 2 ^ k) (e - k) = ulpExp m e := by
  unfold ulpExp
  rw [ilog2_mul_pow hm]
  have h : ((ilog2 m + k : Nat) : Int) + (e - k) - 23 = (ilog2 m : Int) + e - 23 := by omega
  rw [h]

/-- Rounding depends on the value only: `m * 2 ^ k * 2 ^ (e - k)` rounds as `m * 2 ^ e`. -/
theorem roundBits_mul_pow (m k : Nat) (e : Int) :
    roundBits (m * 2 ^ k) (e - k) = roundBits m e := by
  by_cases hm : m = 0
  · simp [hm, roundBits]
  · have hmk : m * 2 ^ k ≠ 0 := Nat.mul_ne_zero hm (Nat.pos_iff_ne_zero.mp (Nat.two_pow_pos k))
    unfold roundBits
    rw [if_neg hm, if_neg hmk, ulpExp_mul_pow hm]
    congr 1
    generalize ulpExp m e = q
    by_cases h1 : q ≤ e - k
    · have h2 : q ≤ e := by omega
      rw [if_pos h1, if_pos h2]
      have h3 : (e - q).toNat = k + (e - k - q).toNat := by omega
      rw [h3, Nat.pow_add, Nat.mul_assoc]
    · rw [if_neg h1]
      by_cases h2 : q ≤ e
      · rw [if_pos h2]
        have hk : k = (e - q).toNat + (q - (e - k)).toNat := by omega
        have h3 : m * 2 ^ k = (m * 2 ^ (e - q).toNat) * 2 ^ (q - (e - k)).toNat := by
          rw [Nat.mul_assoc, ← Nat.pow_add, ← hk]
        have h4 := rne_mul_pow (m * 2 ^ (e - q).toNat) 0 (q - (e - k)).toNat
        rw [Nat.zero_add, rne_zero, ← h3] at h4
        exact h4
      · rw [if_neg h2]
        have h3 : (q - (e - k)).toNat = (q - e).toNat + k := by omega
        rw [h3, rne_mul_pow]

/-- Rounding the exact value of a finite float gives the float back. -/
theorem roundBits_sig_exp (x : F32) (hx : x.mag.val < infBits) :
    roundBits x.sig x.exp = x.mag.val := by
  unfold infBits at hx
  by_cases h0 : x.mag.val = 0
  · simp [sig, h0, roundBits]
  by_cases hs : x.mag.val < 0x800000
  · have hsig : x.sig = x.mag.val := by simp [sig, hs]
    have hexp : x.exp = -149 := by simp [exp, hs]
    obtain ⟨h1, h2⟩ := ilog2_spec h0
    have h3 : 2 ^ ilog2 x.mag.val < 2 ^ 23 := Nat.lt_of_le_of_lt h1 (by norm_num; omega)
    rw [Nat.pow_lt_pow_iff_right (by decide)] at h3
    have hu : ulpExp x.mag.val (-149) = -149 := by
      unfold ulpExp
      omega
    rw [hsig, hexp]
    unfold roundBits
    rw [if_neg h0, hu]
    simp
  · have hsig : x.sig = 0x800000 + x.mag.val % 0x800000 := by simp [sig, hs]
    have hexp : x.exp = ((x.mag.val / 0x800000 : Nat) : Int) - 150 := by simp [exp, hs]
    have hl : ilog2 x.sig = 23 := by
      apply ilog2_unique
      · rw [hsig]; norm_num
      · rw [hsig]; norm_num; omega
    have hu : ulpExp x.sig x.exp = x.exp := by
      unfold ulpExp
      rw [hl, hexp]
      omega
    have hne : x.sig ≠ 0 := by rw [hsig]; omega
    unfold roundBits
    rw [if_neg hne, hu]
    simp only [le_refl, if_true, sub_self, Int.toNat_zero, Nat.pow_zero, Nat.mul_one]
    rw [hsig, hexp]
    omega

theorem ext_bits {x y : F32} (hs : x.sign = y.sign) (hm : x.mag.val = y.mag.val) : x = y := by
  cases x
  cases y
  simp only [F32.mk.injEq]
  exact ⟨hs, Fin.ext hm⟩

theorem exp_ge (x : F32) : -149 ≤ x.exp := by
  unfold exp
  split <;> omega

/-- A finite float is the rounding of its own value, with any sign attached. -/
theorem round_sig_exp (s : Bool) (x : F32) (hx : x.isFinite = true) :
    round s x.sig x.exp = ⟨s, x.mag⟩ := by
  have hf : x.mag.val < infBits := by simpa [isFinite] using hx
  apply ext_bits
  · rfl
  · show min (roundBits x.sig x.exp) infBits = x.mag.val
    rw [roundBits_sig_exp x hf]
    omega

theorem round_shift_sig_exp (s : Bool) (x : F32) (k : Nat) (e : Int) (hx : x.isFinite = true)
    (he : e = x.exp - k) : round s (x.sig * 2 ^ k) e = ⟨s, x.mag⟩ := by
  rw [← round_sig_exp s x hx, he]
  apply ext_bits
  · rfl
  · show min (roundBits (x.sig * 2 ^ k) (x.exp - k)) infBits = min (roundBits x.sig x.exp) infBits
    rw [roundBits_mul_pow]

/-- Multiplying by `1.0f` is exact: it returns the other factor bit for bit,
unless that factor is a NaN. -/
theorem mul_one (d : F32) (h : d.isNaN = false) : mul d one = d := by
  have hn : d.mag.val ≤ infBits := by simpa [isNaN] using h
  unfold mul
  rw [h, show one.isNaN = false from by decide, show one.isInf = false from by decide,
    show one.isZero = false from by decide, show one.sign = false from rfl]
  by_cases hi : d.mag.val = infBits
  · have h1 : d.isInf = true := by simp [isInf, hi]
    have h2 : d.isZero = false := by simp [isZero, hi, infBits]
    simp only [h1, h2, Bool.or_false, Bool.false_eq_true, if_false, if_true, Bool.bne_false]
    apply ext_bits
    · rfl
    · show infBits = d.mag.val
      exact hi.symm
  · have h1 : d.isInf = false := by simp [isInf, hi]
    have hf : d.isFinite = true := by simp [isFinite]; omega
    simp only [h1, Bool.or_false, Bool.false_eq_true, if_false, Bool.bne_false]
    rw [show one.sig = 2 ^ 23 from by decide, show one.exp = -23 from by decide]
    exact round_shift_sig_exp d.sign d 23 _ hf (by omega)

/-- Multiplying a finite float by `0.0f` gives a zero. -/
theorem mul_zero_of_finite (d : F32) (h : d.isFinite = true) : mul d zero = szero d.sign := by
  have hf : d.mag.val < infBits := by simpa [isFinite] using h
  have h1 : d.isNaN = false := by simp [isNaN]; omega
  have h2 : d.isInf = false := by simp [isInf]; omega
  unfold mul
  rw [h1, h2, show zero.isNaN = false from by decide, show zero.isInf = false from by decide,
    show zero.sig = 0 from by decide, show zero.sign = false from rfl]
  simp only [Bool.or_false, Bool.false_eq_true, if_false, Bool.bne_false, Nat.mul_zero]
  exact round_zero _ _

theorem aligned_szero (s : Bool) (e : Int) : (szero s).aligned e = 0 := by
  cases s <;> simp [aligned, szero, sig]

/-- Adding a zero to a finite float returns the float, or a zero when the
float is itself a zero. -/
theorem add_szero (a : F32) (s : Bool) (h : a.isFinite = true) :
    add a (szero s) = if a.mag.val = 0 then szero (a.sign && s) else a := by
  have hf : a.mag.val < infBits := by simpa [isFinite] using h
  have h1 : a.isNaN = false := by simp [isNaN]; omega
  have h2 : a.isInf = false := by simp [isInf]; omega
  have h3 : (szero s).isNaN = false := by cases s <;> decide
  have h4 : (szero s).isInf = false := by cases s <;> decide
  have h5 : (szero s).exp = -149 := by cases s <;> decide
  have h6 : min a.exp (-149) = -149 := by have := exp_ge a; omega
  unfold add
  rw [h1, h2, h3, h4, h5, h6, aligned_szero]
  simp only [Bool.or_false, Bool.false_eq_true, if_false, Int.add_zero]
  by_cases h0 : a.mag.val = 0
  · have hs : a.sig = 0 := sig_eq_zero_of_mag h0
    have ha : a.aligned (-149) = 0 := by simp [aligned, hs]
    rw [if_pos ha, if_pos h0]
    rfl
  · have hs : a.sig ≠ 0 := by
      unfold sig
      split <;> omega
    have hp : 0 < a.sig * 2 ^ (a.exp - -149).toNat :=
      Nat.mul_pos (Nat.pos_of_ne_zero hs) (Nat.two_pow_pos _)
    have hlt : decide (a.aligned (-149) < 0) = a.sign := by
      unfold aligned
      cases a.sign
      · simp
      · simp; omega
    have hab : (a.aligned (-149)).natAbs = a.sig * 2 ^ (a.exp - -149).toNat := by
      unfold aligned
      cases a.sign
      · simp only [Bool.false_eq_true, if_false]
        exact Int.natAbs_ofNat _
      · simp only [if_true, Int.natAbs_neg]
        exact Int.natAbs_ofNat _
    have hne : a.aligned (-149) ≠ 0 := by
      intro hz
      rw [hz] at hab
      simp at hab
      omega
    rw [if_neg hne, if_neg h0, hlt, hab]
    exact round_shift_sig_exp a.sign a _ _ h (by have := exp_ge a; omega)

theorem eq_self_of_not_nan (x : F32) (h : x.isNaN = false) : eq x x = true := by
  simp [eq, h]

theorem eq_of_mag_zero {x y : F32} (hx : x.mag.val = 0) (hy : y.mag.val = 0) : eq x y = true := by
  have h1 : x.isNaN = false := by simp [isNaN, hx]
  have h2 : y.isNaN = false := by simp [isNaN, hy]
  have k1 : x.key = 0 := by unfold key; split <;> omega
  have k2 : y.key = 0 := by unfold key; split <;> omega
  simp [eq, h1, h2, k1, k2]

/-- The sum `a + d * 0.0f` compares equal to `a` whenever `d` is finite and `a` is finite. -/
theorem add_mul_zero_eq (a d : F32) (ha : a.isFinite = true) (hd : d.isFinite = true) :
    eq (add a (mul d zero)) a = true := by
  rw [mul_zero_of_finite d hd, add_szero a d.sign ha]
  have hf : a.mag.val < infBits := by simpa [isFinite] using ha
  split
  · rename_i h0
    exact eq_of_mag_zero rfl h0
  · exact eq_self_of_not_nan a (by simp [isNaN]; omega)

theorem sig_eq_zero_iff (x : F32) : x.sig = 0 ↔ x.mag.val = 0 := by
  unfold sig
  split <;> omega

theorem aligned_neg (x : F32) (e : Int) : (neg x).aligned e = -x.aligned e := by
  unfold aligned neg sig exp
  cases x.sign <;> simp

theorem neg_isFinite (x : F32) : (neg x).isFinite = x.isFinite := rfl

theorem neg_isNaN (x : F32) : (neg x).isNaN = x.isNaN := rfl

theorem neg_isInf (x : F32) : (neg x).isInf = x.isInf := rfl

theorem neg_exp (x : F32) : (neg x).exp = x.exp := rfl

theorem round_isNaN (s : Bool) (m : Nat) (e : Int) : (round s m e).isNaN = false := by
  have h : (round s m e).mag.val = min (roundBits m e) infBits := rfl
  simp only [isNaN, h, decide_eq_false_iff_not]
  omega

theorem isFinite_of_add {x y : F32} (h : (add x y).isFinite = true) :
    x.isFinite = true ∧ y.isFinite = true := by
  unfold add at h
  split at h
  · exact absurd h (by decide)
  · rename_i hnan
    split at h
    · rename_i hxi
      split at h
      · exact absurd h (by decide)
      · exfalso
        simp only [isFinite, isInf, decide_eq_true_eq] at h hxi
        omega
    · rename_i hxi
      split at h
      · rename_i hyi
        exfalso
        simp only [isFinite, isInf, decide_eq_true_eq] at h hyi
        omega
      · rename_i hyi
        simp only [isNaN, isInf, isFinite, decide_eq_true_eq, Bool.or_eq_true, not_or, not_lt] at hnan hxi hyi ⊢
        omega

theorem isFinite_of_sub {x y : F32} (h : (sub x y).isFinite = true) :
    x.isFinite = true ∧ y.isFinite = true := by
  have := isFinite_of_add h
  rwa [neg_isFinite] at this

theorem units_eq_aligned_mul (x : F32) (e0 : Int) (h1 : -149 ≤ e0) (h2 : e0 ≤ x.exp) :
    x.units = x.aligned e0 * ((2 ^ (e0 + 149).toNat : Nat) : Int) := by
  have hk : (x.exp - -149).toNat = (x.exp - e0).toNat + (e0 + 149).toNat := by omega
  unfold units aligned
  rw [hk, Nat.pow_add, ← Nat.mul_assoc]
  cases x.sign
  · simp only [Bool.false_eq_true, if_false, Nat.cast_mul]
  · simp only [if_true, Nat.cast_mul, neg_mul]

theorem units_natAbs (x : F32) : x.units.natAbs = x.sig * 2 ^ (x.exp - -149).toNat := by
  unfold units aligned
  cases x.sign
  · simp only [Bool.false_eq_true, if_false]
    exact Int.natAbs_ofNat _
  · simp only [if_true, Int.natAbs_neg]
    exact Int.natAbs_ofNat _

theorem units_neg_iff (x : F32) (h : x.units ≠ 0) : decide (x.units < 0) = x.sign := by
  unfold units aligned at *
  cases x.sign
  · simp only [Bool.false_eq_true, if_false] at *
    simp only [decide_eq_false_iff_not]
    omega
  · simp only [if_true] at *
    simp only [decide_eq_true_eq]
    omega

/-- If the exact sum of two finite floats is the value of a finite float `z`,
then the float sum is `z` (up to the sign of a zero). -/
theorem add_eq_of_units (x y z : F32) (hx : x.isFinite = true) (hy : y.isFinite = true)
    (hz : z.isFinite = true) (h : x.units + y.units = z.units) : eq (add x y) z = true := by
  have hfx : x.mag.val < infBits := by simpa [isFinite] using hx
  have hfy : y.mag.val < infBits := by simpa [isFinite] using hy
  have hfz : z.mag.val < infBits := by simpa [isFinite] using hz
  have h1 : x.isNaN = false := by simp [isNaN]; omega
  have h2 : x.isInf = false := by simp [isInf]; omega
  have h3 : y.isNaN = false := by simp [isNaN]; omega
  have h4 : y.isInf = false := by simp [isInf]; omega
  have hzn : z.isNaN = false := by simp [isNaN]; omega
  have he0 : -149 ≤ min x.exp y.exp := by
    have := exp_ge x
    have := exp_ge y
    omega
  have hux := units_eq_aligned_mul x (min x.exp y.exp) he0 (by omega)
  have huy := units_eq_aligned_mul y (min x.exp y.exp) he0 (by omega)
  unfold add
  rw [h1, h2, h3, h4]
  simp only [Bool.or_false, Bool.false_eq_true, if_false]
  generalize min x.exp y.exp = e0 at *
  generalize hn : x.aligned e0 + y.aligned e0 = n at *
  have hp : (0 : Int) < ((2 ^ (e0 + 149).toNat : Nat) : Int) := by
    exact_mod_cast Nat.two_pow_pos _
  have hzu : z.units = n * ((2 ^ (e0 + 149).toNat : Nat) : Int) := by
    rw [← h, hux, huy, ← hn, Int.add_mul]
  by_cases h0 : n = 0
  · rw [if_pos h0]
    have hz0 : z.units = 0 := by rw [hzu, h0, Int.zero_mul]
    have hzs : z.sig = 0 := by
      have := units_natAbs z
      rw [hz0] at this
      simp only [Int.natAbs_zero] at this
      have hpp := Nat.two_pow_pos (z.exp - -149).toNat
      rcases Nat.eq_zero_or_pos z.sig with h | h
      · exact h
      · have := Nat.mul_pos h hpp
        omega
    exact eq_of_mag_zero rfl ((sig_eq_zero_iff z).mp hzs)
  · rw [if_neg h0]
    have hzne : z.units ≠ 0 := by
      rw [hzu]
      exact Int.mul_ne_zero h0 (by omega)
    have hsign : decide (n < 0) = z.sign := by
      rw [← units_neg_iff z hzne, hzu]
      congr 1
      apply propext
      constructor
      · intro hlt
        exact Int.mul_neg_of_neg_of_pos hlt hp
      · intro hlt
        by_contra hge
        have : 0 ≤ n * ((2 ^ (e0 + 149).toNat : Nat) : Int) :=
          Int.mul_nonneg (by omega) (by omega)
        omega
    have habs : n.natAbs * 2 ^ (e0 + 149).toNat = z.sig * 2 ^ (z.exp - -149).toNat := by
      rw [← units_natAbs z, hzu, Int.natAbs_mul, Int.natAbs_ofNat]
    have hr : roundBits n.natAbs e0 = z.mag.val := by
      have e1 := roundBits_mul_pow n.natAbs (e0 + 149).toNat e0
      have e2 := roundBits_mul_pow z.sig (z.exp - -149).toNat z.exp
      have e3 : e0 - ((e0 + 149).toNat : Int) = z.exp - ((z.exp - -149).toNat : Int) := by
        have := exp_ge z
        omega
      rw [← e1, habs, e3, e2, roundBits_sig_exp z hfz]
    have hres : round (decide (n < 0)) n.natAbs e0 = z := by
      apply ext_bits
      · exact hsign
      · show min (roundBits n.natAbs e0) infBits = z.mag.val
        rw [hr]
        omega
    rw [hres]
    exact eq_self_of_not_nan z hzn

/-! ## Facts about the square root, and known values -/

theorem isqrtBits_spec (n : Nat) : ∀ (i r : Nat), r * r ≤ n → n < (r + 2 ^ i) * (r + 2 ^ i) →
    isqrtBits n i r * isqrtBits n i r ≤ n ∧
      n < (isqrtBits n i r + 1) * (isqrtBits n i r + 1) := by
  intro i
  induction i with
  | zero =>
    intro r h1 h2
    exact ⟨h1, h2⟩
  | succ i ih =>
    intro r h1 h2
    unfold isqrtBits
    have e : r + 2 ^ i + 2 ^ i = r + 2 ^ (i + 1) := by
      have := Nat.pow_succ 2 i
      omega
    split
    · rename_i hc
      exact ih (r + 2 ^ i) hc (by rw [e]; exact h2)
    · rename_i hc
      exact ih r h1 (by omega)

/-- The integer square root is exact: `isqrt n` is the floor of the square root of `n`. -/
theorem isqrt_spec (n : Nat) : isqrt n * isqrt n ≤ n ∧ n < (isqrt n + 1) * (isqrt n + 1) := by
  unfold isqrt
  apply isqrtBits_spec
  · omega
  · rw [Nat.zero_add, ← Nat.pow_add]
    by_cases hn : n = 0
    · rw [hn]
      exact Nat.two_pow_pos _
    · obtain ⟨-, h2⟩ := ilog2_spec hn
      exact Nat.lt_of_lt_of_le h2 (Nat.pow_le_pow_right (by decide) (by omega))

/-- Known values: `1 + 1 = 2`, `1 / 3 = 0x3EAAAAAB`, `sqrt 2 = 0x3FB504F3`,
`FLT_MAX + FLT_MAX = inf`, the tie `16777216 + 1 = 16777216`, and the smallest
subnormal halves to zero. -/
theorem known_values :
    add one one = two ∧ div one (ofInt 3) = ⟨false, 0x3EAAAAAB⟩ ∧ sqrt two = ⟨false, 0x3FB504F3⟩ ∧
      add ⟨false, 0x7F7FFFFF⟩ ⟨false, 0x7F7FFFFF⟩ = inf false ∧
      add (ofInt 16777216) one = ofInt 16777216 ∧
      mul ⟨false, 1⟩ ⟨false, 0x3F000000⟩ = zero ∧
      ofInt 3 = ⟨false, 0x40400000⟩ ∧ ofInt 33554432 = ⟨false, 0x4C000000⟩ := by
  decide

/-! ## Facts about the clamp of `Lerp` -/

/-- The clamp `fmax(0.0f, fmin(1.0f, t))` by cases: a NaN and everything not
below `1.0f` go to `1.0f`, everything not above `0.0f` goes to `0.0f`, and the
values strictly between are kept. -/
theorem clamp_eq (t : F32) :
    fmax zero (fmin one t) =
      if t.isNaN then one else if lt t one then (if lt zero t then t else zero) else one := by
  have h1 : one.isNaN = false := by decide
  have h0 : zero.isNaN = false := by decide
  have h01 : fmax zero one = one := by decide
  unfold fmin
  rw [h1]
  simp only [Bool.false_eq_true, if_false]
  cases hn : t.isNaN
  · simp only [Bool.false_eq_true, if_false]
    cases hl : lt t one
    · simp only [Bool.false_eq_true, if_false]
      exact h01
    · simp only [if_true]
      unfold fmax
      rw [h0, hn]
      simp only [Bool.false_eq_true, if_false]
  · simp only [if_true]
    exact h01

theorem clamp_of_lt_zero {t : F32} (h : lt t zero = true) : fmax zero (fmin one t) = zero := by
  rw [clamp_eq]
  unfold lt at h
  simp only [Bool.and_eq_true, Bool.not_eq_true', decide_eq_true_eq] at h
  obtain ⟨⟨hn, -⟩, hk⟩ := h
  have hk0 : zero.key = 0 := by decide
  have hk1 : one.key = 0x3F800000 := by decide
  have h1 : lt t one = true := by
    unfold lt
    simp only [hn, show one.isNaN = false from by decide, Bool.not_false, Bool.true_and,
      decide_eq_true_eq]
    omega
  have h2 : lt zero t = false := by
    unfold lt
    simp only [hn, show zero.isNaN = false from by decide, Bool.not_false, Bool.true_and,
      decide_eq_false_iff_not]
    omega
  simp [hn, h1, h2]

theorem clamp_of_one_lt {t : F32} (h : lt one t = true) : fmax zero (fmin one t) = one := by
  rw [clamp_eq]
  unfold lt at h
  simp only [Bool.and_eq_true, Bool.not_eq_true', decide_eq_true_eq] at h
  obtain ⟨⟨-, hn⟩, hk⟩ := h
  have h1 : lt t one = false := by
    unfold lt
    simp only [hn, show one.isNaN = false from by decide, Bool.not_false, Bool.true_and,
      decide_eq_false_iff_not]
    omega
  simp [hn, h1]

theorem clamp_of_nan {t : F32} (h : t.isNaN = true) : fmax zero (fmin one t) = one := by
  rw [clamp_eq]
  simp [h]

theorem le_of_lt {x y : F32} (h : lt x y = true) : le x y = true := by
  unfold lt at h
  unfold le
  simp only [Bool.and_eq_true, Bool.not_eq_true', decide_eq_true_eq] at h ⊢
  exact ⟨h.1, by omega⟩

/-- The clamped parameter always lies in `[0, 1]`. -/
theorem clamp_range (t : F32) :
    le zero (fmax zero (fmin one t)) = true ∧ le (fmax zero (fmin one t)) one = true := by
  rw [clamp_eq]
  cases hn : t.isNaN
  · cases h1 : lt t one
    · simp only [Bool.false_eq_true, if_false]
      decide
    · cases h2 : lt zero t
      · simp only [Bool.false_eq_true, if_false, if_true]
        decide
      · simp only [Bool.false_eq_true, if_false, if_true]
        exact ⟨le_of_lt h2, le_of_lt h1⟩
  · simp only [if_true]
    decide

/-- Clamping twice is clamping once. -/
theorem clamp_idem (t : F32) :
    fmax zero (fmin one (fmax zero (fmin one t))) = fmax zero (fmin one t) := by
  have e1 : fmax zero (fmin one one) = one := by decide
  have e0 : fmax zero (fmin one zero) = zero := by decide
  rw [clamp_eq t]
  cases hn : t.isNaN
  · cases h1 : lt t one
    · simp only [Bool.false_eq_true, if_false]
      exact e1
    · cases h2 : lt zero t
      · simp only [Bool.false_eq_true, if_false, if_true]
        exact e0
      · simp only [Bool.false_eq_true, if_false, if_true]
        rw [clamp_eq t]
        simp [hn, h1, h2]
  · simp only [if_true]
    exact e1

theorem lerp_zero_component (a b : F32) (h : (sub b a).isFinite = true) :
    eq (add a (mul (sub b a) (fmax zero (fmin one zero)))) a = true := by
  rw [show fmax zero (fmin one zero) = zero from by decide]
  exact add_mul_zero_eq a (sub b a) (isFinite_of_sub h).2 h

theorem lerp_one_component (a b : F32) (h : subIsExact b a = true) :
    eq (add a (mul (sub b a) (fmax zero (fmin one one)))) b = true := by
  unfold subIsExact at h
  simp only [Bool.and_eq_true, decide_eq_true_eq] at h
  obtain ⟨hf, hu⟩ := h
  have hd : (sub b a).isNaN = false := by
    simp only [isFinite, decide_eq_true_eq] at hf
    simp only [isNaN, decide_eq_false_iff_not]
    omega
  rw [show fmax zero (fmin one one) = one from by decide, mul_one _ hd]
  exact add_eq_of_units a (sub b a) b (isFinite_of_sub hf).2 hf (isFinite_of_sub hf).1
    (by rw [hu]; omega)

/-! ## Facts about reciprocals -/

theorem rne_ge (m k : Nat) : m / 2 ^ k ≤ rne m k := by
  unfold rne
  split <;> omega

theorem sig_lt (x : F32) : x.sig < 2 ^ 24 := by
  unfold sig
  split <;> omega

theorem exp_le (x : F32) (hf : x.mag.val < infBits) : x.exp ≤ 104 := by
  unfold infBits at hf
  unfold exp
  split <;> omega

/-- A nonzero value of magnitude at least `2 ^ -149` does not round to zero. -/
theorem roundBits_pos {m : Nat} {e : Int} (hm : m ≠ 0) (h : -149 ≤ (ilog2 m : Int) + e) :
    0 < roundBits m e := by
  obtain ⟨h1, -⟩ := ilog2_spec hm
  unfold roundBits
  rw [if_neg hm]
  by_cases hq : ulpExp m e ≤ e
  · rw [if_pos hq]
    have := Nat.mul_pos (Nat.pos_of_ne_zero hm) (Nat.two_pow_pos (e - ulpExp m e).toNat)
    omega
  · rw [if_neg hq]
    have hk : (ulpExp m e - e).toNat ≤ ilog2 m := by
      unfold ulpExp at *
      omega
    have h2 : 2 ^ (ulpExp m e - e).toNat ≤ m :=
      Nat.le_trans (Nat.pow_le_pow_right (by decide) hk) h1
    have h3 : 1 ≤ m / 2 ^ (ulpExp m e - e).toNat :=
      (Nat.one_le_div_iff (Nat.two_pow_pos _)).mpr h2
    have h4 := rne_ge m (ulpExp m e - e).toNat
    omega

/-- The reciprocal `1.0f / l` of a float `l > 0.0f` is never negative, and it is
positive when `l` is finite. -/
theorem div_one_of_gt_zero {l : F32} (hl : gt l zero = true) :
    le zero (div one l) = true ∧ (l.isFinite = true → gt (div one l) zero = true) := by
  unfold gt lt at hl
  simp only [Bool.and_eq_true, Bool.not_eq_true', decide_eq_true_eq] at hl
  obtain ⟨⟨-, hn⟩, hk⟩ := hl
  have hk0 : zero.key = 0 := by decide
  rw [hk0] at hk
  have hsign : l.sign = false := by
    unfold key at hk
    cases hs : l.sign
    · rfl
    · rw [hs] at hk
      simp only [if_true] at hk
      omega
  have hmag : 0 < l.mag.val := by
    unfold key at hk
    rw [hsign] at hk
    simp only [Bool.false_eq_true, if_false] at hk
    omega
  have hz : l.isZero = false := by
    simp only [isZero, decide_eq_false_iff_not]
    omega
  have hle : ∀ m e, le zero (round false m e) = true := by
    intro m e
    have hr := round_isNaN false m e
    unfold le
    rw [hr, show zero.isNaN = false from by decide, hk0]
    simp only [Bool.not_false, Bool.true_and, decide_eq_true_eq]
    show (0 : Int) ≤ if false = true then _ else _
    simp only [Bool.false_eq_true, if_false]
    omega
  unfold div
  rw [hn, hz, show one.isNaN = false from by decide, show one.isInf = false from by decide,
    show one.sign = false from rfl, hsign]
  simp only [Bool.or_false, Bool.false_eq_true, if_false, bne_self_eq_false]
  by_cases hi : l.isInf = true
  · rw [if_pos hi]
    refine ⟨by decide, ?_⟩
    intro hf
    simp only [isFinite, isInf, decide_eq_true_eq] at hf hi
    omega
  · rw [if_neg hi]
    refine ⟨hle _ _, ?_⟩
    intro hf
    have hf2 : l.mag.val < infBits := by simpa [isFinite] using hf
    have hsl := sig_lt l
    have hs0 : 0 < l.sig := by
      rcases Nat.eq_zero_or_pos l.sig with h | h
      · have := (sig_eq_zero_iff l).mp h
        omega
      · exact h
    have hq : 2 ^ 63 ≤ one.sig * 2 ^ 64 / l.sig := by
      rw [Nat.le_div_iff_mul_le hs0, show one.sig = 2 ^ 23 from by decide]
      have : 2 ^ 63 * l.sig ≤ 2 ^ 63 * 2 ^ 24 := Nat.mul_le_mul_left _ (Nat.le_of_lt hsl)
      exact Nat.le_trans this (by norm_num)
    generalize one.sig * 2 ^ 64 / l.sig = q at hq
    generalize (if one.sig * 2 ^ 64 % l.sig = 0 then 0 else 1) = st
    have hm : 2 ^ 64 ≤ 2 * q + st := by
      have : 2 ^ 64 = 2 * 2 ^ 63 := by norm_num
      omega
    have hm0 : 2 * q + st ≠ 0 := by
      have := Nat.two_pow_pos 64
      omega
    obtain ⟨-, hl2⟩ := ilog2_spec hm0
    have hlog : 64 ≤ ilog2 (2 * q + st) := by
      have h5 : 2 ^ 64 < 2 ^ (ilog2 (2 * q + st) + 1) := Nat.lt_of_le_of_lt hm hl2
      rw [Nat.pow_lt_pow_iff_right (by decide)] at h5
      omega
    have hexp := exp_le l hf2
    have hpos := roundBits_pos (e := one.exp - l.exp - 65) hm0
      (by rw [show one.exp = -23 from by decide]; omega)
    unfold gt lt
    rw [round_isNaN, show zero.isNaN = false from by decide, hk0]
    simp only [Bool.not_false, Bool.true_and, decide_eq_true_eq]
    show (0 : Int) < if false = true then _ else _
    simp only [Bool.false_eq_true, if_false]
    show (0 : Int) < ((min (roundBits (2 * q + st) (one.exp - l.exp - 65)) infBits : Nat) : Int)
    have : 0 < infBits := by decide
    omega

theorem ne_zero_of_gt_zero {l : F32} (hl : gt l zero = true) : ne l zero = true := by
  unfold gt lt at hl
  simp only [Bool.and_eq_true, Bool.not_eq_true', decide_eq_true_eq] at hl
  unfold ne eq
  have : ¬ l.key = zero.key := by omega
  simp [this]

/-! ## Facts about negation and subtraction -/

/-- Multiplication commutes.  For two NaN factors this rests on the model
giving every NaN result the same encoding; the statements built on it are
about products that are not NaN. -/
theorem mul_comm (x y : F32) : mul x y = mul y x := by
  have hs : (x.sign != y.sign) = (y.sign != x.sign) := by
    cases x.sign <;> cases y.sign <;> rfl
  unfold mul
  rw [Bool.or_comm x.isNaN, Bool.or_comm x.isInf, Bool.or_comm x.isZero, Nat.mul_comm x.sig,
    Int.add_comm x.exp, hs]

theorem neg_neg (x : F32) : neg (neg x) = x := by
  cases x
  simp [neg]

theorem neg_round (s : Bool) (m : Nat) (e : Int) : neg (round s m e) = round (!s) m e := rfl

theorem neg_szero (s : Bool) : neg (szero s) = szero (!s) := rfl

theorem neg_sign (x : F32) : (neg x).sign = !x.sign := rfl

theorem neg_mag (x : F32) : (neg x).mag = x.mag := rfl

theorem add_of_nan {x y : F32} (h : (x.isNaN || y.isNaN) = true) : add x y = nan := by
  unfold add
  rw [if_pos h]

theorem add_of_inf_left {x y : F32} (hx : x.isNaN = false) (hy : y.isNaN = false)
    (hi : x.isInf = true) :
    add x y = if (y.isInf && (x.sign != y.sign)) = true then nan else x := by
  unfold add
  rw [hx, hy, hi]
  simp only [Bool.or_false, Bool.false_eq_true, if_false, if_true]

theorem add_of_inf_right {x y : F32} (hx : x.isNaN = false) (hy : y.isNaN = false)
    (hi : x.isInf = false) (hj : y.isInf = true) : add x y = y := by
  unfold add
  rw [hx, hy, hi, hj]
  simp only [Bool.or_false, Bool.false_eq_true, if_false, if_true]

theorem add_of_finite {x y : F32} (hx : x.isNaN = false) (hy : y.isNaN = false)
    (hi : x.isInf = false) (hj : y.isInf = false) :
    add x y =
      if x.aligned (min x.exp y.exp) + y.aligned (min x.exp y.exp) = 0 then
        szero (x.sign && y.sign)
      else
        round (decide (x.aligned (min x.exp y.exp) + y.aligned (min x.exp y.exp) < 0))
          (x.aligned (min x.exp y.exp) + y.aligned (min x.exp y.exp)).natAbs (min x.exp y.exp) := by
  unfold add
  rw [hx, hy, hi, hj]
  simp only [Bool.or_false, Bool.false_eq_true, if_false]

/-- Negation distributes over addition up to the sign of a zero: unless it is
a NaN, `x + y` compares equal to `-((-y) + (-x))`. -/
theorem add_eq_neg_add_neg (x y : F32) (h : (add x y).isNaN = false) :
    eq (add x y) (neg (add (neg y) (neg x))) = true := by
  cases hxn : x.isNaN
  case true =>
    rw [add_of_nan (by simp [hxn])] at h
    exact absurd h (by decide)
  cases hyn : y.isNaN
  case true =>
    rw [add_of_nan (by simp [hyn])] at h
    exact absurd h (by decide)
  have hxn' : (neg x).isNaN = false := hxn
  have hyn' : (neg y).isNaN = false := hyn
  cases hxi : x.isInf
  case true =>
    have hxm : x.mag.val = infBits := by simpa [isInf] using hxi
    rw [add_of_inf_left hxn hyn hxi] at h ⊢
    cases hyi : y.isInf
    case true =>
      have hym : y.mag.val = infBits := by simpa [isInf] using hyi
      have hyi' : (neg y).isInf = true := hyi
      have hxi' : (neg x).isInf = true := hxi
      rw [hyi] at h
      rw [add_of_inf_left hyn' hxn' hyi', hxi']
      cases hsx : x.sign <;> cases hsy : y.sign
      · have e : x = y := ext_bits (by rw [hsx, hsy]) (by rw [hxm, hym])
        simp only [neg_sign, hsx, hsy]
        rw [← e]
        simp only [Bool.true_and, Bool.not_false, bne_self_eq_false, Bool.false_eq_true, if_false,
          neg_neg]
        exact eq_self_of_not_nan x hxn
      · rw [hsx, hsy] at h
        exact absurd (show nan.isNaN = false from by simpa using h) (by decide)
      · rw [hsx, hsy] at h
        exact absurd (show nan.isNaN = false from by simpa using h) (by decide)
      · have e : x = y := ext_bits (by rw [hsx, hsy]) (by rw [hxm, hym])
        simp only [neg_sign, hsx, hsy]
        rw [← e]
        simp only [Bool.true_and, Bool.not_true, bne_self_eq_false, Bool.false_eq_true, if_false,
          neg_neg]
        exact eq_self_of_not_nan x hxn
    case false =>
      have hyi' : (neg y).isInf = false := hyi
      have hxi' : (neg x).isInf = true := hxi
      rw [add_of_inf_right hyn' hxn' hyi' hxi', neg_neg]
      simp only [Bool.false_and, Bool.false_eq_true, if_false]
      exact eq_self_of_not_nan x hxn
  case false =>
    have hxi' : (neg x).isInf = false := hxi
    cases hyi : y.isInf
    case true =>
      have hyi' : (neg y).isInf = true := hyi
      rw [add_of_inf_right hxn hyn hxi hyi, add_of_inf_left hyn' hxn' hyi', hxi']
      simp only [Bool.false_and, Bool.false_eq_true, if_false, neg_neg]
      exact eq_self_of_not_nan y hyn
    case false =>
      have hyi' : (neg y).isInf = false := hyi
      rw [add_of_finite hxn hyn hxi hyi, add_of_finite hyn' hxn' hyi' hxi']
      simp only [neg_exp, aligned_neg, neg_sign]
      rw [Int.min_comm y.exp x.exp]
      generalize min x.exp y.exp = e0
      have hsum : -y.aligned e0 + -x.aligned e0 = -(x.aligned e0 + y.aligned e0) := by omega
      rw [hsum]
      generalize x.aligned e0 + y.aligned e0 = n
      by_cases h0 : n = 0
      · rw [if_pos h0, if_pos (by omega : -n = 0)]
        exact eq_of_mag_zero rfl rfl
      · rw [if_neg h0, if_neg (by omega : ¬ -n = 0), neg_round, Int.natAbs_neg]
        have hd : (!decide (-n < 0)) = decide (n < 0) := by
          by_cases hlt : n < 0
          · have : ¬ (-n < 0) := by omega
            simp [hlt, this]
          · have : -n < 0 := by omega
            simp [hlt, this]
        rw [hd]
        exact eq_self_of_not_nan _ (round_isNaN _ _ _)

/-- Subtraction is antisymmetric up to the sign of a zero: unless it is a NaN,
`p - q` compares equal to `-(q - p)`. -/
theorem sub_eq_neg_sub (p q : F32) (h : (sub p q).isNaN = false) :
    eq (sub p q) (neg (sub q p)) = true := by
  have := add_eq_neg_add_neg p (neg q) h
  rwa [neg_neg] at this

end F32

/-! ## Degenerate inputs -/

/-- C1: dividing a `Vec2` or a `Vec3` by a scalar that compares equal to `0.0f`
returns the vector unchanged, bit for bit, and so do the in-place forms `/=`. -/
theorem div_by_zero_unchanged (v : Vec2) (w : Vec3) (s : F32) (hs : F32.eq s F32.zero = true) :
    Vec2.div v s = v ∧ Vec3.div w s = w ∧ Vec2.divAssign v s = v ∧ Vec3.divAssign w s = w := by
  simp [Vec2.div, Vec3.div, Vec2.divAssign, Vec3.divAssign, F32.ne, hs]

theorem div_by_zero_unchanged_witness :
    F32.eq F32.zero F32.zero = true ∧
      (Vec2.div ⟨F32.one, F32.two⟩ F32.zero = ⟨F32.one, F32.two⟩ ∧
        Vec3.div ⟨F32.one, F32.two, F32.negOne⟩ F32.zero = ⟨F32.one, F32.two, F32.negOne⟩ ∧
        Vec2.divAssign ⟨F32.one, F32.two⟩ F32.zero = ⟨F32.one, F32.two⟩ ∧
        Vec3.divAssign ⟨F32.one, F32.two, F32.negOne⟩ F32.zero =
          ⟨F32.one, F32.two, F32.negOne⟩) :=
  ⟨by decide, div_by_zero_unchanged ⟨F32.one, F32.two⟩ ⟨F32.one, F32.two, F32.negOne⟩ F32.zero
    (by decide)⟩

/-- C2: a `Vec2` or `Vec3` whose `Length` compares equal to `0.0f` is returned
unchanged by `Normalize`; in particular `Normalize(Vec2(0,0)) == Vec2(0,0)`. -/
theorem normalize_zero_length_unchanged (v : Vec2) (w : Vec3) :
    (F32.eq (Vec2.Length v) F32.zero = true → Vec2.Normalize v = v) ∧
    (F32.eq (Vec3.Length w) F32.zero = true → Vec3.Normalize w = w) ∧
    Vec2.eq (Vec2.Normalize ⟨F32.zero, F32.zero⟩) ⟨F32.zero, F32.zero⟩ = true := by
  refine ⟨?_, ?_, by decide⟩
  · intro hv
    simp [Vec2.Normalize, F32.gt_zero_false_of_eq_zero hv]
  · intro hw
    simp [Vec3.Normalize, F32.gt_zero_false_of_eq_zero hw]

theorem normalize_zero_length_unchanged_witness :
    F32.eq (Vec2.Length ⟨⟨true, 0⟩, ⟨false, 1⟩⟩) F32.zero = true ∧
    Vec2.Normalize ⟨⟨true, 0⟩, ⟨false, 1⟩⟩ = ⟨⟨true, 0⟩, ⟨false, 1⟩⟩ ∧
    F32.eq (Vec3.Length Vec3.zero) F32.zero = true ∧
    Vec3.Normalize Vec3.zero = Vec3.zero :=
  ⟨by decide,
    (normalize_zero_length_unchanged ⟨⟨true, 0⟩, ⟨false, 1⟩⟩ Vec3.zero).1 (by decide),
    by decide,
    (normalize_zero_length_unchanged ⟨⟨true, 0⟩, ⟨false, 1⟩⟩ Vec3.zero).2.1 (by decide)⟩

/-- C3: `Project(a, b)` is `Vec3(0,0,0)` when `LengthSquared(b) > 0.0f` is false,
and `b * (Dot(a, b) / LengthSquared(b))` when it is true; and
`Project(Vec3(3,4,0), Vec3(1,0,0)) == Vec3(3,0,0)`. -/
theorem project_cases (a b : Vec3) :
    (F32.gt (Vec3.LengthSquared b) F32.zero = false → Vec3.Project a b = ⟨F32.zero, F32.zero, F32.zero⟩) ∧
    (F32.gt (Vec3.LengthSquared b) F32.zero = true →
      Vec3.Project a b = Vec3.mul b (F32.div (Vec3.Dot a b) (Vec3.LengthSquared b))) ∧
    Vec3.eq (Vec3.Project ⟨F32.ofInt 3, F32.ofInt 4, F32.zero⟩ ⟨F32.one, F32.zero, F32.zero⟩)
      ⟨F32.ofInt 3, F32.zero, F32.zero⟩ = true := by
  refine ⟨?_, ?_, by decide⟩
  · intro h
    simp [Vec3.Project, h, Vec3.zero]
  · intro h
    simp [Vec3.Project, h]

theorem project_cases_witness :
    F32.gt (Vec3.LengthSquared Vec3.zero) F32.zero = false ∧
    Vec3.Project ⟨F32.one, F32.two, F32.one⟩ Vec3.zero = ⟨F32.zero, F32.zero, F32.zero⟩ ∧
    F32.gt (Vec3.LengthSquared ⟨F32.zero, F32.two, F32.zero⟩) F32.zero = true ∧
    Vec3.Project ⟨F32.one, F32.two, F32.one⟩ ⟨F32.zero, F32.two, F32.zero⟩ =
      ⟨F32.zero, F32.two, F32.zero⟩ :=
  ⟨by decide,
    (project_cases ⟨F32.one, F32.two, F32.one⟩ Vec3.zero).1 (by decide),
    by decide,
    ((project_cases ⟨F32.one, F32.two, F32.one⟩ ⟨F32.zero, F32.two, F32.zero⟩).2.1
      (by decide)).trans (by decide)⟩

/-- C4: when `Length(a)` or `Length(b)` compares equal to `0.0f`, `Angle(a, b)`
is `0.0f`, for `Vec2` and for `Vec3` and whatever `std::acos` computes; in
particular `Angle(v, zeroVector) == 0` for every `v`. -/
theorem angle_zero_length (acos : F32 → F32) (a b : Vec2) (c d : Vec3) :
    (F32.eq (Vec2.Length a) F32.zero = true ∨ F32.eq (Vec2.Length b) F32.zero = true →
      Vec2.Angle acos a b = F32.zero) ∧
    (F32.eq (Vec3.Length c) F32.zero = true ∨ F32.eq (Vec3.Length d) F32.zero = true →
      Vec3.Angle acos c d = F32.zero) ∧
    F32.eq (Vec2.Angle acos a Vec2.zero) F32.zero = true ∧
    F32.eq (Vec3.Angle acos c Vec3.zero) F32.zero = true := by
  have h2 : F32.eq (Vec2.Length a) F32.zero = true ∨ F32.eq (Vec2.Length b) F32.zero = true →
      F32.gt (F32.mul (Vec2.Length a) (Vec2.Length b)) F32.zero = false := by
    intro hab
    rcases hab with h | h
    · exact F32.mul_gt_zero_false_of_eq_zero_left _ h
    · exact F32.mul_gt_zero_false_of_eq_zero_right _ h
  have h3 : F32.eq (Vec3.Length c) F32.zero = true ∨ F32.eq (Vec3.Length d) F32.zero = true →
      F32.gt (F32.mul (Vec3.Length c) (Vec3.Length d)) F32.zero = false := by
    intro hcd
    rcases hcd with h | h
    · exact F32.mul_gt_zero_false_of_eq_zero_left _ h
    · exact F32.mul_gt_zero_false_of_eq_zero_right _ h
  have h20 : F32.gt (F32.mul (Vec2.Length a) (Vec2.Length Vec2.zero)) F32.zero = false :=
    F32.mul_gt_zero_false_of_eq_zero_right _ (by decide)
  have h30 : F32.gt (F32.mul (Vec3.Length c) (Vec3.Length Vec3.zero)) F32.zero = false :=
    F32.mul_gt_zero_false_of_eq_zero_right _ (by decide)
  refine ⟨?_, ?_, ?_, ?_⟩
  · intro hab
    simp [Vec2.Angle, h2 hab]
  · intro hcd
    simp [Vec3.Angle, h3 hcd]
  · rw [show Vec2.Angle acos a Vec2.zero = F32.zero from by simp [Vec2.Angle, h20]]
    decide
  · rw [show Vec3.Angle acos c Vec3.zero = F32.zero from by simp [Vec3.Angle, h30]]
    decide

theorem angle_zero_length_witness :
    (F32.eq (Vec2.Length Vec2.zero) F32.zero = true ∨
        F32.eq (Vec2.Length ⟨F32.one, F32.two⟩) F32.zero = true) ∧
      (F32.eq (Vec3.Length ⟨F32.one, F32.two, F32.one⟩) F32.zero = true ∨
        F32.eq (Vec3.Length Vec3.zero) F32.zero = true) ∧
      (Vec2.Angle F32.sqrt Vec2.zero ⟨F32.one, F32.two⟩ = F32.zero ∧
        Vec3.Angle F32.sqrt ⟨F32.one, F32.two, F32.one⟩ Vec3.zero = F32.zero) :=
  ⟨Or.inl (by decide), Or.inr (by decide),
    (angle_zero_length F32.sqrt Vec2.zero ⟨F32.one, F32.two⟩ ⟨F32.one, F32.two, F32.one⟩
      Vec3.zero).1 (Or.inl (by decide)),
    (angle_zero_length F32.sqrt Vec2.zero ⟨F32.one, F32.two⟩ ⟨F32.one, F32.two, F32.one⟩
      Vec3.zero).2.1 (Or.inr (by decide))⟩

/-! ## Interpolation -/

/-- C5 (as amended): when every component of the float difference `b - a` is
finite, `Lerp(a, b, 0) == a`; when moreover every component of `b - a` is
computed without rounding error, `Lerp(a, b, 1) == b`.  For `Vec2` and `Vec3`. -/
theorem lerp_endpoints (a b : Vec2) (c d : Vec3) :
    ((F32.sub b.x a.x).isFinite = true ∧ (F32.sub b.y a.y).isFinite = true →
      Vec2.eq (Vec2.Lerp a b F32.zero) a = true) ∧
    ((F32.sub d.x c.x).isFinite = true ∧ (F32.sub d.y c.y).isFinite = true ∧
        (F32.sub d.z c.z).isFinite = true →
      Vec3.eq (Vec3.Lerp c d F32.zero) c = true) ∧
    (F32.subIsExact b.x a.x = true ∧ F32.subIsExact b.y a.y = true →
      Vec2.eq (Vec2.Lerp a b F32.one) b = true) ∧
    (F32.subIsExact d.x c.x = true ∧ F32.subIsExact d.y c.y = true ∧
        F32.subIsExact d.z c.z = true →
      Vec3.eq (Vec3.Lerp c d F32.one) d = true) := by
  refine ⟨?_, ?_, ?_, ?_⟩
  · intro h2
    simp only [Vec2.eq, Vec2.Lerp, Vec2.add, Vec2.mul, Vec2.sub, Bool.and_eq_true]
    exact ⟨F32.lerp_zero_component _ _ h2.1, F32.lerp_zero_component _ _ h2.2⟩
  · intro h3
    simp only [Vec3.eq, Vec3.Lerp, Vec3.add, Vec3.mul, Vec3.sub, Bool.and_eq_true]
    exact ⟨⟨F32.lerp_zero_component _ _ h3.1, F32.lerp_zero_component _ _ h3.2.1⟩,
      F32.lerp_zero_component _ _ h3.2.2⟩
  · intro he
    simp only [Vec2.eq, Vec2.Lerp, Vec2.add, Vec2.mul, Vec2.sub, Bool.and_eq_true]
    exact ⟨F32.lerp_one_component _ _ he.1, F32.lerp_one_component _ _ he.2⟩
  · intro he
    simp only [Vec3.eq, Vec3.Lerp, Vec3.add, Vec3.mul, Vec3.sub, Bool.and_eq_true]
    exact ⟨⟨F32.lerp_one_component _ _ he.1, F32.lerp_one_component _ _ he.2.1⟩,
      F32.lerp_one_component _ _ he.2.2⟩

theorem lerp_endpoints_witness :
    Vec2.eq (Vec2.Lerp ⟨F32.one, F32.two⟩ ⟨F32.ofInt 3, F32.negOne⟩ F32.zero) ⟨F32.one, F32.two⟩ = true ∧
    Vec3.eq (Vec3.Lerp ⟨F32.one, F32.two, F32.zero⟩ ⟨F32.ofInt 3, F32.negOne, F32.one⟩ F32.zero)
      ⟨F32.one, F32.two, F32.zero⟩ = true ∧
    Vec2.eq (Vec2.Lerp ⟨F32.one, F32.two⟩ ⟨F32.ofInt 3, F32.negOne⟩ F32.one)
      ⟨F32.ofInt 3, F32.negOne⟩ = true ∧
    Vec3.eq (Vec3.Lerp ⟨F32.one, F32.two, F32.zero⟩ ⟨F32.ofInt 3, F32.negOne, F32.one⟩ F32.one)
      ⟨F32.ofInt 3, F32.negOne, F32.one⟩ = true :=
  have h := lerp_endpoints ⟨F32.one, F32.two⟩ ⟨F32.ofInt 3, F32.negOne⟩
    ⟨F32.one, F32.two, F32.zero⟩ ⟨F32.ofInt 3, F32.negOne, F32.one⟩
  ⟨h.1 (by decide), h.2.1 (by decide), h.2.2.1 (by decide), h.2.2.2 (by decide)⟩

/-- C5 fails as stated: with `a = (33554432, 0)` and `b = (1, 0)` the difference
`b - a` rounds to `-33554432`, so `Lerp(a, b, 1)` is `(0, 0)` and not `b`; with
`a = (FLT_MAX, 0)` and `b = (-FLT_MAX, 0)` the difference overflows, so
`Lerp(a, b, 0)` has a NaN component and is not `== a`. -/
theorem lerp_endpoints_counterexample :
    Vec2.Lerp ⟨F32.ofInt 33554432, F32.zero⟩ ⟨F32.one, F32.zero⟩ F32.one = ⟨F32.zero, F32.zero⟩ ∧
    Vec2.eq (Vec2.Lerp ⟨F32.ofInt 33554432, F32.zero⟩ ⟨F32.one, F32.zero⟩ F32.one)
      ⟨F32.one, F32.zero⟩ = false ∧
    Vec2.eq (Vec2.Lerp ⟨⟨false, 0x7F7FFFFF⟩, F32.zero⟩ ⟨⟨true, 0x7F7FFFFF⟩, F32.zero⟩ F32.zero)
      ⟨⟨false, 0x7F7FFFFF⟩, F32.zero⟩ = false := by
  decide

/-- C6 (as amended): `Lerp(a, b, t)` equals `Lerp(a, b, clamp(t,0,1))` for every
`t`, where the clamp `fmax(0, fmin(1, t))` always lies in `[0, 1]`; every
`t < 0` gives the result of `t = 0` and every `t > 1` the result of `t = 1`.
For `Vec2` and `Vec3`. -/
theorem lerp_clamps (a b : Vec2) (c d : Vec3) (t : F32) :
    Vec2.Lerp a b t = Vec2.Lerp a b (F32.fmax F32.zero (F32.fmin F32.one t)) ∧
    Vec3.Lerp c d t = Vec3.Lerp c d (F32.fmax F32.zero (F32.fmin F32.one t)) ∧
    (F32.le F32.zero (F32.fmax F32.zero (F32.fmin F32.one t)) = true ∧
      F32.le (F32.fmax F32.zero (F32.fmin F32.one t)) F32.one = true) ∧
    (F32.lt t F32.zero = true →
      Vec2.Lerp a b t = Vec2.Lerp a b F32.zero ∧ Vec3.Lerp c d t = Vec3.Lerp c d F32.zero) ∧
    (F32.lt F32.one t = true →
      Vec2.Lerp a b t = Vec2.Lerp a b F32.one ∧ Vec3.Lerp c d t = Vec3.Lerp c d F32.one) := by
  have e1 : F32.fmax F32.zero (F32.fmin F32.one F32.one) = F32.one := by decide
  have e0 : F32.fmax F32.zero (F32.fmin F32.one F32.zero) = F32.zero := by decide
  refine ⟨?_, ?_, F32.clamp_range t, ?_, ?_⟩
  · simp only [Vec2.Lerp, F32.clamp_idem]
  · simp only [Vec3.Lerp, F32.clamp_idem]
  · intro h
    simp only [Vec2.Lerp, Vec3.Lerp, F32.clamp_of_lt_zero h, e0, and_self]
  · intro h
    simp only [Vec2.Lerp, Vec3.Lerp, F32.clamp_of_one_lt h, e1, and_self]

theorem lerp_clamps_witness :
    F32.lt F32.negOne F32.zero = true ∧
    (Vec2.Lerp ⟨F32.one, F32.two⟩ ⟨F32.ofInt 3, F32.negOne⟩ F32.negOne =
        Vec2.Lerp ⟨F32.one, F32.two⟩ ⟨F32.ofInt 3, F32.negOne⟩ F32.zero ∧
      Vec3.Lerp ⟨F32.one, F32.two, F32.zero⟩ ⟨F32.ofInt 3, F32.negOne, F32.one⟩ F32.negOne =
        Vec3.Lerp ⟨F32.one, F32.two, F32.zero⟩ ⟨F32.ofInt 3, F32.negOne, F32.one⟩ F32.zero) ∧
    F32.lt F32.one F32.two = true ∧
    (Vec2.Lerp ⟨F32.one, F32.two⟩ ⟨F32.ofInt 3, F32.negOne⟩ F32.two =
        Vec2.Lerp ⟨F32.one, F32.two⟩ ⟨F32.ofInt 3, F32.negOne⟩ F32.one ∧
      Vec3.Lerp ⟨F32.one, F32.two, F32.zero⟩ ⟨F32.ofInt 3, F32.negOne, F32.one⟩ F32.two =
        Vec3.Lerp ⟨F32.one, F32.two, F32.zero⟩ ⟨F32.ofInt 3, F32.negOne, F32.one⟩ F32.one) :=
  ⟨by decide,
    (lerp_clamps ⟨F32.one, F32.two⟩ ⟨F32.ofInt 3, F32.negOne⟩ ⟨F32.one, F32.two, F32.zero⟩
      ⟨F32.ofInt 3, F32.negOne, F32.one⟩ F32.negOne).2.2.2.1 (by decide),
    by decide,
    (lerp_clamps ⟨F32.one, F32.two⟩ ⟨F32.ofInt 3, F32.negOne⟩ ⟨F32.one, F32.two, F32.zero⟩
      ⟨F32.ofInt 3, F32.negOne, F32.one⟩ F32.two).2.2.2.2 (by decide)⟩

/-- C6 fails in its last clause: with `a = (33554432, 0)`, `b = (1, 0)` and
`t = 2 > 1` the result is `(0, 0)`, whose `x` is below the `x` of both `a`
and `b`, so it is not on the segment from `a` to `b`. -/
theorem lerp_clamps_counterexample :
    F32.lt F32.one F32.two = true ∧
    Vec2.Lerp ⟨F32.ofInt 33554432, F32.zero⟩ ⟨F32.one, F32.zero⟩ F32.two = ⟨F32.zero, F32.zero⟩ ∧
    F32.lt (Vec2.Lerp ⟨F32.ofInt 33554432, F32.zero⟩ ⟨F32.one, F32.zero⟩ F32.two).x
      (F32.ofInt 33554432) = true ∧
    F32.lt (Vec2.Lerp ⟨F32.ofInt 33554432, F32.zero⟩ ⟨F32.one, F32.zero⟩ F32.two).x
      F32.one = true := by
  decide

/-- C7 (as amended): for an `acos` with `acos(1.0f) = 0` that is nonzero below
`1.0f`, `Angle(a, a) == 0` holds exactly when `Length(a) * Length(a) > 0` is
false or the float quotient `Dot(a, a) / (Length(a) * Length(a))` is not below
`1.0f`.  For `Vec2` and `Vec3`. -/
theorem angle_self (acos : F32 → F32) (a : Vec2) (c : Vec3)
    (h1 : acos F32.one = F32.zero)
    (hpos : ∀ x, F32.lt x F32.one = true → F32.eq (acos x) F32.zero = false) :
    (F32.eq (Vec2.Angle acos a a) F32.zero = true ↔
      (F32.gt (F32.mul (Vec2.Length a) (Vec2.Length a)) F32.zero = false ∨
        F32.lt (F32.div (Vec2.Dot a a) (F32.mul (Vec2.Length a) (Vec2.Length a))) F32.one = false)) ∧
    (F32.eq (Vec3.Angle acos c c) F32.zero = true ↔
      (F32.gt (F32.mul (Vec3.Length c) (Vec3.Length c)) F32.zero = false ∨
        F32.lt (F32.div (Vec3.Dot c c) (F32.mul (Vec3.Length c) (Vec3.Length c))) F32.one = false)) := by
  have key : ∀ (g q : F32), (F32.eq (if F32.gt g F32.zero then
      acos (F32.fmax F32.negOne (F32.fmin F32.one q)) else F32.zero) F32.zero = true ↔
      (F32.gt g F32.zero = false ∨ F32.lt q F32.one = false)) := by
    intro g q
    have hz : F32.eq F32.zero F32.zero = true := by decide
    have hm : F32.fmax F32.negOne F32.one = F32.one := by decide
    cases hg : F32.gt g F32.zero
    · simp [hz]
    · cases hq : F32.lt q F32.one
      · have hmin : F32.fmin F32.one q = F32.one := by
          unfold F32.fmin
          rw [show F32.one.isNaN = false from by decide, hq]
          simp
        simp [hmin, hm, h1, hz]
      · have hqn : q.isNaN = false := by
          unfold F32.lt at hq
          cases hn : q.isNaN
          · rfl
          · simp [hn] at hq
        have hmin : F32.fmin F32.one q = q := by
          unfold F32.fmin
          rw [show F32.one.isNaN = false from by decide, hq, hqn]
          simp
        have hlt : F32.lt (F32.fmax F32.negOne q) F32.one = true := by
          unfold F32.fmax
          rw [show F32.negOne.isNaN = false from by decide, hqn]
          simp only [Bool.false_eq_true, if_false]
          split
          · exact hq
          · decide
        simp [hmin, hpos _ hlt]
  exact ⟨key _ _, key _ _⟩

theorem angle_self_witness :
    (F32.eq (Vec2.Angle (fun x => if F32.lt x F32.one then F32.one else F32.zero)
        ⟨F32.one, F32.zero⟩ ⟨F32.one, F32.zero⟩) F32.zero = true ↔
      (F32.gt (F32.mul (Vec2.Length ⟨F32.one, F32.zero⟩) (Vec2.Length ⟨F32.one, F32.zero⟩))
          F32.zero = false ∨
        F32.lt (F32.div (Vec2.Dot ⟨F32.one, F32.zero⟩ ⟨F32.one, F32.zero⟩)
          (F32.mul (Vec2.Length ⟨F32.one, F32.zero⟩) (Vec2.Length ⟨F32.one, F32.zero⟩)))
          F32.one = false)) ∧
    (F32.eq (Vec3.Angle (fun x => if F32.lt x F32.one then F32.one else F32.zero)
        ⟨F32.one, F32.one, F32.two⟩ ⟨F32.one, F32.one, F32.two⟩) F32.zero = true ↔
      (F32.gt (F32.mul (Vec3.Length ⟨F32.one, F32.one, F32.two⟩)
          (Vec3.Length ⟨F32.one, F32.one, F32.two⟩)) F32.zero = false ∨
        F32.lt (F32.div (Vec3.Dot ⟨F32.one, F32.one, F32.two⟩ ⟨F32.one, F32.one, F32.two⟩)
          (F32.mul (Vec3.Length ⟨F32.one, F32.one, F32.two⟩)
            (Vec3.Length ⟨F32.one, F32.one, F32.two⟩))) F32.one = false)) :=
  angle_self (fun x => if F32.lt x F32.one then F32.one else F32.zero)
    ⟨F32.one, F32.zero⟩ ⟨F32.one, F32.one, F32.two⟩ (by decide)
    (fun x hx => by simp only [hx, if_true]; decide)

/-- C7 fails as stated: `a = (1, 6)` has nonzero length, yet the quotient
`Dot(a, a) / (Length(a) * Length(a))` is `37 / 37.000004`, which rounds to
`0.99999988f` (`0x3F7FFFFE`), so `Angle(a, a)` is `acos(0.99999988f)` and is
nonzero as soon as `acos` is nonzero there.  Likewise `(1, 1, 2)` in 3D, with
`0.99999994f` (`0x3F7FFFFF`). -/
theorem angle_self_counterexample :
    F32.eq (Vec2.Length ⟨F32.one, F32.ofInt 6⟩) F32.zero = false ∧
    (∀ acos : F32 → F32,
      Vec2.Angle acos ⟨F32.one, F32.ofInt 6⟩ ⟨F32.one, F32.ofInt 6⟩ = acos ⟨false, 0x3F7FFFFE⟩) ∧
    (∀ acos : F32 → F32, F32.eq (acos ⟨false, 0x3F7FFFFE⟩) F32.zero = false →
      F32.eq (Vec2.Angle acos ⟨F32.one, F32.ofInt 6⟩ ⟨F32.one, F32.ofInt 6⟩) F32.zero = false) ∧
    F32.eq (Vec3.Length ⟨F32.one, F32.one, F32.two⟩) F32.zero = false ∧
    (∀ acos : F32 → F32,
      Vec3.Angle acos ⟨F32.one, F32.one, F32.two⟩ ⟨F32.one, F32.one, F32.two⟩ =
        acos ⟨false, 0x3F7FFFFF⟩) := by
  have e2 : ∀ acos : F32 → F32,
      Vec2.Angle acos ⟨F32.one, F32.ofInt 6⟩ ⟨F32.one, F32.ofInt 6⟩ = acos ⟨false, 0x3F7FFFFE⟩ := by
    intro acos
    unfold Vec2.Angle
    rw [if_pos (by decide)]
    exact congrArg acos (by decide)
  have e3 : ∀ acos : F32 → F32,
      Vec3.Angle acos ⟨F32.one, F32.one, F32.two⟩ ⟨F32.one, F32.one, F32.two⟩ =
        acos ⟨false, 0x3F7FFFFF⟩ := by
    intro acos
    unfold Vec3.Angle
    rw [if_pos (by decide)]
    exact congrArg acos (by decide)
  refine ⟨by decide, e2, ?_, by decide, e3⟩
  intro acos h
  rw [e2 acos]
  exact h

/-! ## Reflection -/

/-- C9: `Reflect(v, n)` is `v - (n * 2) * Dot(v, n)` component by component,
computed from `n` as passed: `Reflect(Vec2(1,-1), Vec2(0,1)) == Vec2(1,1)`,
while the unnormalised normal `(0, 2)` gives `(1, 7)`, not the reflection about
`Normalize((0, 2))`.  For `Vec2` and `Vec3`. -/
theorem reflect_formula (v n : Vec2) (w m : Vec3) :
    Vec2.Reflect v n =
      ⟨F32.sub v.x (F32.mul (F32.mul n.x F32.two) (F32.add (F32.mul v.x n.x) (F32.mul v.y n.y))),
       F32.sub v.y (F32.mul (F32.mul n.y F32.two) (F32.add (F32.mul v.x n.x) (F32.mul v.y n.y)))⟩ ∧
    Vec3.Reflect w m =
      ⟨F32.sub w.x (F32.mul (F32.mul m.x F32.two)
          (F32.add (F32.add (F32.mul w.x m.x) (F32.mul w.y m.y)) (F32.mul w.z m.z))),
       F32.sub w.y (F32.mul (F32.mul m.y F32.two)
          (F32.add (F32.add (F32.mul w.x m.x) (F32.mul w.y m.y)) (F32.mul w.z m.z))),
       F32.sub w.z (F32.mul (F32.mul m.z F32.two)
          (F32.add (F32.add (F32.mul w.x m.x) (F32.mul w.y m.y)) (F32.mul w.z m.z)))⟩ ∧
    Vec2.eq (Vec2.Reflect ⟨F32.one, F32.negOne⟩ ⟨F32.zero, F32.one⟩) ⟨F32.one, F32.one⟩ = true ∧
    Vec2.eq (Vec2.Reflect ⟨F32.one, F32.negOne⟩ ⟨F32.zero, F32.two⟩) ⟨F32.one, F32.ofInt 7⟩ = true ∧
    Vec2.eq (Vec2.Reflect ⟨F32.one, F32.negOne⟩ (Vec2.Normalize ⟨F32.zero, F32.two⟩))
      ⟨F32.one, F32.one⟩ = true ∧
    Vec3.eq (Vec3.Reflect ⟨F32.one, F32.negOne, F32.two⟩ ⟨F32.zero, F32.one, F32.zero⟩)
      ⟨F32.one, F32.one, F32.two⟩ = true := by
  refine ⟨rfl, rfl, ?_, ?_, ?_, ?_⟩ <;> decide

/-! ## Cross product -/

/-- C10 (as amended): whenever `Cross(a, b)` has no NaN component,
`Cross(a, b) == -Cross(b, a)`: for `Vec2` as scalars, for `Vec3` under the
component-wise `==` after unary negation. -/
theorem cross_antisymm (a b : Vec2) (c d : Vec3) :
    ((Vec2.Cross a b).isNaN = false →
      F32.eq (Vec2.Cross a b) (F32.neg (Vec2.Cross b a)) = true) ∧
    ((Vec3.Cross c d).x.isNaN = false ∧ (Vec3.Cross c d).y.isNaN = false ∧
        (Vec3.Cross c d).z.isNaN = false →
      Vec3.eq (Vec3.Cross c d) (Vec3.neg (Vec3.Cross d c)) = true) := by
  constructor
  · intro h2
    unfold Vec2.Cross at *
    rw [F32.mul_comm b.x a.y, F32.mul_comm b.y a.x]
    exact F32.sub_eq_neg_sub _ _ h2
  · intro h3
    unfold Vec3.Cross at h3
    simp only [Vec3.eq, Vec3.neg, Vec3.Cross, Bool.and_eq_true]
    rw [F32.mul_comm d.y c.z, F32.mul_comm d.z c.y, F32.mul_comm d.z c.x, F32.mul_comm d.x c.z,
      F32.mul_comm d.x c.y, F32.mul_comm d.y c.x]
    exact ⟨⟨F32.sub_eq_neg_sub _ _ h3.1, F32.sub_eq_neg_sub _ _ h3.2.1⟩,
      F32.sub_eq_neg_sub _ _ h3.2.2⟩

theorem cross_antisymm_witness :
    F32.eq (Vec2.Cross ⟨F32.one, F32.two⟩ ⟨F32.ofInt 3, F32.negOne⟩)
      (F32.neg (Vec2.Cross ⟨F32.ofInt 3, F32.negOne⟩ ⟨F32.one, F32.two⟩)) = true ∧
    Vec3.eq (Vec3.Cross ⟨F32.one, F32.zero, F32.zero⟩ ⟨F32.zero, F32.one, F32.zero⟩)
      (Vec3.neg (Vec3.Cross ⟨F32.zero, F32.one, F32.zero⟩ ⟨F32.one, F32.zero, F32.zero⟩)) = true :=
  ⟨(cross_antisymm ⟨F32.one, F32.two⟩ ⟨F32.ofInt 3, F32.negOne⟩ ⟨F32.one, F32.zero, F32.zero⟩
      ⟨F32.zero, F32.one, F32.zero⟩).1 (by decide),
    (cross_antisymm ⟨F32.one, F32.two⟩ ⟨F32.ofInt 3, F32.negOne⟩ ⟨F32.one, F32.zero, F32.zero⟩
      ⟨F32.zero, F32.one, F32.zero⟩).2 (by decide)⟩

/-- C10 fails as stated: for `a = b = (2^100, 2^100)` both products overflow to
infinity, `Cross(a, b)` is `inf - inf`, a NaN, and a NaN never compares equal,
so `Cross(a, b) == -Cross(b, a)` is false; likewise in 3D. -/
theorem cross_antisymm_counterexample :
    (Vec2.Cross ⟨⟨false, 0x71800000⟩, ⟨false, 0x71800000⟩⟩
      ⟨⟨false, 0x71800000⟩, ⟨false, 0x71800000⟩⟩).isNaN = true ∧
    F32.eq
      (Vec2.Cross ⟨⟨false, 0x71800000⟩, ⟨false, 0x71800000⟩⟩
        ⟨⟨false, 0x71800000⟩, ⟨false, 0x71800000⟩⟩)
      (F32.neg (Vec2.Cross ⟨⟨false, 0x71800000⟩, ⟨false, 0x71800000⟩⟩
        ⟨⟨false, 0x71800000⟩, ⟨false, 0x71800000⟩⟩)) = false ∧
    Vec3.eq
      (Vec3.Cross ⟨⟨false, 0x71800000⟩, ⟨false, 0x71800000⟩, F32.zero⟩
        ⟨⟨false, 0x71800000⟩, ⟨false, 0x71800000⟩, F32.zero⟩)
      (Vec3.neg (Vec3.Cross ⟨⟨false, 0x71800000⟩, ⟨false, 0x71800000⟩, F32.zero⟩
        ⟨⟨false, 0x71800000⟩, ⟨false, 0x71800000⟩, F32.zero⟩)) = false := by
  decide

namespace F32

/-- The clamp `fmax(-1.0f, fmin(1.0f, c))` of `Angle` by cases: a NaN and
everything not below `1.0f` go to `1.0f`, everything not above `-1.0f` goes to
`-1.0f`, and the values strictly between are kept. -/
theorem clampUnit_eq (c : F32) :
    fmax negOne (fmin one c) =
      if c.isNaN then one else if lt c one then (if lt negOne c then c else negOne) else one := by
  have h1 : one.isNaN = false := by decide
  have h0 : negOne.isNaN = false := by decide
  have h01 : fmax negOne one = one := by decide
  unfold fmin
  rw [h1]
  simp only [Bool.false_eq_true, if_false]
  cases hn : c.isNaN
  · simp only [Bool.false_eq_true, if_false]
    cases hl : lt c one
    · simp only [Bool.false_eq_true, if_false]
      exact h01
    · simp only [if_true]
      unfold fmax
      rw [h0, hn]
      simp only [Bool.false_eq_true, if_false]
  · simp only [if_true]
    exact h01

/-- The cosine handed to `acos` always lies in `[-1, 1]`. -/
theorem clampUnit_range (c : F32) :
    le negOne (fmax negOne (fmin one c)) = true ∧ le (fmax negOne (fmin one c)) one = true := by
  rw [clampUnit_eq]
  cases hn : c.isNaN
  · cases h1 : lt c one
    · simp only [Bool.false_eq_true, if_false]
      decide
    · cases h2 : lt negOne c
      · simp only [Bool.false_eq_true, if_false, if_true]
        decide
      · simp only [Bool.false_eq_true, if_false, if_true]
        exact ⟨le_of_lt h2, le_of_lt h1⟩
  · simp only [if_true]
    decide

end F32

/-! ## Dot product, cross product and scaling -/

/-- C11 (as amended): `Dot(a, b) == Dot(b, a)` whenever `Dot(a, b)` is not a
NaN.  For `Vec2` and `Vec3`. -/
theorem dot_comm (a b : Vec2) (c d : Vec3) :
    ((Vec2.Dot a b).isNaN = false → F32.eq (Vec2.Dot a b) (Vec2.Dot b a) = true) ∧
    ((Vec3.Dot c d).isNaN = false → F32.eq (Vec3.Dot c d) (Vec3.Dot d c) = true) := by
  have e2 : Vec2.Dot a b = Vec2.Dot b a := by
    unfold Vec2.Dot
    rw [F32.mul_comm b.x a.x, F32.mul_comm b.y a.y]
  have e3 : Vec3.Dot c d = Vec3.Dot d c := by
    unfold Vec3.Dot
    rw [F32.mul_comm d.x c.x, F32.mul_comm d.y c.y, F32.mul_comm d.z c.z]
  refine ⟨?_, ?_⟩
  · intro h
    rw [← e2]
    exact F32.eq_self_of_not_nan _ h
  · intro h
    rw [← e3]
    exact F32.eq_self_of_not_nan _ h

theorem dot_comm_witness :
    (Vec2.Dot ⟨F32.one, F32.two⟩ ⟨F32.ofInt 3, F32.negOne⟩).isNaN = false ∧
    F32.eq (Vec2.Dot ⟨F32.one, F32.two⟩ ⟨F32.ofInt 3, F32.negOne⟩)
      (Vec2.Dot ⟨F32.ofInt 3, F32.negOne⟩ ⟨F32.one, F32.two⟩) = true ∧
    (Vec3.Dot ⟨F32.one, F32.two, F32.one⟩ ⟨F32.ofInt 3, F32.negOne, F32.two⟩).isNaN = false ∧
    F32.eq (Vec3.Dot ⟨F32.one, F32.two, F32.one⟩ ⟨F32.ofInt 3, F32.negOne, F32.two⟩)
      (Vec3.Dot ⟨F32.ofInt 3, F32.negOne, F32.two⟩ ⟨F32.one, F32.two, F32.one⟩) = true :=
  ⟨by decide,
    (dot_comm ⟨F32.one, F32.two⟩ ⟨F32.ofInt 3, F32.negOne⟩ ⟨F32.one, F32.two, F32.one⟩
      ⟨F32.ofInt 3, F32.negOne, F32.two⟩).1 (by decide),
    by decide,
    (dot_comm ⟨F32.one, F32.two⟩ ⟨F32.ofInt 3, F32.negOne⟩ ⟨F32.one, F32.two, F32.one⟩
      ⟨F32.ofInt 3, F32.negOne, F32.two⟩).2 (by decide)⟩

/-- C11 fails as stated: for `a = (2^100, 2^100)` and `b = (2^100, -2^100)` the
two products overflow to `inf` and `-inf`, `Dot(a, b)` is their sum, a NaN, and
a NaN never compares equal, so `Dot(a, b) == Dot(b, a)` is false; likewise in 3D. -/
theorem dot_comm_counterexample :
    (Vec2.Dot ⟨⟨false, 0x71800000⟩, ⟨false, 0x71800000⟩⟩
      ⟨⟨false, 0x71800000⟩, ⟨true, 0x71800000⟩⟩).isNaN = true ∧
    F32.eq
      (Vec2.Dot ⟨⟨false, 0x71800000⟩, ⟨false, 0x71800000⟩⟩
        ⟨⟨false, 0x71800000⟩, ⟨true, 0x71800000⟩⟩)
      (Vec2.Dot ⟨⟨false, 0x71800000⟩, ⟨true, 0x71800000⟩⟩
        ⟨⟨false, 0x71800000⟩, ⟨false, 0x71800000⟩⟩) = false ∧
    F32.eq
      (Vec3.Dot ⟨⟨false, 0x71800000⟩, ⟨false, 0x71800000⟩, F32.zero⟩
        ⟨⟨false, 0x71800000⟩, ⟨true, 0x71800000⟩, F32.zero⟩)
      (Vec3.Dot ⟨⟨false, 0x71800000⟩, ⟨true, 0x71800000⟩, F32.zero⟩
        ⟨⟨false, 0x71800000⟩, ⟨false, 0x71800000⟩, F32.zero⟩) = false := by
  decide

/-- C14: `Cross(a, b)` has the components
`(a.y*b.z - a.z*b.y, a.z*b.x - a.x*b.z, a.x*b.y - a.y*b.x)`, and it is
right-handed on the basis vectors: `x × y == z`, `y × z == x`, `z × x == y`. -/
theorem cross_right_handed (a b : Vec3) :
    Vec3.Cross a b =
      ⟨F32.sub (F32.mul a.y b.z) (F32.mul a.z b.y),
       F32.sub (F32.mul a.z b.x) (F32.mul a.x b.z),
       F32.sub (F32.mul a.x b.y) (F32.mul a.y b.x)⟩ ∧
    Vec3.eq (Vec3.Cross ⟨F32.one, F32.zero, F32.zero⟩ ⟨F32.zero, F32.one, F32.zero⟩)
      ⟨F32.zero, F32.zero, F32.one⟩ = true ∧
    Vec3.eq (Vec3.Cross ⟨F32.zero, F32.one, F32.zero⟩ ⟨F32.zero, F32.zero, F32.one⟩)
      ⟨F32.one, F32.zero, F32.zero⟩ = true ∧
    Vec3.eq (Vec3.Cross ⟨F32.zero, F32.zero, F32.one⟩ ⟨F32.one, F32.zero, F32.zero⟩)
      ⟨F32.zero, F32.one, F32.zero⟩ = true := by
  refine ⟨rfl, ?_, ?_, ?_⟩ <;> decide

namespace F32

theorem mul_isNaN_of_finite {x y : F32} (hx : x.isFinite = true) (hy : y.isFinite = true) :
    (mul x y).isNaN = false := by
  have hfx : x.mag.val < infBits := by simpa [isFinite] using hx
  have hfy : y.mag.val < infBits := by simpa [isFinite] using hy
  have h1 : x.isNaN = false := by simp [isNaN]; omega
  have h2 : x.isInf = false := by simp [isInf]; omega
  have h3 : y.isNaN = false := by simp [isNaN]; omega
  have h4 : y.isInf = false := by simp [isInf]; omega
  unfold mul
  rw [h1, h2, h3, h4]
  simp only [Bool.or_false, Bool.false_eq_true, if_false]
  exact round_isNaN _ _ _

theorem zero_mul_of_finite (d : F32) (h : d.isFinite = true) : mul zero d = szero d.sign := by
  rw [mul_comm, mul_zero_of_finite d h]

theorem sub_szero_szero (s t : Bool) : eq (sub (szero s) (szero t)) zero = true := by
  cases s <;> cases t <;> decide

/-- Adding `0.0f` to a float that is not a NaN gives a float that compares equal to it. -/
theorem add_zero_eq (d : F32) (h : d.isNaN = false) : eq (add d zero) d = true := by
  have hn : d.mag.val ≤ infBits := by simpa [isNaN] using h
  by_cases hi : d.mag.val = infBits
  · have h1 : d.isInf = true := by simp [isInf, hi]
    rw [add_of_inf_left h (by decide) h1, show zero.isInf = false from by decide]
    simp only [Bool.false_and, Bool.false_eq_true, if_false]
    exact eq_self_of_not_nan d h
  · have hf : d.isFinite = true := by simp [isFinite]; omega
    rw [show zero = szero false from rfl, add_szero d false hf]
    split
    · rename_i h0
      exact eq_of_mag_zero rfl h0
    · exact eq_self_of_not_nan d h

end F32

/-- C15 (as amended): `s * v` and `v * s` are the same vector bit for bit, each
component being the component of `v` multiplied by `s`; so `s * v == v * s`
whenever the product has no NaN component, in particular whenever `s` and the
components of `v` are finite.  For `Vec2` and `Vec3`. -/
theorem scale_comm (s : F32) (v : Vec2) (w : Vec3) :
    Vec2.smul s v = Vec2.mul v s ∧ Vec3.smul s w = Vec3.mul w s ∧
    Vec2.smul s v = ⟨F32.mul v.x s, F32.mul v.y s⟩ ∧
    Vec3.smul s w = ⟨F32.mul w.x s, F32.mul w.y s, F32.mul w.z s⟩ ∧
    ((F32.mul v.x s).isNaN = false ∧ (F32.mul v.y s).isNaN = false →
      Vec2.eq (Vec2.smul s v) (Vec2.mul v s) = true) ∧
    ((F32.mul w.x s).isNaN = false ∧ (F32.mul w.y s).isNaN = false ∧
        (F32.mul w.z s).isNaN = false →
      Vec3.eq (Vec3.smul s w) (Vec3.mul w s) = true) ∧
    (s.isFinite = true ∧ v.x.isFinite = true ∧ v.y.isFinite = true →
      Vec2.eq (Vec2.smul s v) (Vec2.mul v s) = true) ∧
    (s.isFinite = true ∧ w.x.isFinite = true ∧ w.y.isFinite = true ∧ w.z.isFinite = true →
      Vec3.eq (Vec3.smul s w) (Vec3.mul w s) = true) := by
  have k2 : (F32.mul v.x s).isNaN = false ∧ (F32.mul v.y s).isNaN = false →
      Vec2.eq (Vec2.smul s v) (Vec2.mul v s) = true := by
    intro h
    simp only [Vec2.eq, Vec2.smul, Vec2.mul, Bool.and_eq_true]
    exact ⟨F32.eq_self_of_not_nan _ h.1, F32.eq_self_of_not_nan _ h.2⟩
  have k3 : (F32.mul w.x s).isNaN = false ∧ (F32.mul w.y s).isNaN = false ∧
      (F32.mul w.z s).isNaN = false → Vec3.eq (Vec3.smul s w) (Vec3.mul w s) = true := by
    intro h
    simp only [Vec3.eq, Vec3.smul, Vec3.mul, Bool.and_eq_true]
    exact ⟨⟨F32.eq_self_of_not_nan _ h.1, F32.eq_self_of_not_nan _ h.2.1⟩,
      F32.eq_self_of_not_nan _ h.2.2⟩
  refine ⟨rfl, rfl, rfl, rfl, k2, k3, ?_, ?_⟩
  · intro h
    exact k2 ⟨F32.mul_isNaN_of_finite h.2.1 h.1, F32.mul_isNaN_of_finite h.2.2 h.1⟩
  · intro h
    exact k3 ⟨F32.mul_isNaN_of_finite h.2.1 h.1, F32.mul_isNaN_of_finite h.2.2.1 h.1,
      F32.mul_isNaN_of_finite h.2.2.2 h.1⟩

theorem scale_comm_witness :
    Vec2.eq (Vec2.smul F32.two ⟨F32.one, F32.ofInt 3⟩) (Vec2.mul ⟨F32.one, F32.ofInt 3⟩ F32.two) = true ∧
    Vec3.eq (Vec3.smul F32.two ⟨F32.one, F32.ofInt 3, F32.negOne⟩)
      (Vec3.mul ⟨F32.one, F32.ofInt 3, F32.negOne⟩ F32.two) = true ∧
    Vec2.smul F32.two ⟨F32.one, F32.ofInt 3⟩ = ⟨F32.two, F32.ofInt 6⟩ :=
  ⟨(scale_comm F32.two ⟨F32.one, F32.ofInt 3⟩ ⟨F32.one, F32.ofInt 3, F32.negOne⟩).2.2.2.2.2.2.1
      (by decide),
    (scale_comm F32.two ⟨F32.one, F32.ofInt 3⟩ ⟨F32.one, F32.ofInt 3, F32.negOne⟩).2.2.2.2.2.2.2
      (by decide),
    by decide⟩

/-- C15 fails as stated: for `s = 0` and `v = (inf, 0)` both `s * v` and `v * s`
are `(NaN, 0)`, and a NaN never compares equal, so `s * v == v * s` is false;
likewise in 3D. -/
theorem scale_comm_counterexample :
    Vec2.smul F32.zero ⟨F32.inf false, F32.zero⟩ = ⟨F32.nan, F32.zero⟩ ∧
    Vec2.mul ⟨F32.inf false, F32.zero⟩ F32.zero = ⟨F32.nan, F32.zero⟩ ∧
    Vec2.eq (Vec2.smul F32.zero ⟨F32.inf false, F32.zero⟩)
      (Vec2.mul ⟨F32.inf false, F32.zero⟩ F32.zero) = false ∧
    Vec3.eq (Vec3.smul F32.zero ⟨F32.inf false, F32.zero, F32.zero⟩)
      (Vec3.mul ⟨F32.inf false, F32.zero, F32.zero⟩ F32.zero) = false := by
  decide

/-! ## The angle -/

/-- C16: the value handed to `acos` inside `Angle` always lies in `[-1, 1]`;
`Angle` is `acos` of that value, or `0.0f` on the degenerate branch; hence, for
an `acos` that maps `[-1, 1]` into `[0, pi]`, `Angle(a, b)` lies in `[0, pi]`
for every `a` and `b`.  For `Vec2` and `Vec3`. -/
theorem angle_in_range (acos : F32 → F32) (a b : Vec2) (c d : Vec3) :
    (F32.le F32.negOne (F32.fmax F32.negOne (F32.fmin F32.one
        (F32.div (Vec2.Dot a b) (F32.mul (Vec2.Length a) (Vec2.Length b))))) = true ∧
      F32.le (F32.fmax F32.negOne (F32.fmin F32.one
        (F32.div (Vec2.Dot a b) (F32.mul (Vec2.Length a) (Vec2.Length b))))) F32.one = true) ∧
    (F32.le F32.negOne (F32.fmax F32.negOne (F32.fmin F32.one
        (F32.div (Vec3.Dot c d) (F32.mul (Vec3.Length c) (Vec3.Length d))))) = true ∧
      F32.le (F32.fmax F32.negOne (F32.fmin F32.one
        (F32.div (Vec3.Dot c d) (F32.mul (Vec3.Length c) (Vec3.Length d))))) F32.one = true) ∧
    Vec2.Angle acos a b =
      (if F32.gt (F32.mul (Vec2.Length a) (Vec2.Length b)) F32.zero then
        acos (F32.fmax F32.negOne (F32.fmin F32.one
          (F32.div (Vec2.Dot a b) (F32.mul (Vec2.Length a) (Vec2.Length b)))))
      else F32.zero) ∧
    Vec3.Angle acos c d =
      (if F32.gt (F32.mul (Vec3.Length c) (Vec3.Length d)) F32.zero then
        acos (F32.fmax F32.negOne (F32.fmin F32.one
          (F32.div (Vec3.Dot c d) (F32.mul (Vec3.Length c) (Vec3.Length d)))))
      else F32.zero) ∧
    ((∀ x, F32.le F32.negOne x = true → F32.le x F32.one = true →
        F32.le F32.zero (acos x) = true ∧ F32.le (acos x) F32.pi = true) →
      (F32.le F32.zero (Vec2.Angle acos a b) = true ∧
        F32.le (Vec2.Angle acos a b) F32.pi = true) ∧
      (F32.le F32.zero (Vec3.Angle acos c d) = true ∧
        F32.le (Vec3.Angle acos c d) F32.pi = true)) := by
  refine ⟨F32.clampUnit_range _, F32.clampUnit_range _, rfl, rfl, ?_⟩
  intro hacos
  constructor
  · unfold Vec2.Angle
    split
    · exact hacos _ (F32.clampUnit_range _).1 (F32.clampUnit_range _).2
    · decide
  · unfold Vec3.Angle
    split
    · exact hacos _ (F32.clampUnit_range _).1 (F32.clampUnit_range _).2
    · decide

theorem angle_in_range_witness :
    (F32.le F32.zero (Vec2.Angle (fun x => if F32.lt x F32.one then F32.one else F32.zero)
        ⟨F32.one, F32.two⟩ ⟨F32.ofInt 3, F32.negOne⟩) = true ∧
      F32.le (Vec2.Angle (fun x => if F32.lt x F32.one then F32.one else F32.zero)
        ⟨F32.one, F32.two⟩ ⟨F32.ofInt 3, F32.negOne⟩) F32.pi = true) ∧
    (F32.le F32.zero (Vec3.Angle (fun x => if F32.lt x F32.one then F32.one else F32.zero)
        ⟨F32.one, F32.two, F32.one⟩ ⟨F32.ofInt 3, F32.negOne, F32.two⟩) = true ∧
      F32.le (Vec3.Angle (fun x => if F32.lt x F32.one then F32.one else F32.zero)
        ⟨F32.one, F32.two, F32.one⟩ ⟨F32.ofInt 3, F32.negOne, F32.two⟩) F32.pi = true) :=
  (angle_in_range (fun x => if F32.lt x F32.one then F32.one else F32.zero)
    ⟨F32.one, F32.two⟩ ⟨F32.ofInt 3, F32.negOne⟩ ⟨F32.one, F32.two, F32.one⟩
    ⟨F32.ofInt 3, F32.negOne, F32.two⟩).2.2.2.2
    (fun x _ _ => by split <;> decide)

/-! ## Widening from 2D to 3D -/

/-- C20 (as amended): `Vec3(a)` has the components `(a.x, a.y, 0)`; the `z`
component of `Cross(Vec3(a), Vec3(b))` is `Cross(a, b)` bit for bit and, for
finite components, its `x` and `y` components are zeros, so
`Cross(Vec3(a), Vec3(b)) == Vec3(0, 0, Cross(a, b))` whenever the components of
`a` and `b` are finite and `Cross(a, b)` is not a NaN; and
`Dot(Vec3(a), Vec3(b)) == Dot(a, b)` whenever `Dot(a, b)` is not a NaN. -/
theorem widening_agrees (a b : Vec2) :
    Vec3.ofVec2 a F32.zero = ⟨a.x, a.y, F32.zero⟩ ∧
    (Vec3.Cross (Vec3.ofVec2 a F32.zero) (Vec3.ofVec2 b F32.zero)).z = Vec2.Cross a b ∧
    (a.x.isFinite = true ∧ a.y.isFinite = true ∧ b.x.isFinite = true ∧ b.y.isFinite = true ∧
        (Vec2.Cross a b).isNaN = false →
      Vec3.eq (Vec3.Cross (Vec3.ofVec2 a F32.zero) (Vec3.ofVec2 b F32.zero))
        ⟨F32.zero, F32.zero, Vec2.Cross a b⟩ = true) ∧
    ((Vec2.Dot a b).isNaN = false →
      F32.eq (Vec3.Dot (Vec3.ofVec2 a F32.zero) (Vec3.ofVec2 b F32.zero)) (Vec2.Dot a b) = true) := by
  refine ⟨rfl, rfl, ?_, ?_⟩
  · intro h
    obtain ⟨hax, hay, hbx, hby, hn⟩ := h
    simp only [Vec3.eq, Vec3.Cross, Vec3.ofVec2, Bool.and_eq_true]
    refine ⟨⟨?_, ?_⟩, F32.eq_self_of_not_nan _ hn⟩
    · rw [F32.mul_zero_of_finite a.y hay, F32.zero_mul_of_finite b.y hby]
      exact F32.sub_szero_szero _ _
    · rw [F32.zero_mul_of_finite b.x hbx, F32.mul_zero_of_finite a.x hax]
      exact F32.sub_szero_szero _ _
  · intro h
    simp only [Vec3.Dot, Vec3.ofVec2]
    rw [show F32.mul F32.zero F32.zero = F32.zero from by decide]
    exact F32.add_zero_eq _ h

theorem widening_agrees_witness :
    Vec3.eq (Vec3.Cross (Vec3.ofVec2 ⟨F32.one, F32.two⟩ F32.zero)
        (Vec3.ofVec2 ⟨F32.ofInt 3, F32.negOne⟩ F32.zero))
      ⟨F32.zero, F32.zero, Vec2.Cross ⟨F32.one, F32.two⟩ ⟨F32.ofInt 3, F32.negOne⟩⟩ = true ∧
    F32.eq (Vec3.Dot (Vec3.ofVec2 ⟨F32.one, F32.two⟩ F32.zero)
        (Vec3.ofVec2 ⟨F32.ofInt 3, F32.negOne⟩ F32.zero))
      (Vec2.Dot ⟨F32.one, F32.two⟩ ⟨F32.ofInt 3, F32.negOne⟩) = true :=
  ⟨(widening_agrees ⟨F32.one, F32.two⟩ ⟨F32.ofInt 3, F32.negOne⟩).2.2.1 (by decide),
    (widening_agrees ⟨F32.one, F32.two⟩ ⟨F32.ofInt 3, F32.negOne⟩).2.2.2 (by decide)⟩

/-- C20 fails as stated: for `a = b = (2^100, 2^100)`, `Cross(a, b)` is
`inf - inf`, a NaN, so `Cross(Vec3(a), Vec3(b)) == Vec3(0, 0, Cross(a, b))` is
false; for `a = (2^100, 2^100)`, `b = (2^100, -2^100)`, `Dot(a, b)` is a NaN and
`Dot(Vec3(a), Vec3(b)) == Dot(a, b)` is false; and for `a = (0, inf)`,
`b = (1, 0)` the `x` component of the 3D cross product is `inf * 0 - 0 * 0`, a
NaN, although `Cross(a, b)` is `-inf` and not a NaN. -/
theorem widening_agrees_counterexample :
    Vec3.eq
      (Vec3.Cross (Vec3.ofVec2 ⟨⟨false, 0x71800000⟩, ⟨false, 0x71800000⟩⟩ F32.zero)
        (Vec3.ofVec2 ⟨⟨false, 0x71800000⟩, ⟨false, 0x71800000⟩⟩ F32.zero))
      ⟨F32.zero, F32.zero,
        Vec2.Cross ⟨⟨false, 0x71800000⟩, ⟨false, 0x71800000⟩⟩
          ⟨⟨false, 0x71800000⟩, ⟨false, 0x71800000⟩⟩⟩ = false ∧
    F32.eq
      (Vec3.Dot (Vec3.ofVec2 ⟨⟨false, 0x71800000⟩, ⟨false, 0x71800000⟩⟩ F32.zero)
        (Vec3.ofVec2 ⟨⟨false, 0x71800000⟩, ⟨true, 0x71800000⟩⟩ F32.zero))
      (Vec2.Dot ⟨⟨false, 0x71800000⟩, ⟨false, 0x71800000⟩⟩
        ⟨⟨false, 0x71800000⟩, ⟨true, 0x71800000⟩⟩) = false ∧
    Vec2.Cross ⟨F32.zero, F32.inf false⟩ ⟨F32.one, F32.zero⟩ = F32.inf true ∧
    Vec3.eq
      (Vec3.Cross (Vec3.ofVec2 ⟨F32.zero, F32.inf false⟩ F32.zero)
        (Vec3.ofVec2 ⟨F32.one, F32.zero⟩ F32.zero))
      ⟨F32.zero, F32.zero, Vec2.Cross ⟨F32.zero, F32.inf false⟩ ⟨F32.one, F32.zero⟩⟩ = false := by
  decide

/-! ## Facts about exact operations -/

namespace F32

theorem isNaN_false_of_finite {x : F32} (h : x.isFinite = true) : x.isNaN = false := by
  simp only [isFinite, decide_eq_true_eq] at h
  simp only [isNaN, decide_eq_false_iff_not]
  omega

theorem isInf_false_of_finite {x : F32} (h : x.isFinite = true) : x.isInf = false := by
  simp only [isFinite, decide_eq_true_eq] at h
  simp only [isInf, decide_eq_false_iff_not]
  omega

theorem units_eq_zero_iff (x : F32) : x.units = 0 ↔ x.mag.val = 0 := by
  have h := units_natAbs x
  have hp := Nat.two_pow_pos (x.exp - -149).toNat
  rw [← sig_eq_zero_iff]
  constructor
  · intro h0
    rw [h0] at h
    simp only [Int.natAbs_zero] at h
    rcases Nat.eq_zero_or_pos x.sig with hs | hs
    · exact hs
    · have := Nat.mul_pos hs hp
      omega
  · intro hs
    rw [hs, Nat.zero_mul] at h
    exact Int.natAbs_eq_zero.mp h

theorem units_neg (x : F32) : (neg x).units = -x.units := aligned_neg x (-149)

/-- The magnitude bits of a finite float are determined by the size of its value. -/
theorem mag_eq_roundBits_units (x : F32) (hx : x.isFinite = true) :
    x.mag.val = roundBits x.units.natAbs (-149) := by
  have hf : x.mag.val < infBits := by simpa [isFinite] using hx
  have h1 := roundBits_mul_pow x.sig (x.exp - -149).toNat x.exp
  have h2 : x.exp - ((x.exp - -149).toNat : Int) = -149 := by
    have := exp_ge x
    omega
  rw [h2] at h1
  rw [units_natAbs, h1, roundBits_sig_exp x hf]

/-- Two finite floats with the same value compare equal. -/
theorem eq_of_units {x y : F32} (hx : x.isFinite = true) (hy : y.isFinite = true)
    (h : x.units = y.units) : eq x y = true := by
  by_cases h0 : x.units = 0
  · exact eq_of_mag_zero ((units_eq_zero_iff x).mp h0) ((units_eq_zero_iff y).mp (h ▸ h0))
  · have hs : x.sign = y.sign := by
      rw [← units_neg_iff x h0, ← units_neg_iff y (h ▸ h0), h]
    have hm : x.mag.val = y.mag.val := by
      rw [mag_eq_roundBits_units x hx, mag_eq_roundBits_units y hy, h]
    rw [ext_bits hs hm]
    exact eq_self_of_not_nan y (isNaN_false_of_finite hy)

/-- Two floats that compare equal have the same value. -/
theorem units_eq_of_eq {x y : F32} (h : eq x y = true) : x.units = y.units := by
  have hk := key_eq_of_eq h
  unfold key at hk
  by_cases hs : x.sign = y.sign
  · have hm : x.mag.val = y.mag.val := by
      rw [hs] at hk
      split at hk <;> omega
    rw [ext_bits hs hm]
  · have hm : x.mag.val = 0 ∧ y.mag.val = 0 := by
      cases hx : x.sign <;> cases hy : y.sign <;> simp only [hx, hy] at hk hs <;>
        simp at hk hs <;> omega
    rw [(units_eq_zero_iff x).mpr hm.1, (units_eq_zero_iff y).mpr hm.2]

theorem isFinite_of_mul {x y : F32} (h : (mul x y).isFinite = true) :
    x.isFinite = true ∧ y.isFinite = true := by
  unfold mul at h
  split at h
  · exact absurd h (by decide)
  · rename_i hnan
    split at h
    · rename_i hinf
      split at h
      · exact absurd h (by decide)
      · exact absurd h (by cases (x.sign != y.sign) <;> decide)
    · rename_i hinf
      simp only [isNaN, isInf, isFinite, decide_eq_true_eq, Bool.or_eq_true, not_or, not_lt]
        at hnan hinf ⊢
      omega

theorem units_sign_false {x : F32} (h : x.sign = false) : 0 ≤ x.units := by
  unfold units aligned
  rw [h]
  simp only [Bool.false_eq_true, if_false]
  exact Int.ofNat_nonneg _

theorem units_sign_true {x : F32} (h : x.sign = true) : x.units ≤ 0 := by
  unfold units aligned
  rw [h]
  simp only [if_true]
  have := Int.ofNat_nonneg (x.sig * 2 ^ (x.exp - -149).toNat)
  omega

/-- If the exact product of two finite floats is the value of a finite float
`z`, then the float product is `z` (up to the sign of a zero). -/
theorem mul_eq_of_units (x y z : F32) (hx : x.isFinite = true) (hy : y.isFinite = true)
    (hz : z.isFinite = true) (h : x.units * y.units = z.units * 2 ^ 149) :
    eq (mul x y) z = true := by
  have hfz : z.mag.val < infBits := by simpa [isFinite] using hz
  have hzn : z.isNaN = false := isNaN_false_of_finite hz
  unfold mul
  rw [isNaN_false_of_finite hx, isNaN_false_of_finite hy, isInf_false_of_finite hx,
    isInf_false_of_finite hy]
  simp only [Bool.or_false, Bool.false_eq_true, if_false]
  have hax := units_natAbs x
  have hay := units_natAbs y
  have haz := units_natAbs z
  have hex := exp_ge x
  have hey := exp_ge y
  have hez := exp_ge z
  have hnat : x.sig * y.sig * 2 ^ ((x.exp - -149).toNat + (y.exp - -149).toNat) =
      z.sig * 2 ^ ((z.exp - -149).toNat + 149) := by
    have h1 := congrArg Int.natAbs h
    rw [Int.natAbs_mul, Int.natAbs_mul, hax, hay, haz] at h1
    have h2 : ((2 : Int) ^ 149).natAbs = 2 ^ 149 := by
      rw [Int.natAbs_pow]
      rfl
    rw [h2] at h1
    rw [Nat.pow_add, Nat.pow_add]
    calc x.sig * y.sig * (2 ^ (x.exp - -149).toNat * 2 ^ (y.exp - -149).toNat)
        = x.sig * 2 ^ (x.exp - -149).toNat * (y.sig * 2 ^ (y.exp - -149).toNat) := by ring
      _ = z.sig * 2 ^ (z.exp - -149).toNat * 2 ^ 149 := h1
      _ = z.sig * (2 ^ (z.exp - -149).toNat * 2 ^ 149) := by ring
  have hr : roundBits (x.sig * y.sig) (x.exp + y.exp) = z.mag.val := by
    have e1 := roundBits_mul_pow (x.sig * y.sig) ((x.exp - -149).toNat + (y.exp - -149).toNat)
      (x.exp + y.exp)
    have e2 := roundBits_mul_pow z.sig ((z.exp - -149).toNat + 149) z.exp
    have e3 : x.exp + y.exp - (((x.exp - -149).toNat + (y.exp - -149).toNat : Nat) : Int) =
        z.exp - (((z.exp - -149).toNat + 149 : Nat) : Int) := by
      omega
    rw [← e1, hnat, e3, e2, roundBits_sig_exp z hfz]
  by_cases h0 : z.units = 0
  · have hzm : z.mag.val = 0 := (units_eq_zero_iff z).mp h0
    have hres : (round (x.sign != y.sign) (x.sig * y.sig) (x.exp + y.exp)).mag.val = 0 := by
      show min (roundBits (x.sig * y.sig) (x.exp + y.exp)) infBits = 0
      rw [hr, hzm]
      rfl
    exact eq_of_mag_zero hres hzm
  · have hres : round (x.sign != y.sign) (x.sig * y.sig) (x.exp + y.exp) = z := by
      apply ext_bits
      · show (x.sign != y.sign) = z.sign
        have hp : (0 : Int) < 2 ^ 149 := by positivity
        have hprod : x.units * y.units ≠ 0 := by
          rw [h]
          exact Int.mul_ne_zero h0 (by omega)
        have hx0 : x.units ≠ 0 := fun hx0 => hprod (by rw [hx0, Int.zero_mul])
        have hy0 : y.units ≠ 0 := fun hy0 => hprod (by rw [hy0, Int.mul_zero])
        cases hsx : x.sign <;> cases hsy : y.sign <;> cases hsz : z.sign <;> try rfl
        · exfalso
          have a1 := units_sign_false hsx
          have a2 := units_sign_false hsy
          have a3 := units_sign_true hsz
          have : 0 ≤ x.units * y.units := Int.mul_nonneg a1 a2
          have : z.units * 2 ^ 149 < 0 := Int.mul_neg_of_neg_of_pos (by omega) hp
          omega
        · exfalso
          have a1 := units_sign_false hsx
          have a2 := units_sign_true hsy
          have a3 := units_sign_false hsz
          have : x.units * y.units < 0 := Int.mul_neg_of_pos_of_neg (by omega) (by omega)
          have : 0 ≤ z.units * 2 ^ 149 := Int.mul_nonneg a3 (by omega)
          omega
        · exfalso
          have a1 := units_sign_true hsx
          have a2 := units_sign_false hsy
          have a3 := units_sign_false hsz
          have : x.units * y.units < 0 := Int.mul_neg_of_neg_of_pos (by omega) (by omega)
          have : 0 ≤ z.units * 2 ^ 149 := Int.mul_nonneg a3 (by omega)
          omega
        · exfalso
          have a1 := units_sign_true hsx
          have a2 := units_sign_true hsy
          have a3 := units_sign_true hsz
          have : 0 < x.units * y.units := Int.mul_pos_of_neg_of_neg (by omega) (by omega)
          have : z.units * 2 ^ 149 < 0 := Int.mul_neg_of_neg_of_pos (by omega) hp
          omega
      · show min (roundBits (x.sig * y.sig) (x.exp + y.exp)) infBits = z.mag.val
        rw [hr]
        omega
    rw [hres]
    exact eq_self_of_not_nan z hzn

end F32

namespace F32

theorem val_eq_iff {x y : F32} : val x = val y ↔ x.units = y.units := by
  unfold val
  constructor
  · intro h
    have hp : ((2 : ℚ) ^ 149) ≠ 0 := by positivity
    have := (div_left_inj' hp).mp h
    exact_mod_cast this
  · intro h
    rw [h]

theorem val_neg (x : F32) : val (neg x) = -val x := by
  unfold val
  rw [units_neg]
  push_cast
  ring

theorem val_zero : val zero = 0 := by
  have h : zero.units = 0 := by decide
  simp [val, h]

theorem val_one : val one = 1 := by
  have h : one.units = 2 ^ 149 := by decide
  unfold val
  rw [h]
  push_cast
  exact div_self (by positivity)

theorem val_two : val two = 2 := by
  have h : two.units = 2 * 2 ^ 149 := by decide
  unfold val
  rw [h]
  norm_num

theorem val_of_eq {x y : F32} (h : eq x y = true) : val x = val y :=
  val_eq_iff.mpr (units_eq_of_eq h)

theorem eq_of_val {x y : F32} (hx : x.isFinite = true) (hy : y.isFinite = true)
    (h : val x = val y) : eq x y = true :=
  eq_of_units hx hy (val_eq_iff.mp h)

theorem val_add_of_exact {x y : F32} (h : addIsExact x y = true) :
    val (add x y) = val x + val y := by
  unfold addIsExact at h
  simp only [Bool.and_eq_true, decide_eq_true_eq] at h
  unfold val
  rw [h.2]
  push_cast
  ring

theorem val_sub_of_exact {x y : F32} (h : subIsExact x y = true) :
    val (sub x y) = val x - val y := by
  unfold subIsExact at h
  simp only [Bool.and_eq_true, decide_eq_true_eq] at h
  unfold val
  rw [h.2]
  push_cast
  ring

theorem val_mul_of_exact {x y : F32} (h : mulIsExact x y = true) :
    val (mul x y) = val x * val y := by
  unfold mulIsExact at h
  simp only [Bool.and_eq_true, decide_eq_true_eq] at h
  have h2 : ((mul x y).units : ℚ) * 2 ^ 149 = (x.units : ℚ) * (y.units : ℚ) := by
    exact_mod_cast h.2
  unfold val
  have hp : ((2 : ℚ) ^ 149) ≠ 0 := by positivity
  generalize (2 : ℚ) ^ 149 = U at *
  field_simp
  linear_combination U * h2

theorem val_div_of_exact {x y : F32} (h : divIsExact x y = true) :
    val (div x y) * val y = val x := by
  unfold divIsExact at h
  simp only [Bool.and_eq_true, decide_eq_true_eq] at h
  have h2 : ((div x y).units : ℚ) * (y.units : ℚ) = (x.units : ℚ) * 2 ^ 149 := by
    exact_mod_cast h.2
  unfold val
  have hp : ((2 : ℚ) ^ 149) ≠ 0 := by positivity
  generalize (2 : ℚ) ^ 149 = U at *
  field_simp
  linear_combination U * h2

theorem isFinite_of_addIsExact {x y : F32} (h : addIsExact x y = true) :
    (add x y).isFinite = true ∧ x.isFinite = true ∧ y.isFinite = true := by
  unfold addIsExact at h
  simp only [Bool.and_eq_true, decide_eq_true_eq] at h
  exact ⟨h.1, isFinite_of_add h.1⟩

theorem isFinite_of_subIsExact {x y : F32} (h : subIsExact x y = true) :
    (sub x y).isFinite = true ∧ x.isFinite = true ∧ y.isFinite = true := by
  unfold subIsExact at h
  simp only [Bool.and_eq_true, decide_eq_true_eq] at h
  exact ⟨h.1, isFinite_of_sub h.1⟩

theorem isFinite_of_mulIsExact {x y : F32} (h : mulIsExact x y = true) :
    (mul x y).isFinite = true ∧ x.isFinite = true ∧ y.isFinite = true := by
  unfold mulIsExact at h
  simp only [Bool.and_eq_true, decide_eq_true_eq] at h
  exact ⟨h.1, isFinite_of_mul h.1⟩

theorem isFinite_of_divIsExact {x y : F32} (h : divIsExact x y = true) :
    (div x y).isFinite = true ∧ y.isFinite = true := by
  unfold divIsExact at h
  simp only [Bool.and_eq_true, decide_eq_true_eq] at h
  exact ⟨h.1.1, h.1.2⟩

/-- If the real sum of two finite floats is the value of a finite float `z`,
the float sum compares equal to `z`. -/
theorem add_eq_of_val {x y z : F32} (hx : x.isFinite = true) (hy : y.isFinite = true)
    (hz : z.isFinite = true) (h : val x + val y = val z) : eq (add x y) z = true := by
  apply add_eq_of_units x y z hx hy hz
  have hp : ((2 : ℚ) ^ 149) ≠ 0 := by positivity
  unfold val at h
  have h2 : (x.units : ℚ) + (y.units : ℚ) = (z.units : ℚ) := by
    generalize (2 : ℚ) ^ 149 = U at *
    field_simp at h
    exact h
  exact_mod_cast h2

/-- If the real difference of two finite floats is the value of a finite float
`z`, the float difference compares equal to `z`. -/
theorem sub_eq_of_val {x y z : F32} (hx : x.isFinite = true) (hy : y.isFinite = true)
    (hz : z.isFinite = true) (h : val x - val y = val z) : eq (sub x y) z = true := by
  unfold sub
  apply add_eq_of_val hx (by rw [neg_isFinite]; exact hy) hz
  rw [val_neg, ← h]
  ring

/-- If the real product of two finite floats is the value of a finite float
`z`, the float product compares equal to `z`. -/
theorem mul_eq_of_val {x y z : F32} (hx : x.isFinite = true) (hy : y.isFinite = true)
    (hz : z.isFinite = true) (h : val x * val y = val z) : eq (mul x y) z = true := by
  apply mul_eq_of_units x y z hx hy hz
  have hp : ((2 : ℚ) ^ 149) ≠ 0 := by positivity
  unfold val at h
  have h2 : (x.units : ℚ) * (y.units : ℚ) = (z.units : ℚ) * 2 ^ 149 := by
    generalize (2 : ℚ) ^ 149 = U at *
    field_simp at h
    have hpp : U * ((x.units : ℚ) * (y.units : ℚ)) = U * ((z.units : ℚ) * U) := by
      linear_combination h
    exact mul_left_cancel₀ hp hpp
  exact_mod_cast h2

theorem ne_zero_of_val_ne_zero {x : F32} (h : val x ≠ 0) : ne x zero = true := by
  unfold ne
  cases he : eq x zero
  · rfl
  · exfalso
    apply h
    rw [val_of_eq he, val_zero]

end F32

namespace F32

/-- When `a + b` is exact, subtracting `b` again gives back `a`. -/
theorem add_sub_of_exact {a b : F32} (h : addIsExact a b = true) :
    eq (sub (add a b) b) a = true := by
  obtain ⟨hs, ha, hb⟩ := isFinite_of_addIsExact h
  apply sub_eq_of_val hs hb ha
  rw [val_add_of_exact h]
  ring

theorem val_recip_of_exact {s : F32} (h : divIsExact one s = true) :
    val (div one s) * val s = 1 := by
  rw [val_div_of_exact h, val_one]

/-- When `v * s` and the reciprocal `1.0f / s` are exact, multiplying `v * s`
by the reciprocal gives back `v`. -/
theorem mul_recip_of_exact {v s : F32} (hr : divIsExact one s = true)
    (hm : mulIsExact v s = true) : eq (mul (mul v s) (div one s)) v = true := by
  obtain ⟨hw, hv, -⟩ := isFinite_of_mulIsExact hm
  obtain ⟨hq, -⟩ := isFinite_of_divIsExact hr
  apply mul_eq_of_val hw hq hv
  rw [val_mul_of_exact hm]
  linear_combination val v * val_recip_of_exact hr

theorem ne_zero_of_recip_exact {s : F32} (h : divIsExact one s = true) : ne s zero = true := by
  apply ne_zero_of_val_ne_zero
  intro h0
  have := val_recip_of_exact h
  rw [h0, mul_zero] at this
  exact zero_ne_one this

end F32

/-! ## Round trip of addition -/

/-- C12 (as amended): whenever every component of the float sum `a + b` is
finite and computed without rounding error, `(a + b) - b == a` under the
component-wise `==`.  For `Vec2` and `Vec3`. -/
theorem vec_add_sub_cancel (a b : Vec2) (c d : Vec3) :
    (F32.addIsExact a.x b.x = true ∧ F32.addIsExact a.y b.y = true →
      Vec2.eq (Vec2.sub (Vec2.add a b) b) a = true) ∧
    (F32.addIsExact c.x d.x = true ∧ F32.addIsExact c.y d.y = true ∧
        F32.addIsExact c.z d.z = true →
      Vec3.eq (Vec3.sub (Vec3.add c d) d) c = true) := by
  constructor
  · intro h
    simp only [Vec2.eq, Vec2.sub, Vec2.add, Bool.and_eq_true]
    exact ⟨F32.add_sub_of_exact h.1, F32.add_sub_of_exact h.2⟩
  · intro h
    simp only [Vec3.eq, Vec3.sub, Vec3.add, Bool.and_eq_true]
    exact ⟨⟨F32.add_sub_of_exact h.1, F32.add_sub_of_exact h.2.1⟩, F32.add_sub_of_exact h.2.2⟩

theorem vec_add_sub_cancel_witness :
    Vec2.eq (Vec2.sub (Vec2.add ⟨F32.one, F32.two⟩ ⟨F32.ofInt 3, F32.negOne⟩)
      ⟨F32.ofInt 3, F32.negOne⟩) ⟨F32.one, F32.two⟩ = true ∧
    Vec3.eq (Vec3.sub (Vec3.add ⟨F32.one, F32.two, F32.zero⟩ ⟨F32.ofInt 3, F32.negOne, F32.one⟩)
      ⟨F32.ofInt 3, F32.negOne, F32.one⟩) ⟨F32.one, F32.two, F32.zero⟩ = true :=
  ⟨(vec_add_sub_cancel ⟨F32.one, F32.two⟩ ⟨F32.ofInt 3, F32.negOne⟩ ⟨F32.one, F32.two, F32.zero⟩
      ⟨F32.ofInt 3, F32.negOne, F32.one⟩).1 (by decide),
    (vec_add_sub_cancel ⟨F32.one, F32.two⟩ ⟨F32.ofInt 3, F32.negOne⟩ ⟨F32.one, F32.two, F32.zero⟩
      ⟨F32.ofInt 3, F32.negOne, F32.one⟩).2 (by decide)⟩

/-- C12 fails as stated: with `a = (1, 0)` and `b = (16777216, 0)` the sum
`1 + 16777216` is a tie and rounds to `16777216`, so `(a + b) - b` is `(0, 0)`
and not `== a`; likewise in 3D. -/
theorem vec_add_sub_cancel_counterexample :
    Vec2.sub (Vec2.add ⟨F32.one, F32.zero⟩ ⟨F32.ofInt 16777216, F32.zero⟩)
      ⟨F32.ofInt 16777216, F32.zero⟩ = ⟨F32.zero, F32.zero⟩ ∧
    Vec2.eq (Vec2.sub (Vec2.add ⟨F32.one, F32.zero⟩ ⟨F32.ofInt 16777216, F32.zero⟩)
      ⟨F32.ofInt 16777216, F32.zero⟩) ⟨F32.one, F32.zero⟩ = false ∧
    Vec3.eq (Vec3.sub (Vec3.add ⟨F32.one, F32.zero, F32.zero⟩ ⟨F32.ofInt 16777216, F32.zero, F32.zero⟩)
      ⟨F32.ofInt 16777216, F32.zero, F32.zero⟩) ⟨F32.one, F32.zero, F32.zero⟩ = false := by
  decide

/-! ## Facts about exactly computed vector operations -/

namespace Vec2

theorem val_dot2_of_exact {a b : Vec2} (h : dotIsExact a b = true) :
    (Dot a b).isFinite = true ∧
      F32.val (Dot a b) = F32.val a.x * F32.val b.x + F32.val a.y * F32.val b.y := by
  unfold dotIsExact at h
  simp only [Bool.and_eq_true] at h
  obtain ⟨⟨h1, h2⟩, h3⟩ := h
  unfold Dot
  refine ⟨(F32.isFinite_of_addIsExact h3).1, ?_⟩
  rw [F32.val_add_of_exact h3, F32.val_mul_of_exact h1, F32.val_mul_of_exact h2]

theorem val_reflectTerm2_of_exact {v n : Vec2} (h : reflectTermIsExact v n = true) :
    v.x.isFinite = true ∧ v.y.isFinite = true ∧
    (F32.mul (F32.mul n.x F32.two) (Dot v n)).isFinite = true ∧
    (F32.mul (F32.mul n.y F32.two) (Dot v n)).isFinite = true ∧
    F32.val (F32.mul (F32.mul n.x F32.two) (Dot v n)) =
      F32.val n.x * 2 * (F32.val v.x * F32.val n.x + F32.val v.y * F32.val n.y) ∧
    F32.val (F32.mul (F32.mul n.y F32.two) (Dot v n)) =
      F32.val n.y * 2 * (F32.val v.x * F32.val n.x + F32.val v.y * F32.val n.y) := by
  unfold reflectTermIsExact at h
  simp only [Bool.and_eq_true] at h
  obtain ⟨⟨⟨⟨h1, h2⟩, h3⟩, h4⟩, h5⟩ := h
  have hd := val_dot2_of_exact h3
  have h3' := h3
  unfold dotIsExact at h3'
  simp only [Bool.and_eq_true] at h3'
  refine ⟨(F32.isFinite_of_mulIsExact h3'.1.1).2.1, (F32.isFinite_of_mulIsExact h3'.1.2).2.1,
    (F32.isFinite_of_mulIsExact h4).1, (F32.isFinite_of_mulIsExact h5).1, ?_, ?_⟩
  · rw [F32.val_mul_of_exact h4, F32.val_mul_of_exact h1, hd.2, F32.val_two]
  · rw [F32.val_mul_of_exact h5, F32.val_mul_of_exact h2, hd.2, F32.val_two]

theorem val_reflect2_of_exact {v n : Vec2} (h : reflectIsExact v n = true) :
    (Reflect v n).x.isFinite = true ∧ (Reflect v n).y.isFinite = true ∧
    F32.val (Reflect v n).x =
      F32.val v.x - F32.val n.x * 2 * (F32.val v.x * F32.val n.x + F32.val v.y * F32.val n.y) ∧
    F32.val (Reflect v n).y =
      F32.val v.y - F32.val n.y * 2 * (F32.val v.x * F32.val n.x + F32.val v.y * F32.val n.y) := by
  unfold reflectIsExact at h
  simp only [Bool.and_eq_true] at h
  obtain ⟨⟨h1, h2⟩, h3⟩ := h
  obtain ⟨-, -, -, -, e1, e2⟩ := val_reflectTerm2_of_exact h1
  refine ⟨(F32.isFinite_of_subIsExact h2).1, (F32.isFinite_of_subIsExact h3).1, ?_, ?_⟩
  · show F32.val (F32.sub v.x (F32.mul (F32.mul n.x F32.two) (Dot v n))) = _
    rw [F32.val_sub_of_exact h2, e1]
  · show F32.val (F32.sub v.y (F32.mul (F32.mul n.y F32.two) (Dot v n))) = _
    rw [F32.val_sub_of_exact h3, e2]

/-- Reflecting twice about a normal of exactly unit length gives back `v`,
provided no operation rounds. -/
theorem reflect2_twice_of_exact {v n : Vec2} (hn : dotIsExact n n = true)
    (h1 : F32.eq (Dot n n) F32.one = true) (hr : reflectIsExact v n = true)
    (ht : reflectTermIsExact (Reflect v n) n = true) :
    eq (Reflect (Reflect v n) n) v = true := by
  have hnn : F32.val n.x * F32.val n.x + F32.val n.y * F32.val n.y = 1 := by
    rw [← (val_dot2_of_exact hn).2, F32.val_of_eq h1, F32.val_one]
  obtain ⟨fx, fy, ex, ey⟩ := val_reflect2_of_exact hr
  obtain ⟨-, -, gx, gy, tx, ty⟩ := val_reflectTerm2_of_exact ht
  have hr' := hr
  unfold reflectIsExact at hr'
  simp only [Bool.and_eq_true] at hr'
  obtain ⟨vx, vy, -⟩ := val_reflectTerm2_of_exact hr'.1.1
  simp only [eq, Bool.and_eq_true]
  constructor
  · show F32.eq (F32.sub (Reflect v n).x
      (F32.mul (F32.mul n.x F32.two) (Dot (Reflect v n) n))) v.x = true
    apply F32.sub_eq_of_val fx gx vx
    rw [tx, ex, ey]
    linear_combination
      (4 * F32.val n.x * (F32.val v.x * F32.val n.x + F32.val v.y * F32.val n.y)) * hnn
  · show F32.eq (F32.sub (Reflect v n).y
      (F32.mul (F32.mul n.y F32.two) (Dot (Reflect v n) n))) v.y = true
    apply F32.sub_eq_of_val fy gy vy
    rw [ty, ex, ey]
    linear_combination
      (4 * F32.val n.y * (F32.val v.x * F32.val n.x + F32.val v.y * F32.val n.y)) * hnn

end Vec2

namespace Vec3

theorem val_dotPart_of_exact {a b : Vec3} (h : dotPartIsExact a b = true) :
    (F32.add (F32.mul a.x b.x) (F32.mul a.y b.y)).isFinite = true ∧
    (F32.mul a.z b.z).isFinite = true ∧
    a.x.isFinite = true ∧ a.y.isFinite = true ∧ a.z.isFinite = true ∧
    F32.val (F32.add (F32.mul a.x b.x) (F32.mul a.y b.y)) =
      F32.val a.x * F32.val b.x + F32.val a.y * F32.val b.y ∧
    F32.val (F32.mul a.z b.z) = F32.val a.z * F32.val b.z := by
  unfold dotPartIsExact at h
  simp only [Bool.and_eq_true] at h
  obtain ⟨⟨⟨h1, h2⟩, h3⟩, h4⟩ := h
  refine ⟨(F32.isFinite_of_addIsExact h4).1, (F32.isFinite_of_mulIsExact h3).1,
    (F32.isFinite_of_mulIsExact h1).2.1, (F32.isFinite_of_mulIsExact h2).2.1,
    (F32.isFinite_of_mulIsExact h3).2.1, ?_, F32.val_mul_of_exact h3⟩
  rw [F32.val_add_of_exact h4, F32.val_mul_of_exact h1, F32.val_mul_of_exact h2]

theorem val_dot3_of_exact {a b : Vec3} (h : dotIsExact a b = true) :
    (Dot a b).isFinite = true ∧
      F32.val (Dot a b) =
        F32.val a.x * F32.val b.x + F32.val a.y * F32.val b.y + F32.val a.z * F32.val b.z := by
  unfold dotIsExact at h
  simp only [Bool.and_eq_true] at h
  obtain ⟨h1, h2⟩ := h
  obtain ⟨-, -, -, -, -, e1, e2⟩ := val_dotPart_of_exact h1
  unfold Dot
  refine ⟨(F32.isFinite_of_addIsExact h2).1, ?_⟩
  rw [F32.val_add_of_exact h2, e1, e2]

/-- A dot product whose real value is zero evaluates to a zero as soon as its
products and first sum are exact. -/
theorem dot_eq_zero_of_exact {a b : Vec3} (h : dotPartIsExact a b = true)
    (h0 : F32.val a.x * F32.val b.x + F32.val a.y * F32.val b.y + F32.val a.z * F32.val b.z = 0) :
    F32.eq (Dot a b) F32.zero = true := by
  obtain ⟨f1, f2, -, -, -, e1, e2⟩ := val_dotPart_of_exact h
  unfold Dot
  apply F32.add_eq_of_val f1 f2 (by decide)
  rw [e1, e2, F32.val_zero, h0]

end Vec3

namespace Vec3

theorem val_reflectTerm3_of_exact {v n : Vec3} (h : reflectTermIsExact v n = true) :
    (v.x.isFinite = true ∧ v.y.isFinite = true ∧ v.z.isFinite = true) ∧
    ((F32.mul (F32.mul n.x F32.two) (Dot v n)).isFinite = true ∧
      (F32.mul (F32.mul n.y F32.two) (Dot v n)).isFinite = true ∧
      (F32.mul (F32.mul n.z F32.two) (Dot v n)).isFinite = true) ∧
    F32.val (F32.mul (F32.mul n.x F32.two) (Dot v n)) =
      F32.val n.x * 2 *
        (F32.val v.x * F32.val n.x + F32.val v.y * F32.val n.y + F32.val v.z * F32.val n.z) ∧
    F32.val (F32.mul (F32.mul n.y F32.two) (Dot v n)) =
      F32.val n.y * 2 *
        (F32.val v.x * F32.val n.x + F32.val v.y * F32.val n.y + F32.val v.z * F32.val n.z) ∧
    F32.val (F32.mul (F32.mul n.z F32.two) (Dot v n)) =
      F32.val n.z * 2 *
        (F32.val v.x * F32.val n.x + F32.val v.y * F32.val n.y + F32.val v.z * F32.val n.z) := by
  unfold reflectTermIsExact at h
  simp only [Bool.and_eq_true] at h
  obtain ⟨⟨⟨⟨⟨⟨h1, h2⟩, h3⟩, hd⟩, h4⟩, h5⟩, h6⟩ := h
  have hv := val_dot3_of_exact hd
  have hd' := hd
  unfold dotIsExact at hd'
  simp only [Bool.and_eq_true] at hd'
  obtain ⟨-, -, vx, vy, vz, -, -⟩ := val_dotPart_of_exact hd'.1
  refine ⟨⟨vx, vy, vz⟩, ⟨(F32.isFinite_of_mulIsExact h4).1, (F32.isFinite_of_mulIsExact h5).1,
    (F32.isFinite_of_mulIsExact h6).1⟩, ?_, ?_, ?_⟩
  · rw [F32.val_mul_of_exact h4, F32.val_mul_of_exact h1, hv.2, F32.val_two]
  · rw [F32.val_mul_of_exact h5, F32.val_mul_of_exact h2, hv.2, F32.val_two]
  · rw [F32.val_mul_of_exact h6, F32.val_mul_of_exact h3, hv.2, F32.val_two]

theorem val_reflect3_of_exact {v n : Vec3} (h : reflectIsExact v n = true) :
    ((Reflect v n).x.isFinite = true ∧ (Reflect v n).y.isFinite = true ∧
      (Reflect v n).z.isFinite = true) ∧
    F32.val (Reflect v n).x =
      F32.val v.x - F32.val n.x * 2 *
        (F32.val v.x * F32.val n.x + F32.val v.y * F32.val n.y + F32.val v.z * F32.val n.z) ∧
    F32.val (Reflect v n).y =
      F32.val v.y - F32.val n.y * 2 *
        (F32.val v.x * F32.val n.x + F32.val v.y * F32.val n.y + F32.val v.z * F32.val n.z) ∧
    F32.val (Reflect v n).z =
      F32.val v.z - F32.val n.z * 2 *
        (F32.val v.x * F32.val n.x + F32.val v.y * F32.val n.y + F32.val v.z * F32.val n.z) := by
  unfold reflectIsExact at h
  simp only [Bool.and_eq_true] at h
  obtain ⟨⟨⟨h1, h2⟩, h3⟩, h4⟩ := h
  obtain ⟨-, -, e1, e2, e3⟩ := val_reflectTerm3_of_exact h1
  refine ⟨⟨(F32.isFinite_of_subIsExact h2).1, (F32.isFinite_of_subIsExact h3).1,
    (F32.isFinite_of_subIsExact h4).1⟩, ?_, ?_, ?_⟩
  · show F32.val (F32.sub v.x (F32.mul (F32.mul n.x F32.two) (Dot v n))) = _
    rw [F32.val_sub_of_exact h2, e1]
  · show F32.val (F32.sub v.y (F32.mul (F32.mul n.y F32.two) (Dot v n))) = _
    rw [F32.val_sub_of_exact h3, e2]
  · show F32.val (F32.sub v.z (F32.mul (F32.mul n.z F32.two) (Dot v n))) = _
    rw [F32.val_sub_of_exact h4, e3]

/-- Reflecting twice about a normal of exactly unit length gives back `v`,
provided no operation rounds. -/
theorem reflect3_twice_of_exact {v n : Vec3} (hn : dotIsExact n n = true)
    (h1 : F32.eq (Dot n n) F32.one = true) (hr : reflectIsExact v n = true)
    (ht : reflectTermIsExact (Reflect v n) n = true) :
    eq (Reflect (Reflect v n) n) v = true := by
  have hnn : F32.val n.x * F32.val n.x + F32.val n.y * F32.val n.y + F32.val n.z * F32.val n.z
      = 1 := by
    rw [← (val_dot3_of_exact hn).2, F32.val_of_eq h1, F32.val_one]
  obtain ⟨⟨fx, fy, fz⟩, ex, ey, ez⟩ := val_reflect3_of_exact hr
  obtain ⟨-, ⟨gx, gy, gz⟩, tx, ty, tz⟩ := val_reflectTerm3_of_exact ht
  have hr' := hr
  unfold reflectIsExact at hr'
  simp only [Bool.and_eq_true] at hr'
  obtain ⟨⟨vx, vy, vz⟩, -⟩ := val_reflectTerm3_of_exact hr'.1.1.1
  simp only [eq, Bool.and_eq_true]
  refine ⟨⟨?_, ?_⟩, ?_⟩
  · show F32.eq (F32.sub (Reflect v n).x
      (F32.mul (F32.mul n.x F32.two) (Dot (Reflect v n) n))) v.x = true
    apply F32.sub_eq_of_val fx gx vx
    rw [tx, ex, ey, ez]
    linear_combination
      (4 * F32.val n.x *
        (F32.val v.x * F32.val n.x + F32.val v.y * F32.val n.y + F32.val v.z * F32.val n.z)) * hnn
  · show F32.eq (F32.sub (Reflect v n).y
      (F32.mul (F32.mul n.y F32.two) (Dot (Reflect v n) n))) v.y = true
    apply F32.sub_eq_of_val fy gy vy
    rw [ty, ex, ey, ez]
    linear_combination
      (4 * F32.val n.y *
        (F32.val v.x * F32.val n.x + F32.val v.y * F32.val n.y + F32.val v.z * F32.val n.z)) * hnn
  · show F32.eq (F32.sub (Reflect v n).z
      (F32.mul (F32.mul n.z F32.two) (Dot (Reflect v n) n))) v.z = true
    apply F32.sub_eq_of_val fz gz vz
    rw [tz, ex, ey, ez]
    linear_combination
      (4 * F32.val n.z *
        (F32.val v.x * F32.val n.x + F32.val v.y * F32.val n.y + F32.val v.z * F32.val n.z)) * hnn

theorem val_cross_of_exact {a b : Vec3} (h : crossIsExact a b = true) :
    F32.val (Cross a b).x = F32.val a.y * F32.val b.z - F32.val a.z * F32.val b.y ∧
    F32.val (Cross a b).y = F32.val a.z * F32.val b.x - F32.val a.x * F32.val b.z ∧
    F32.val (Cross a b).z = F32.val a.x * F32.val b.y - F32.val a.y * F32.val b.x := by
  unfold crossIsExact at h
  simp only [Bool.and_eq_true] at h
  obtain ⟨⟨⟨⟨⟨⟨⟨⟨h1, h2⟩, h3⟩, h4⟩, h5⟩, h6⟩, h7⟩, h8⟩, h9⟩ := h
  refine ⟨?_, ?_, ?_⟩
  · show F32.val (F32.sub (F32.mul a.y b.z) (F32.mul a.z b.y)) = _
    rw [F32.val_sub_of_exact h3, F32.val_mul_of_exact h1, F32.val_mul_of_exact h2]
  · show F32.val (F32.sub (F32.mul a.z b.x) (F32.mul a.x b.z)) = _
    rw [F32.val_sub_of_exact h6, F32.val_mul_of_exact h4, F32.val_mul_of_exact h5]
  · show F32.val (F32.sub (F32.mul a.x b.y) (F32.mul a.y b.x)) = _
    rw [F32.val_sub_of_exact h9, F32.val_mul_of_exact h7, F32.val_mul_of_exact h8]

/-- The cross product is orthogonal to its first operand, provided no
operation before the last sum rounds. -/
theorem dot_cross_left_of_exact {a b : Vec3} (hc : crossIsExact a b = true)
    (hd : dotPartIsExact (Cross a b) a = true) : F32.eq (Dot (Cross a b) a) F32.zero = true := by
  obtain ⟨e1, e2, e3⟩ := val_cross_of_exact hc
  apply dot_eq_zero_of_exact hd
  rw [e1, e2, e3]
  ring

/-- The cross product is orthogonal to its second operand, provided no
operation before the last sum rounds. -/
theorem dot_cross_right_of_exact {a b : Vec3} (hc : crossIsExact a b = true)
    (hd : dotPartIsExact (Cross a b) b = true) : F32.eq (Dot (Cross a b) b) F32.zero = true := by
  obtain ⟨e1, e2, e3⟩ := val_cross_of_exact hc
  apply dot_eq_zero_of_exact hd
  rw [e1, e2, e3]
  ring

theorem val_sub3_of_exact {a b : Vec3} (h : subIsExact a b = true) :
    F32.val (sub a b).x = F32.val a.x - F32.val b.x ∧
    F32.val (sub a b).y = F32.val a.y - F32.val b.y ∧
    F32.val (sub a b).z = F32.val a.z - F32.val b.z := by
  unfold subIsExact at h
  simp only [Bool.and_eq_true] at h
  exact ⟨F32.val_sub_of_exact h.1.1, F32.val_sub_of_exact h.1.2, F32.val_sub_of_exact h.2⟩

/-- The residual `a - Project(a, b)` is orthogonal to `b`, provided no
operation before the last sum rounds. -/
theorem dot_residual_of_exact {a b : Vec3} (hg : F32.gt (LengthSquared b) F32.zero = true)
    (hp : projectIsExact a b = true) (hs : subIsExact a (Project a b) = true)
    (hd : dotPartIsExact (sub a (Project a b)) b = true) :
    F32.eq (Dot (sub a (Project a b)) b) F32.zero = true := by
  have hP : Project a b = mul b (F32.div (Dot a b) (LengthSquared b)) := by
    simp only [Project, hg, if_true]
  unfold projectIsExact at hp
  simp only [Bool.and_eq_true] at hp
  obtain ⟨⟨⟨⟨⟨hbb, hab⟩, hq⟩, m1⟩, m2⟩, m3⟩ := hp
  have hL : F32.val (LengthSquared b) =
      F32.val b.x * F32.val b.x + F32.val b.y * F32.val b.y + F32.val b.z * F32.val b.z :=
    (val_dot3_of_exact hbb).2
  have hD := (val_dot3_of_exact hab).2
  have hQ := F32.val_div_of_exact hq
  rw [hL, hD] at hQ
  obtain ⟨r1, r2, r3⟩ := val_sub3_of_exact hs
  apply dot_eq_zero_of_exact hd
  rw [r1, r2, r3, hP]
  simp only [mul]
  rw [F32.val_mul_of_exact m1, F32.val_mul_of_exact m2, F32.val_mul_of_exact m3]
  linear_combination -hQ

end Vec3

/-! ## Algebraic identities that hold without rounding -/

/-- C18 (as amended): when `LengthSquared(b) > 0` and no operation of
`Project(a, b)`, of the subtraction and of the products and first sum of the
final dot product rounds or overflows, `Dot(a - Project(a, b), b) == 0`. -/
theorem project_residual_orthogonal (a b : Vec3) :
    F32.gt (Vec3.LengthSquared b) F32.zero = true ∧ Vec3.projectIsExact a b = true ∧
      Vec3.subIsExact a (Vec3.Project a b) = true ∧
      Vec3.dotPartIsExact (Vec3.sub a (Vec3.Project a b)) b = true →
    F32.eq (Vec3.Dot (Vec3.sub a (Vec3.Project a b)) b) F32.zero = true :=
  fun h => Vec3.dot_residual_of_exact h.1 h.2.1 h.2.2.1 h.2.2.2

theorem project_residual_orthogonal_witness :
    F32.gt (Vec3.LengthSquared ⟨F32.two, F32.zero, F32.two⟩) F32.zero = true ∧
    Vec3.Project ⟨F32.ofInt 3, F32.ofInt 4, F32.one⟩ ⟨F32.two, F32.zero, F32.two⟩ =
      ⟨F32.two, F32.zero, F32.two⟩ ∧
    F32.eq (Vec3.Dot (Vec3.sub ⟨F32.ofInt 3, F32.ofInt 4, F32.one⟩
      (Vec3.Project ⟨F32.ofInt 3, F32.ofInt 4, F32.one⟩ ⟨F32.two, F32.zero, F32.two⟩))
      ⟨F32.two, F32.zero, F32.two⟩) F32.zero = true :=
  ⟨by decide, by decide,
    project_residual_orthogonal ⟨F32.ofInt 3, F32.ofInt 4, F32.one⟩ ⟨F32.two, F32.zero, F32.two⟩
      (by decide)⟩

/-- C18 fails as stated: for `a = (0, 0, 1)` and `b = (0, 1, 2)`,
`LengthSquared(b) = 5 > 0`, the quotient `2 / 5` is rounded, and
`Dot(a - Project(a, b), b)` is `-2.9802322e-8f` (`0xB3000000`), not `0`. -/
theorem project_residual_orthogonal_counterexample :
    F32.gt (Vec3.LengthSquared ⟨F32.zero, F32.one, F32.two⟩) F32.zero = true ∧
    Vec3.Dot (Vec3.sub ⟨F32.zero, F32.zero, F32.one⟩
      (Vec3.Project ⟨F32.zero, F32.zero, F32.one⟩ ⟨F32.zero, F32.one, F32.two⟩))
      ⟨F32.zero, F32.one, F32.two⟩ = ⟨true, 0x33000000⟩ ∧
    F32.eq (Vec3.Dot (Vec3.sub ⟨F32.zero, F32.zero, F32.one⟩
      (Vec3.Project ⟨F32.zero, F32.zero, F32.one⟩ ⟨F32.zero, F32.one, F32.two⟩))
      ⟨F32.zero, F32.one, F32.two⟩) F32.zero = false := by
  decide

/-- C19 (as amended): when no product or difference of `Cross(a, b)` rounds or
overflows, `Dot(Cross(a, b), a) == 0` as soon as the products and first sum of
that dot product are exact, and likewise `Dot(Cross(a, b), b) == 0`. -/
theorem cross_orthogonal (a b : Vec3) :
    (Vec3.crossIsExact a b = true ∧ Vec3.dotPartIsExact (Vec3.Cross a b) a = true →
      F32.eq (Vec3.Dot (Vec3.Cross a b) a) F32.zero = true) ∧
    (Vec3.crossIsExact a b = true ∧ Vec3.dotPartIsExact (Vec3.Cross a b) b = true →
      F32.eq (Vec3.Dot (Vec3.Cross a b) b) F32.zero = true) :=
  ⟨fun h => Vec3.dot_cross_left_of_exact h.1 h.2, fun h => Vec3.dot_cross_right_of_exact h.1 h.2⟩

theorem cross_orthogonal_witness :
    Vec3.Cross ⟨F32.one, F32.two, F32.ofInt 3⟩ ⟨F32.ofInt 4, F32.ofInt 5, F32.ofInt 6⟩ =
      ⟨F32.ofInt (-3), F32.ofInt 6, F32.ofInt (-3)⟩ ∧
    F32.eq (Vec3.Dot (Vec3.Cross ⟨F32.one, F32.two, F32.ofInt 3⟩
      ⟨F32.ofInt 4, F32.ofInt 5, F32.ofInt 6⟩) ⟨F32.one, F32.two, F32.ofInt 3⟩) F32.zero = true ∧
    F32.eq (Vec3.Dot (Vec3.Cross ⟨F32.one, F32.two, F32.ofInt 3⟩
      ⟨F32.ofInt 4, F32.ofInt 5, F32.ofInt 6⟩) ⟨F32.ofInt 4, F32.ofInt 5, F32.ofInt 6⟩)
      F32.zero = true :=
  ⟨by decide,
    (cross_orthogonal ⟨F32.one, F32.two, F32.ofInt 3⟩ ⟨F32.ofInt 4, F32.ofInt 5, F32.ofInt 6⟩).1
      (by decide),
    (cross_orthogonal ⟨F32.one, F32.two, F32.ofInt 3⟩ ⟨F32.ofInt 4, F32.ofInt 5, F32.ofInt 6⟩).2
      (by decide)⟩

/-- C19 fails as stated: for `a = (1, 1, 16777216)` and `b = (1, 2, 3)` the
first component `3 - 33554432` of the cross product rounds to `-33554428`, and
both `Dot(Cross(a, b), a)` and `Dot(Cross(a, b), b)` are `1`, not `0`. -/
theorem cross_orthogonal_counterexample :
    Vec3.Cross ⟨F32.one, F32.one, F32.ofInt 16777216⟩ ⟨F32.one, F32.two, F32.ofInt 3⟩ =
      ⟨F32.ofInt (-33554428), F32.ofInt 16777213, F32.one⟩ ∧
    Vec3.Dot (Vec3.Cross ⟨F32.one, F32.one, F32.ofInt 16777216⟩ ⟨F32.one, F32.two, F32.ofInt 3⟩)
      ⟨F32.one, F32.one, F32.ofInt 16777216⟩ = F32.one ∧
    F32.eq (Vec3.Dot (Vec3.Cross ⟨F32.one, F32.one, F32.ofInt 16777216⟩
      ⟨F32.one, F32.two, F32.ofInt 3⟩) ⟨F32.one, F32.one, F32.ofInt 16777216⟩) F32.zero = false ∧
    F32.eq (Vec3.Dot (Vec3.Cross ⟨F32.one, F32.one, F32.ofInt 16777216⟩
      ⟨F32.one, F32.two, F32.ofInt 3⟩) ⟨F32.one, F32.two, F32.ofInt 3⟩) F32.zero = false := by
  decide

/-! ## Rounding error

A rounded result that is a normal number differs from the exact result by at
most `2 ^ -24` of its own size; so does every finite sum or difference. -/

namespace F32

theorem rne_err (m k : Nat) :
    2 * (rne m k * 2 ^ k) ≤ 2 * m + 2 ^ k ∧ 2 * m ≤ 2 * (rne m k * 2 ^ k) + 2 ^ k := by
  have hp := Nat.two_pow_pos k
  have hd := Nat.div_add_mod m (2 ^ k)
  have hr := Nat.mod_lt m hp
  unfold rne
  generalize 2 ^ k = P at *
  generalize m / P = d at *
  generalize m % P = r at *
  split
  · rename_i h
    have e : (d + 1) * P = P * d + P := by ring
    rw [e]
    generalize P * d = Q at *
    omega
  · rename_i h
    have e : d * P = P * d := Nat.mul_comm _ _
    rw [e]
    generalize P * d = Q at *
    omega

theorem rne_err_odd (m k : Nat) (hk : 2 ≤ k) (hodd : m % 2 = 1) :
    2 * (rne m k * 2 ^ k) + 2 ≤ 2 * m + 2 ^ k ∧ 2 * m + 2 ≤ 2 * (rne m k * 2 ^ k) + 2 ^ k := by
  obtain ⟨h1, h2⟩ := rne_err m k
  obtain ⟨j, rfl⟩ : ∃ j, k = j + 2 := ⟨k - 2, by omega⟩
  have e1 : 2 ^ (j + 2) = 4 * 2 ^ j := by rw [Nat.pow_add]; ring
  have e2 : rne m (j + 2) * 2 ^ (j + 2) = 4 * (rne m (j + 2) * 2 ^ j) := by rw [e1]; ring
  rw [e2] at h1 h2 ⊢
  rw [e1] at h1 h2 ⊢
  generalize rne m (j + 2) * 2 ^ j = Q at *
  generalize 2 ^ j = P at *
  omega

theorem rne_le (m k : Nat) : rne m k ≤ m / 2 ^ k + 1 := by
  unfold rne
  split <;> omega

theorem ulpExp_ge (m : Nat) (e : Int) : -149 ≤ ulpExp m e := by
  unfold ulpExp
  omega

/-- The significand kept by `roundBits` has at most 24 bits (`2 ^ 24` when the
rounding carries), and at least 24 bits above the subnormal range. -/
theorem roundSig_bounds {m : Nat} (e : Int) (hm : m ≠ 0) :
    (if ulpExp m e ≤ e then m * 2 ^ (e - ulpExp m e).toNat else rne m (ulpExp m e - e).toNat)
      ≤ 2 ^ 24 ∧
    (-149 < ulpExp m e →
      2 ^ 23 ≤ (if ulpExp m e ≤ e then m * 2 ^ (e - ulpExp m e).toNat
        else rne m (ulpExp m e - e).toNat)) := by
  obtain ⟨h1, h2⟩ := ilog2_spec hm
  have hq : ulpExp m e = max ((ilog2 m : Int) + e - 23) (-149) := rfl
  generalize ulpExp m e = q at *
  generalize ilog2 m = L at *
  by_cases hqe : q ≤ e
  · rw [if_pos hqe]
    constructor
    · have hj : L + 1 + (e - q).toNat ≤ 24 := by omega
      have h3 : m * 2 ^ (e - q).toNat < 2 ^ (L + 1) * 2 ^ (e - q).toNat :=
        Nat.mul_lt_mul_of_pos_right h2 (Nat.two_pow_pos _)
      rw [← Nat.pow_add] at h3
      exact Nat.le_of_lt (Nat.lt_of_lt_of_le h3 (Nat.pow_le_pow_right (by decide) hj))
    · intro hq1
      have hj : L + (e - q).toNat = 23 := by omega
      have h3 : 2 ^ L * 2 ^ (e - q).toNat ≤ m * 2 ^ (e - q).toNat :=
        Nat.mul_le_mul_right _ h1
      rw [← Nat.pow_add, hj] at h3
      exact h3
  · rw [if_neg hqe]
    constructor
    · have hj : L + 1 ≤ (q - e).toNat + 24 := by omega
      have h3 : m < 2 ^ (q - e).toNat * 2 ^ 24 := by
        rw [← Nat.pow_add]
        exact Nat.lt_of_lt_of_le h2 (Nat.pow_le_pow_right (by decide) hj)
      have h4 : m / 2 ^ (q - e).toNat < 2 ^ 24 := Nat.div_lt_of_lt_mul h3
      have h5 := rne_le m (q - e).toNat
      omega
    · intro hq1
      have hj : L = 23 + (q - e).toNat := by omega
      have h3 : 2 ^ 23 * 2 ^ (q - e).toNat ≤ m := by
        rw [← Nat.pow_add, ← hj]
        exact h1
      have h4 : 2 ^ 23 ≤ m / 2 ^ (q - e).toNat :=
        (Nat.le_div_iff_mul_le (Nat.two_pow_pos _)).mpr h3
      have h5 := rne_ge m (q - e).toNat
      omega

/-- The size of a finite rounded value, in units of `2 ^ -149`: the kept
significand times the unit in the last place. -/
theorem round_units {m : Nat} (s : Bool) (e : Int) (hm : m ≠ 0)
    (hf : (round s m e).isFinite = true) :
    (round s m e).units.natAbs =
      (if ulpExp m e ≤ e then m * 2 ^ (e - ulpExp m e).toNat else rne m (ulpExp m e - e).toNat) *
        2 ^ (ulpExp m e + 149).toNat := by
  obtain ⟨hS1, hS2⟩ := roundSig_bounds e hm
  have hq := ulpExp_ge m e
  have hb : (round s m e).mag.val = (ulpExp m e + 149).toNat * 0x800000 +
      (if ulpExp m e ≤ e then m * 2 ^ (e - ulpExp m e).toNat
        else rne m (ulpExp m e - e).toNat) := by
    have h1 : (round s m e).mag.val = min (roundBits m e) infBits := rfl
    have h2 : (round s m e).mag.val < infBits := by simpa [isFinite] using hf
    have h3 : roundBits m e = (ulpExp m e + 149).toNat * 0x800000 +
      (if ulpExp m e ≤ e then m * 2 ^ (e - ulpExp m e).toNat
        else rne m (ulpExp m e - e).toNat) := by
      unfold roundBits
      rw [if_neg hm]
    rw [← h3]
    omega
  have hlt : (round s m e).mag.val < infBits := by simpa [isFinite] using hf
  rw [units_natAbs]
  unfold sig exp
  generalize (round s m e).mag.val = b at *
  generalize (if ulpExp m e ≤ e then m * 2 ^ (e - ulpExp m e).toNat
        else rne m (ulpExp m e - e).toNat) = S at *
  generalize ulpExp m e = q at *
  norm_num at hS1 hS2
  by_cases c1 : S < 8388608
  · have hq1 : q = -149 := by
      by_contra hne
      have := hS2 (by omega)
      omega
    subst hq1
    have hb2 : b = S := by simpa using hb
    subst hb2
    rw [if_pos c1, if_pos c1]
    rfl
  · by_cases c2 : S = 16777216
    · subst c2
      have hE : ((q + 149).toNat : Int) = q + 149 := by omega
      have hb3 : b = ((q + 149).toNat + 2) * 8388608 := by omega
      subst hb3
      have c3 : ¬ ((q + 149).toNat + 2) * 8388608 < 8388608 := by omega
      rw [if_neg c3, if_neg c3]
      have e1 : ((q + 149).toNat + 2) * 8388608 % 8388608 = 0 := Nat.mul_mod_left _ _
      have e2 : ((q + 149).toNat + 2) * 8388608 / 8388608 = (q + 149).toNat + 2 :=
        Nat.mul_div_cancel _ (by decide)
      rw [e1, e2]
      have e3 : ((((q + 149).toNat + 2 : Nat) : Int) - 150 - -149).toNat = (q + 149).toNat + 1 := by
        omega
      rw [e3, Nat.pow_succ]
      generalize 2 ^ (q + 149).toNat = P
      omega
    · have c3 : ¬ b < 8388608 := by omega
      rw [if_neg c3, if_neg c3]
      have e1 : b % 8388608 = S - 8388608 := by omega
      have e2 : b / 8388608 = (q + 149).toNat + 1 := by omega
      rw [e1, e2]
      have e3 : ((((q + 149).toNat + 1 : Nat) : Int) - 150 - -149).toNat = (q + 149).toNat := by
        omega
      rw [e3]
      have e4 : 8388608 + (S - 8388608) = S := by omega
      rw [e4]

theorem two_zpow_toNat {e : Int} (h : -149 ≤ e) :
    ((2 : ℚ) ^ (e + 149).toNat) / 2 ^ 149 = (2 : ℚ) ^ e := by
  have h1 : ((e + 149).toNat : Int) = e + 149 := by omega
  have h2 : (2 : ℚ) ^ (e + 149).toNat = (2 : ℚ) ^ (e + 149) := by
    rw [← zpow_natCast, h1]
  rw [h2, zpow_add₀ (by norm_num : (2 : ℚ) ≠ 0)]
  have h3 : (2 : ℚ) ^ (149 : Int) = 2 ^ 149 := by
    rw [← zpow_natCast]
    rfl
  rw [h3]
  field_simp

/-- The size of a float: its significand times two to its exponent. -/
theorem abs_val (x : F32) : |x.val| = (x.sig : ℚ) * (2 : ℚ) ^ x.exp := by
  have h := units_natAbs x
  have he := exp_ge x
  unfold val
  rw [abs_div, abs_of_pos (by positivity : (0 : ℚ) < 2 ^ 149)]
  have h2 : |(x.units : ℚ)| = ((x.units.natAbs : Nat) : ℚ) := by
    rw [Nat.cast_natAbs, Int.cast_abs]
  rw [h2, h, ← two_zpow_toNat he]
  have h3 : (x.exp - -149).toNat = (x.exp + 149).toNat := by omega
  rw [h3]
  push_cast
  ring

theorem val_eq_sign_abs (x : F32) : x.val = (if x.sign then -1 else 1) * |x.val| := by
  cases hs : x.sign
  · have := units_sign_false hs
    have h2 : (0 : ℚ) ≤ x.val := by
      unfold val
      have : (0 : ℚ) ≤ (x.units : ℚ) := by exact_mod_cast this
      positivity
    rw [abs_of_nonneg h2]
    simp
  · have := units_sign_true hs
    have h2 : x.val ≤ 0 := by
      unfold val
      have : (x.units : ℚ) ≤ 0 := by exact_mod_cast this
      exact div_nonpos_of_nonpos_of_nonneg this (by positivity)
    rw [abs_of_nonpos h2]
    simp

/-- The size of a finite rounded value. -/
theorem abs_val_round {m : Nat} (s : Bool) (e : Int) (hm : m ≠ 0)
    (hf : (round s m e).isFinite = true) :
    |(round s m e).val| =
      ((if ulpExp m e ≤ e then m * 2 ^ (e - ulpExp m e).toNat
        else rne m (ulpExp m e - e).toNat : Nat) : ℚ) * (2 : ℚ) ^ ulpExp m e := by
  have h := round_units s e hm hf
  have hq := ulpExp_ge m e
  unfold val
  rw [abs_div, abs_of_pos (by positivity : (0 : ℚ) < 2 ^ 149)]
  have h2 : |((round s m e).units : ℚ)| = (((round s m e).units.natAbs : Nat) : ℚ) := by
    rw [Nat.cast_natAbs, Int.cast_abs]
  rw [h2, h, ← two_zpow_toNat hq]
  push_cast
  ring

theorem round_mag {m : Nat} (s : Bool) (e : Int) (hm : m ≠ 0)
    (hf : (round s m e).isFinite = true) :
    (round s m e).mag.val = (ulpExp m e + 149).toNat * 0x800000 +
      (if ulpExp m e ≤ e then m * 2 ^ (e - ulpExp m e).toNat
        else rne m (ulpExp m e - e).toNat) := by
  have h1 : (round s m e).mag.val = min (roundBits m e) infBits := rfl
  have h2 : (round s m e).mag.val < infBits := by simpa [isFinite] using hf
  have h3 : roundBits m e = (ulpExp m e + 149).toNat * 0x800000 +
    (if ulpExp m e ≤ e then m * 2 ^ (e - ulpExp m e).toNat
      else rne m (ulpExp m e - e).toNat) := by
    unfold roundBits
    rw [if_neg hm]
  rw [← h3]
  omega

theorem isFinite_of_isNormal {x : F32} (h : x.isNormal = true) : x.isFinite = true := by
  simp only [isNormal, Bool.and_eq_true, decide_eq_true_eq] at h
  simp only [isFinite, decide_eq_true_eq]
  exact h.2

/-- The significand kept for a normal result has its leading bit set. -/
theorem roundSig_ge_of_isNormal {m : Nat} (s : Bool) (e : Int) (hm : m ≠ 0)
    (hn : (round s m e).isNormal = true) :
    2 ^ 23 ≤ (if ulpExp m e ≤ e then m * 2 ^ (e - ulpExp m e).toNat
        else rne m (ulpExp m e - e).toNat) := by
  have hb := round_mag s e hm (isFinite_of_isNormal hn)
  obtain ⟨-, hS2⟩ := roundSig_bounds e hm
  have hq := ulpExp_ge m e
  simp only [isNormal, Bool.and_eq_true, decide_eq_true_eq] at hn
  by_cases h : -149 < ulpExp m e
  · exact hS2 h
  · have h0 : (ulpExp m e + 149).toNat = 0 := by omega
    rw [h0] at hb
    norm_num
    omega

/-- Rounding error: a finite rounded value that is a normal number, or the
rounding of a multiple of `2 ^ -149`, differs from the exact value by at most
`2 ^ -24` of its own size. -/
theorem round_near {m : Nat} (s : Bool) (e : Int) (hm : m ≠ 0)
    (hf : (round s m e).isFinite = true)
    (hn : (round s m e).isNormal = true ∨ -149 ≤ e) :
    abs (|(round s m e).val| - (m : ℚ) * (2 : ℚ) ^ e) ≤ |(round s m e).val| / 2 ^ 24 := by
  have hv := abs_val_round s e hm hf
  have hq := ulpExp_ge m e
  have h2 : (0 : ℚ) < 2 ^ ulpExp m e := by positivity
  by_cases hqe : ulpExp m e ≤ e
  · rw [if_pos hqe] at hv
    have hj : ((e - ulpExp m e).toNat : Int) = e - ulpExp m e := by omega
    have h3 : |(round s m e).val| = (m : ℚ) * (2 : ℚ) ^ e := by
      rw [hv]
      push_cast
      rw [← zpow_natCast, hj, mul_assoc, ← zpow_add₀ (by norm_num : (2 : ℚ) ≠ 0)]
      congr 2
      omega
    rw [← h3, sub_self, abs_zero]
    positivity
  · have hS : 2 ^ 23 ≤ (if ulpExp m e ≤ e then m * 2 ^ (e - ulpExp m e).toNat
        else rne m (ulpExp m e - e).toNat) := by
      rcases hn with hn | hn
      · exact roundSig_ge_of_isNormal s e hm hn
      · exact (roundSig_bounds e hm).2 (by omega)
    rw [if_neg hqe] at hv hS
    obtain ⟨r1, r2⟩ := rne_err m (ulpExp m e - e).toNat
    have hk : ((ulpExp m e - e).toNat : Int) = ulpExp m e - e := by omega
    have hpk : (2 : ℚ) ^ (ulpExp m e - e).toNat * (2 : ℚ) ^ e = (2 : ℚ) ^ ulpExp m e := by
      rw [← zpow_natCast, hk, ← zpow_add₀ (by norm_num : (2 : ℚ) ≠ 0)]
      congr 1
      omega
    have he : (0 : ℚ) < 2 ^ e := by positivity
    have hK : (0 : ℚ) < 2 ^ (ulpExp m e - e).toNat := by positivity
    have q1 : (2 : ℚ) * ((rne m (ulpExp m e - e).toNat : ℚ) * 2 ^ (ulpExp m e - e).toNat) ≤
        2 * (m : ℚ) + 2 ^ (ulpExp m e - e).toNat := by exact_mod_cast r1
    have q2 : (2 : ℚ) * (m : ℚ) ≤
        2 * ((rne m (ulpExp m e - e).toNat : ℚ) * 2 ^ (ulpExp m e - e).toNat) +
          2 ^ (ulpExp m e - e).toNat := by exact_mod_cast r2
    have q3 : ((2 : ℚ) ^ 23) ≤ (rne m (ulpExp m e - e).toNat : ℚ) := by exact_mod_cast hS
    rw [hv]
    rw [← hpk]
    generalize (rne m (ulpExp m e - e).toNat : ℚ) = S at *
    generalize (2 : ℚ) ^ (ulpExp m e - e).toNat = K at *
    generalize (2 : ℚ) ^ e = E at *
    generalize (m : ℚ) = M at *
    rw [abs_le]
    constructor
    · have : 0 ≤ E * (2 * M + K - 2 * (S * K)) := mul_nonneg he.le (by linarith)
      have : 0 ≤ E * K * (S - 2 ^ 23) := mul_nonneg (mul_nonneg he.le hK.le) (by linarith)
      norm_num at *
      nlinarith
    · have : 0 ≤ E * (2 * (S * K) + K - 2 * M) := mul_nonneg he.le (by linarith)
      have : 0 ≤ E * K * (S - 2 ^ 23) := mul_nonneg (mul_nonneg he.le hK.le) (by linarith)
      norm_num at *
      nlinarith

theorem mul_of_finite {x y : F32} (hx : x.isFinite = true) (hy : y.isFinite = true) :
    mul x y = round (x.sign != y.sign) (x.sig * y.sig) (x.exp + y.exp) := by
  unfold mul
  rw [isNaN_false_of_finite hx, isNaN_false_of_finite hy, isInf_false_of_finite hx,
    isInf_false_of_finite hy]
  simp only [Bool.or_false, Bool.false_eq_true, if_false]

theorem val_eq_zero_of_sig {x : F32} (h : x.sig = 0) : x.val = 0 := by
  have := abs_val x
  rw [h] at this
  simpa using this

theorem val_szero (s : Bool) : (szero s).val = 0 := by
  apply val_eq_zero_of_sig
  cases s <;> rfl

theorem sign_mul_sign (a b : Bool) :
    ((if a then -1 else 1 : ℚ) * (if b then -1 else 1)) = (if (a != b) then -1 else 1) := by
  cases a <;> cases b <;> simp

theorem abs_sign_mul_sub (a : Bool) (p q : ℚ) :
    |(if a then -1 else 1 : ℚ) * p - (if a then -1 else 1) * q| = |p - q| := by
  cases a
  · simp
  · simp only [if_true]
    rw [show (-1 : ℚ) * p - -1 * q = -(p - q) by ring, abs_neg]

/-- Rounding error of a product that neither overflows nor underflows. -/
theorem mul_near {x y : F32} (h : mulIsRegular x y = true) :
    |(mul x y).val - x.val * y.val| ≤ |(mul x y).val| / 2 ^ 24 := by
  have hf : (mul x y).isFinite = true := by
    unfold mulIsRegular at h
    simp only [Bool.or_eq_true, Bool.and_eq_true] at h
    rcases h with h | h
    · exact isFinite_of_isNormal h
    · exact h.1
  obtain ⟨hx, hy⟩ := isFinite_of_mul hf
  have hm := mul_of_finite hx hy
  by_cases h0 : x.sig * y.sig = 0
  · have hv : x.val * y.val = 0 := by
      rcases Nat.mul_eq_zero.mp h0 with h1 | h1
      · rw [val_eq_zero_of_sig h1, zero_mul]
      · rw [val_eq_zero_of_sig h1, mul_zero]
    rw [hm, h0, round_zero, val_szero, hv]
    simp
  · have hn : (mul x y).isNormal = true := by
      unfold mulIsRegular at h
      simp only [Bool.or_eq_true, Bool.and_eq_true] at h
      rcases h with h | h
      · exact h
      · exfalso
        apply h0
        simp only [isZero, decide_eq_true_eq] at h
        rcases h.2 with h1 | h1
        · rw [(sig_eq_zero_iff x).mpr h1, Nat.zero_mul]
        · rw [(sig_eq_zero_iff y).mpr h1, Nat.mul_zero]
    rw [hm] at hf hn ⊢
    have hr := round_near (x.sign != y.sign) (x.exp + y.exp) h0 hf (Or.inl hn)
    have e1 := val_eq_sign_abs (round (x.sign != y.sign) (x.sig * y.sig) (x.exp + y.exp))
    have e2 : (round (x.sign != y.sign) (x.sig * y.sig) (x.exp + y.exp)).sign
        = (x.sign != y.sign) := rfl
    rw [e2] at e1
    have e3 : x.val * y.val = (if (x.sign != y.sign) then -1 else 1) *
        (((x.sig * y.sig : Nat) : ℚ) * (2 : ℚ) ^ (x.exp + y.exp)) := by
      rw [val_eq_sign_abs x, val_eq_sign_abs y, abs_val x, abs_val y,
        ← sign_mul_sign, zpow_add₀ (by norm_num : (2 : ℚ) ≠ 0)]
      push_cast
      ring
    rw [e3]
    nth_rewrite 1 [e1]
    rw [abs_sign_mul_sub]
    exact hr

theorem div_of_finite {x y : F32} (hx : x.isFinite = true) (hy : y.isFinite = true)
    (h0 : y.isZero = false) :
    div x y = round (x.sign != y.sign)
      (2 * (x.sig * 2 ^ 64 / y.sig) + (if x.sig * 2 ^ 64 % y.sig = 0 then 0 else 1))
      (x.exp - y.exp - 65) := by
  unfold div
  rw [isNaN_false_of_finite hx, isNaN_false_of_finite hy, isInf_false_of_finite hx,
    isInf_false_of_finite hy, h0]
  simp only [Bool.or_false, Bool.false_eq_true, if_false]

/-- A quotient that is a normal number has finite operands and a nonzero divisor. -/
theorem finite_of_div_isNormal {x y : F32} (h : (div x y).isNormal = true) :
    x.isFinite = true ∧ y.isFinite = true ∧ y.isZero = false := by
  unfold div at h
  split at h
  · exact absurd h (by decide)
  · rename_i hnan
    split at h
    · split at h
      · exact absurd h (by decide)
      · exact absurd h (by cases (x.sign != y.sign) <;> decide)
    · rename_i hxi
      split at h
      · exact absurd h (by cases (x.sign != y.sign) <;> decide)
      · rename_i hyi
        split at h
        · split at h
          · exact absurd h (by decide)
          · exact absurd h (by cases (x.sign != y.sign) <;> decide)
        · rename_i hz
          simp only [isNaN, isInf, isFinite, isZero, decide_eq_true_eq, Bool.or_eq_true, not_or,
            not_lt, decide_eq_false_iff_not] at hnan hxi hyi hz ⊢
          omega

/-- Rounding a quotient with a sticky bit: the kept significand brackets the
exact quotient `2 * n / d` within half a unit in the last place. -/
theorem div_sticky_bracket (n d k : Nat) (hd : 0 < d) (hk : 2 ≤ k) :
    2 * (rne (2 * (n / d) + (if n % d = 0 then 0 else 1)) k * 2 ^ k * d)
      ≤ 4 * n + 2 ^ k * d ∧
    4 * n ≤ 2 * (rne (2 * (n / d) + (if n % d = 0 then 0 else 1)) k * 2 ^ k * d)
      + 2 ^ k * d := by
  have hdm := Nat.div_add_mod n d
  have hr := Nat.mod_lt n hd
  by_cases h0 : n % d = 0
  · rw [if_pos h0]
    obtain ⟨r1, r2⟩ := rne_err (2 * (n / d) + 0) k
    generalize rne (2 * (n / d) + 0) k * 2 ^ k = X at *
    generalize 2 ^ k = P at *
    have a1 := Nat.mul_le_mul_right d r1
    have a2 := Nat.mul_le_mul_right d r2
    have e1 : 2 * X * d = 2 * (X * d) := by ring
    have e2 : (2 * (2 * (n / d) + 0) + P) * d = 4 * (d * (n / d)) + P * d := by ring
    have e3 : 2 * (2 * (n / d) + 0) * d = 4 * (d * (n / d)) := by ring
    have e4 : (2 * X + P) * d = 2 * (X * d) + P * d := by ring
    rw [e1, e2] at a1
    rw [e3, e4] at a2
    generalize X * d = XD at *
    generalize P * d = PD at *
    generalize d * (n / d) = QD at *
    omega
  · rw [if_neg h0]
    have hodd : (2 * (n / d) + 1) % 2 = 1 := by omega
    obtain ⟨r1, r2⟩ := rne_err_odd (2 * (n / d) + 1) k hk hodd
    generalize rne (2 * (n / d) + 1) k * 2 ^ k = X at *
    generalize 2 ^ k = P at *
    have r1b : 2 * X ≤ 4 * (n / d) + P := by omega
    have r2b : 4 * (n / d) + 4 ≤ 2 * X + P := by omega
    have a1 := Nat.mul_le_mul_right d r1b
    have a2 := Nat.mul_le_mul_right d r2b
    have e1 : 2 * X * d = 2 * (X * d) := by ring
    have e2 : (4 * (n / d) + P) * d = 4 * (d * (n / d)) + P * d := by ring
    have e3 : (4 * (n / d) + 4) * d = 4 * (d * (n / d)) + 4 * d := by ring
    have e4 : (2 * X + P) * d = 2 * (X * d) + P * d := by ring
    rw [e1, e2] at a1
    rw [e3, e4] at a2
    generalize X * d = XD at *
    generalize P * d = PD at *
    generalize d * (n / d) = QD at *
    omega

theorem isNormal_szero (s : Bool) : (szero s).isNormal = false := by
  cases s <;> rfl

theorem sign_bne_mul_sign (a b : Bool) :
    ((if (a != b) then -1 else 1 : ℚ) * (if b then -1 else 1)) = (if a then -1 else 1) := by
  cases a <;> cases b <;> simp

/-- Rounding error of a quotient that is a normal number, stated without a
division: the quotient times the divisor is the dividend up to `2 ^ -24`. -/
theorem div_near {x y : F32} (h : (div x y).isNormal = true) :
    |(div x y).val * y.val - x.val| ≤ |(div x y).val * y.val| / 2 ^ 24 := by
  obtain ⟨hx, hy, hz⟩ := finite_of_div_isNormal h
  have hd := div_of_finite hx hy hz
  have hsy : 0 < y.sig := by
    apply Nat.pos_of_ne_zero
    intro h0
    have := (sig_eq_zero_iff y).mp h0
    simp [isZero, this] at hz
  have hsy2 := sig_lt y
  have hsx : 0 < x.sig := by
    apply Nat.pos_of_ne_zero
    intro h0
    rw [hd, h0] at h
    simp only [Nat.zero_mul, Nat.zero_div, Nat.zero_mod, if_true, Nat.mul_zero, Nat.add_zero] at h
    rw [round_zero, isNormal_szero] at h
    exact absurd h (by decide)
  have hq : 2 ^ 40 ≤ x.sig * 2 ^ 64 / y.sig := by
    rw [Nat.le_div_iff_mul_le hsy]
    calc 2 ^ 40 * y.sig ≤ 2 ^ 40 * 2 ^ 24 := Nat.mul_le_mul_left _ (Nat.le_of_lt hsy2)
      _ = 1 * 2 ^ 64 := by norm_num
      _ ≤ x.sig * 2 ^ 64 := Nat.mul_le_mul_right _ hsx
  rw [hd] at h ⊢
  generalize hM : 2 * (x.sig * 2 ^ 64 / y.sig) + (if x.sig * 2 ^ 64 % y.sig = 0 then 0 else 1)
    = M at *
  have hM41 : 2 ^ 41 ≤ M := by
    rw [← hM]
    have : (2 : Nat) ^ 41 = 2 * 2 ^ 40 := by norm_num
    omega
  have hM0 : M ≠ 0 := by
    have := Nat.two_pow_pos 41
    omega
  obtain ⟨-, l2⟩ := ilog2_spec hM0
  have hL : 41 ≤ ilog2 M := by
    have := Nat.lt_of_le_of_lt hM41 l2
    rw [Nat.pow_lt_pow_iff_right (by decide)] at this
    omega
  have hf := isFinite_of_isNormal h
  have hv := abs_val_round (x.sign != y.sign) (x.exp - y.exp - 65) hM0 hf
  have hS := roundSig_ge_of_isNormal (x.sign != y.sign) (x.exp - y.exp - 65) hM0 h
  have hu : ulpExp M (x.exp - y.exp - 65) = max ((ilog2 M : Int) + (x.exp - y.exp - 65) - 23) (-149) :=
    rfl
  have hqe : ¬ ulpExp M (x.exp - y.exp - 65) ≤ x.exp - y.exp - 65 := by omega
  rw [if_neg hqe] at hv hS
  have hk2 : 2 ≤ (ulpExp M (x.exp - y.exp - 65) - (x.exp - y.exp - 65)).toNat := by omega
  obtain ⟨b1, b2⟩ := div_sticky_bracket (x.sig * 2 ^ 64) y.sig _ hsy hk2
  rw [hM] at b1 b2
  have hk : ((ulpExp M (x.exp - y.exp - 65) - (x.exp - y.exp - 65)).toNat : Int) =
      ulpExp M (x.exp - y.exp - 65) - (x.exp - y.exp - 65) := by omega
  have hpk : (2 : ℚ) ^ ulpExp M (x.exp - y.exp - 65) =
      (2 : ℚ) ^ (ulpExp M (x.exp - y.exp - 65) - (x.exp - y.exp - 65)).toNat *
        (2 : ℚ) ^ (x.exp - y.exp - 65) := by
    rw [← zpow_natCast, hk, ← zpow_add₀ (by norm_num : (2 : ℚ) ≠ 0)]
    congr 1
    omega
  have hpx : (2 : ℚ) ^ x.exp = 2 ^ 65 * (2 : ℚ) ^ (x.exp - y.exp - 65) * (2 : ℚ) ^ y.exp := by
    have h65 : (2 : ℚ) ^ 65 = (2 : ℚ) ^ (65 : Int) := by
      rw [← zpow_natCast]
      rfl
    rw [h65, ← zpow_add₀ (by norm_num : (2 : ℚ) ≠ 0), ← zpow_add₀ (by norm_num : (2 : ℚ) ≠ 0)]
    congr 1
    omega
  have e1 := val_eq_sign_abs (round (x.sign != y.sign) M (x.exp - y.exp - 65))
  have e2 : (round (x.sign != y.sign) M (x.exp - y.exp - 65)).sign = (x.sign != y.sign) := rfl
  rw [e2, hv, hpk] at e1
  have q1 : (2 : ℚ) * ((rne M (ulpExp M (x.exp - y.exp - 65) - (x.exp - y.exp - 65)).toNat : ℚ) *
      2 ^ (ulpExp M (x.exp - y.exp - 65) - (x.exp - y.exp - 65)).toNat * (y.sig : ℚ)) ≤
      4 * ((x.sig : ℚ) * 2 ^ 64) +
        2 ^ (ulpExp M (x.exp - y.exp - 65) - (x.exp - y.exp - 65)).toNat * (y.sig : ℚ) := by
    exact_mod_cast b1
  have q2 : 4 * ((x.sig : ℚ) * 2 ^ 64) ≤
      (2 : ℚ) * ((rne M (ulpExp M (x.exp - y.exp - 65) - (x.exp - y.exp - 65)).toNat : ℚ) *
      2 ^ (ulpExp M (x.exp - y.exp - 65) - (x.exp - y.exp - 65)).toNat * (y.sig : ℚ)) +
        2 ^ (ulpExp M (x.exp - y.exp - 65) - (x.exp - y.exp - 65)).toNat * (y.sig : ℚ) := by
    exact_mod_cast b2
  have q3 : ((2 : ℚ) ^ 23) ≤
      (rne M (ulpExp M (x.exp - y.exp - 65) - (x.exp - y.exp - 65)).toNat : ℚ) := by
    exact_mod_cast hS
  have hK : (0 : ℚ) < 2 ^ (ulpExp M (x.exp - y.exp - 65) - (x.exp - y.exp - 65)).toNat := by
    positivity
  have hE : (0 : ℚ) < (2 : ℚ) ^ (x.exp - y.exp - 65) := by positivity
  have hY : (0 : ℚ) < (2 : ℚ) ^ y.exp := by positivity
  have hD : (0 : ℚ) < (y.sig : ℚ) := by exact_mod_cast hsy
  have e3 : (round (x.sign != y.sign) M (x.exp - y.exp - 65)).val * y.val =
      (if x.sign then -1 else 1) *
        ((rne M (ulpExp M (x.exp - y.exp - 65) - (x.exp - y.exp - 65)).toNat : ℚ) *
          (2 ^ (ulpExp M (x.exp - y.exp - 65) - (x.exp - y.exp - 65)).toNat *
            (2 : ℚ) ^ (x.exp - y.exp - 65)) * ((y.sig : ℚ) * (2 : ℚ) ^ y.exp)) := by
    rw [e1, val_eq_sign_abs y, abs_val y, ← sign_bne_mul_sign x.sign y.sign]
    ring
  have e4 : x.val = (if x.sign then -1 else 1) *
      ((x.sig : ℚ) * (2 ^ 65 * (2 : ℚ) ^ (x.exp - y.exp - 65) * (2 : ℚ) ^ y.exp)) := by
    rw [← hpx, ← abs_val x]
    exact val_eq_sign_abs x
  rw [e3]
  nth_rewrite 1 [e4]
  rw [abs_sign_mul_sub]
  generalize (rne M (ulpExp M (x.exp - y.exp - 65) - (x.exp - y.exp - 65)).toNat : ℚ) = S at *
  generalize (2 : ℚ) ^ (ulpExp M (x.exp - y.exp - 65) - (x.exp - y.exp - 65)).toNat = K at *
  generalize (2 : ℚ) ^ (x.exp - y.exp - 65) = E at *
  generalize (2 : ℚ) ^ y.exp = Y at *
  generalize (y.sig : ℚ) = D at *
  generalize (x.sig : ℚ) = X at *
  have hS0 : (0 : ℚ) ≤ S := le_trans (by positivity) q3
  have hA : 0 ≤ S * (K * E) * (D * Y) := by positivity
  have hσ : |(if x.sign then -1 else 1 : ℚ) * (S * (K * E) * (D * Y))| = S * (K * E) * (D * Y) := by
    cases x.sign
    · simp only [Bool.false_eq_true, if_false, one_mul]
      exact abs_of_nonneg hA
    · simp only [if_true, neg_mul, one_mul, abs_neg]
      exact abs_of_nonneg hA
  rw [hσ]
  have hW : 0 < E * Y := mul_pos hE hY
  have hb : 2 ^ 23 * (K * D) ≤ S * K * D := by
    have : 0 ≤ (S - 2 ^ 23) * (K * D) := mul_nonneg (by linarith) (by positivity)
    nlinarith
  have g1 : S * (K * E) * (D * Y) - X * (2 ^ 65 * E * Y) = (S * K * D - X * 2 ^ 65) * (E * Y) := by
    ring
  have g2 : S * (K * E) * (D * Y) / 2 ^ 24 = (S * K * D / 2 ^ 24) * (E * Y) := by ring
  rw [g1, g2, abs_mul, abs_of_pos hW]
  apply mul_le_mul_of_nonneg_right _ hW.le
  rw [abs_le]
  norm_num at q1 q2 hb ⊢
  constructor <;> linarith

/-- A relative error of `2 ^ -24` as a factor between `1 - 2 ^ -24` and `1 + 2 ^ -24`. -/
theorem exists_rel {a b : ℚ} (h : |a - b| ≤ |a| / 2 ^ 24) :
    ∃ t : ℚ, 1 - 1 / 2 ^ 24 ≤ t ∧ t ≤ 1 + 1 / 2 ^ 24 ∧ b = a * t := by
  by_cases ha : a = 0
  · subst ha
    refine ⟨1, by norm_num, by norm_num, ?_⟩
    simp only [abs_zero, zero_div, zero_sub, abs_neg] at h
    have := abs_nonpos_iff.mp h
    rw [this, zero_mul]
  · have hpos : 0 < |a| := abs_pos.mpr ha
    refine ⟨b / a, ?_, ?_, ?_⟩
    · have h1 : |1 - b / a| ≤ 1 / 2 ^ 24 := by
        have : 1 - b / a = (a - b) / a := by field_simp
        rw [this, abs_div, div_le_iff₀ hpos]
        linarith
      have := (abs_le.mp h1).2
      linarith
    · have h1 : |1 - b / a| ≤ 1 / 2 ^ 24 := by
        have : 1 - b / a = (a - b) / a := by field_simp
        rw [this, abs_div, div_le_iff₀ hpos]
        linarith
      have := (abs_le.mp h1).1
      linarith
    · field_simp

/-- Three roundings in a row: scaling by `s` and by the reciprocal of `s`
returns the value within `2 ^ -22` of its size. -/
theorem near_chain3 {v s w r f : ℚ} (h1 : |w - v * s| ≤ |w| / 2 ^ 24)
    (h2 : |r * s - 1| ≤ |r * s| / 2 ^ 24) (h3 : |f - w * r| ≤ |f| / 2 ^ 24) :
    |f - v| ≤ |v| / 2 ^ 22 := by
  obtain ⟨t1, a1, b1, e1⟩ := exists_rel h1
  obtain ⟨t2, a2, b2, e2⟩ := exists_rel h2
  obtain ⟨t3, a3, b3, e3⟩ := exists_rel h3
  have hv : v = f * (t3 * t1 * t2) := by
    calc v = v * 1 := by ring
      _ = v * (r * s * t2) := by rw [← e2]
      _ = (v * s) * r * t2 := by ring
      _ = (w * t1) * r * t2 := by rw [e1]
      _ = (w * r) * t1 * t2 := by ring
      _ = (f * t3) * t1 * t2 := by rw [e3]
      _ = f * (t3 * t1 * t2) := by ring
  have hlo : (1 - 1 / 2 ^ 24) ^ 3 ≤ t3 * t1 * t2 := by
    have p1 : (1 - 1 / 2 ^ 24) * (1 - 1 / 2 ^ 24) ≤ t3 * t1 :=
      mul_le_mul a3 a1 (by norm_num) (le_trans (by norm_num) a3)
    have p2 : (1 - 1 / 2 ^ 24) * (1 - 1 / 2 ^ 24) * (1 - 1 / 2 ^ 24) ≤ t3 * t1 * t2 :=
      mul_le_mul p1 a2 (by norm_num) (le_trans (by norm_num) p1)
    calc (1 - 1 / 2 ^ 24 : ℚ) ^ 3 = (1 - 1 / 2 ^ 24) * (1 - 1 / 2 ^ 24) * (1 - 1 / 2 ^ 24) := by
          ring
      _ ≤ t3 * t1 * t2 := p2
  have hhi : t3 * t1 * t2 ≤ (1 + 1 / 2 ^ 24) ^ 3 := by
    have n3 : (0 : ℚ) ≤ t3 := le_trans (by norm_num) a3
    have n1 : (0 : ℚ) ≤ t1 := le_trans (by norm_num) a1
    have n2 : (0 : ℚ) ≤ t2 := le_trans (by norm_num) a2
    have p1 : t3 * t1 ≤ (1 + 1 / 2 ^ 24) * (1 + 1 / 2 ^ 24) :=
      mul_le_mul b3 b1 n1 (by norm_num)
    have p2 : t3 * t1 * t2 ≤ (1 + 1 / 2 ^ 24) * (1 + 1 / 2 ^ 24) * (1 + 1 / 2 ^ 24) :=
      mul_le_mul p1 b2 n2 (by norm_num)
    calc t3 * t1 * t2 ≤ (1 + 1 / 2 ^ 24) * (1 + 1 / 2 ^ 24) * (1 + 1 / 2 ^ 24) := p2
      _ = (1 + 1 / 2 ^ 24 : ℚ) ^ 3 := by ring
  generalize t3 * t1 * t2 = p at *
  have hp : 0 < p := lt_of_lt_of_le (by norm_num) hlo
  have hd : f - v = f * (1 - p) := by rw [hv]; ring
  have hav : |v| = |f| * p := by rw [hv, abs_mul, abs_of_pos hp]
  rw [hd, hav, abs_mul, mul_div_assoc]
  apply mul_le_mul_of_nonneg_left _ (abs_nonneg f)
  rw [abs_le]
  norm_num at hlo hhi ⊢
  constructor <;> linarith

theorem ne_zero_of_div_isNormal {x s : F32} (h : (div x s).isNormal = true) :
    ne s zero = true := by
  obtain ⟨-, -, hz⟩ := finite_of_div_isNormal h
  unfold ne
  cases he : eq s zero
  · rfl
  · have := mag_zero_of_eq_zero he
    simp [isZero, this] at hz

theorem mul_of_isZero {x y : F32} (hx : x.isZero = true) (hy : y.isFinite = true) :
    mul x y = szero (x.sign != y.sign) := by
  have h0 : x.mag.val = 0 := by simpa [isZero] using hx
  have hfx : x.isFinite = true := by simp [isFinite, h0, infBits]
  rw [mul_of_finite hfx hy, (sig_eq_zero_iff x).mpr h0, Nat.zero_mul, round_zero]

/-- The value of `(x * s) * (1.0f / s)` is that of `x` within `2 ^ -22` of its
size when no step overflows or underflows. -/
theorem scale_div_near {x s : F32} (h : scaleDivIsRegular x s = true) :
    (mul (mul x s) (div one s)).isFinite = true ∧
    |(mul (mul x s) (div one s)).val - x.val| ≤ |x.val| / 2 ^ 22 := by
  unfold scaleDivIsRegular at h
  simp only [Bool.and_eq_true, Bool.or_eq_true] at h
  obtain ⟨hr, hx⟩ := h
  obtain ⟨-, hs, -⟩ := finite_of_div_isNormal hr
  rcases hx with hx | ⟨hw, hf⟩
  · rw [mul_of_isZero hx hs, mul_of_isZero (by cases (x.sign != s.sign) <;> rfl)
      (isFinite_of_isNormal hr)]
    have h0 : x.mag.val = 0 := by simpa [isZero] using hx
    rw [val_szero, val_eq_zero_of_sig ((sig_eq_zero_iff x).mpr h0)]
    constructor
    · cases ((szero (x.sign != s.sign)).sign != (div one s).sign) <;> rfl
    · simp
  · refine ⟨isFinite_of_isNormal hf, ?_⟩
    have n1 := mul_near (x := x) (y := s) (by unfold mulIsRegular; rw [hw]; rfl)
    have n2 := div_near hr
    rw [val_one] at n2
    have n3 := mul_near (x := mul x s) (y := div one s) (by unfold mulIsRegular; rw [hf]; rfl)
    exact near_chain3 n1 n2 n3

/-- Rounding error of a sum: a finite sum differs from the exact sum by at most
`2 ^ -24` of its own size (a sum in the subnormal range is exact). -/
theorem add_near {x y : F32} (hf : (add x y).isFinite = true) :
    |(add x y).val - (x.val + y.val)| ≤ |(add x y).val| / 2 ^ 24 := by
  obtain ⟨hx, hy⟩ := isFinite_of_add hf
  have ha := add_of_finite (isNaN_false_of_finite hx) (isNaN_false_of_finite hy)
    (isInf_false_of_finite hx) (isInf_false_of_finite hy)
  have he0 : -149 ≤ min x.exp y.exp := by
    have := exp_ge x
    have := exp_ge y
    omega
  have hux := units_eq_aligned_mul x (min x.exp y.exp) he0 (by omega)
  have huy := units_eq_aligned_mul y (min x.exp y.exp) he0 (by omega)
  generalize min x.exp y.exp = e0 at *
  generalize hn : x.aligned e0 + y.aligned e0 = n at *
  have hsum : x.val + y.val = (n : ℚ) * (2 : ℚ) ^ e0 := by
    unfold val
    rw [hux, huy, ← two_zpow_toNat he0, ← hn]
    push_cast
    ring
  rw [hsum]
  by_cases h0 : n = 0
  · rw [if_pos h0] at ha
    rw [ha, val_szero, h0]
    simp
  · rw [if_neg h0] at ha
    rw [ha] at hf ⊢
    have hm : n.natAbs ≠ 0 := by omega
    have hr := round_near (decide (n < 0)) e0 hm hf (Or.inr he0)
    have e1 := val_eq_sign_abs (round (decide (n < 0)) n.natAbs e0)
    have e2 : (round (decide (n < 0)) n.natAbs e0).sign = decide (n < 0) := rfl
    rw [e2] at e1
    have e3 : (n : ℚ) = (if decide (n < 0) = true then -1 else 1) * ((n.natAbs : Nat) : ℚ) := by
      by_cases hneg : n < 0
      · simp only [hneg, decide_True, if_true]
        rw [Nat.cast_natAbs, abs_of_neg hneg]
        push_cast
        ring
      · simp only [hneg, decide_False, Bool.false_eq_true, if_false]
        rw [Nat.cast_natAbs, abs_of_nonneg (by omega)]
        ring
    rw [e3, mul_assoc]
    nth_rewrite 1 [e1]
    rw [abs_sign_mul_sub]
    exact hr

/-- Rounding error of a difference. -/
theorem sub_near {x y : F32} (hf : (sub x y).isFinite = true) :
    |(sub x y).val - (x.val - y.val)| ≤ |(sub x y).val| / 2 ^ 24 := by
  have := add_near (x := x) (y := neg y) hf
  rw [val_neg] at this
  rw [sub_eq_add_neg x.val]
  exact this

theorem sqrt_of_pos {x : F32} (h1 : x.isNaN = false) (h2 : x.isZero = false)
    (h3 : x.sign = false) (h4 : x.isInf = false) :
    sqrt x = round false
      (2 * isqrt ((if x.exp % 2 = 0 then x.sig else 2 * x.sig) * 2 ^ 64) +
        (if isqrt ((if x.exp % 2 = 0 then x.sig else 2 * x.sig) * 2 ^ 64) *
            isqrt ((if x.exp % 2 = 0 then x.sig else 2 * x.sig) * 2 ^ 64) =
          (if x.exp % 2 = 0 then x.sig else 2 * x.sig) * 2 ^ 64 then 0 else 1))
      ((if x.exp % 2 = 0 then x.exp else x.exp - 1) / 2 - 33) := by
  unfold sqrt
  rw [h1, h2, h3, h4]
  simp only [Bool.false_eq_true, if_false]

/-- A square root that is a normal number is the root of a positive finite number. -/
theorem pos_of_sqrt_isNormal {x : F32} (h : (sqrt x).isNormal = true) :
    x.isNaN = false ∧ x.isZero = false ∧ x.sign = false ∧ x.isInf = false := by
  unfold sqrt at h
  split at h
  · exact absurd h (by decide)
  · rename_i h1
    split at h
    · rename_i h2
      exfalso
      simp only [isZero, decide_eq_true_eq] at h2
      simp only [isNormal, Bool.and_eq_true, decide_eq_true_eq] at h
      omega
    · rename_i h2
      split at h
      · exact absurd h (by decide)
      · rename_i h3
        split at h
        · rename_i h4
          exfalso
          simp only [isInf, decide_eq_true_eq] at h4
          simp only [isNormal, Bool.and_eq_true, decide_eq_true_eq] at h
          omega
        · rename_i h4
          exact ⟨by simpa using h1, by simpa using h2, by simpa using h3, by simpa using h4⟩

/-- Rounding a square root with a sticky bit: the kept significand brackets the
exact root of `4 * n` within half a unit in the last place. -/
theorem sqrt_sticky_bracket (n k : Nat) (hk : 2 ≤ k) :
    ∃ lo hi : Nat, lo * lo ≤ n ∧ n ≤ hi * hi ∧
      2 * (rne (2 * isqrt n + (if isqrt n * isqrt n = n then 0 else 1)) k * 2 ^ k)
        ≤ 4 * lo + 2 ^ k ∧
      4 * hi ≤
        2 * (rne (2 * isqrt n + (if isqrt n * isqrt n = n then 0 else 1)) k * 2 ^ k) + 2 ^ k := by
  obtain ⟨s1, s2⟩ := isqrt_spec n
  by_cases h0 : isqrt n * isqrt n = n
  · rw [if_pos h0]
    obtain ⟨r1, r2⟩ := rne_err (2 * isqrt n + 0) k
    exact ⟨isqrt n, isqrt n, s1, by omega, by omega, by omega⟩
  · rw [if_neg h0]
    have hodd : (2 * isqrt n + 1) % 2 = 1 := by omega
    obtain ⟨r1, r2⟩ := rne_err_odd (2 * isqrt n + 1) k hk hodd
    exact ⟨isqrt n, isqrt n + 1, s1, by omega, by omega, by omega⟩

/-- Rounding error of a square root: the square of the root is the radicand up
to a factor between `(1 - 2 ^ -24) ^ 2` and `(1 + 2 ^ -24) ^ 2`. -/
theorem sqrt_near {x : F32} (h : (sqrt x).isNormal = true) :
    0 < (sqrt x).val ∧
    (1 - 1 / 2 ^ 24) ^ 2 * (sqrt x).val ^ 2 ≤ x.val ∧
    x.val ≤ (1 + 1 / 2 ^ 24) ^ 2 * (sqrt x).val ^ 2 := by
  obtain ⟨h1, h2, h3, h4⟩ := pos_of_sqrt_isNormal h
  have hs := sqrt_of_pos h1 h2 h3 h4
  have hsx : 0 < x.sig := by
    apply Nat.pos_of_ne_zero
    intro h0
    have := (sig_eq_zero_iff x).mp h0
    simp [isZero, this] at h2
  -- the adjusted significand and the even exponent
  have hm1 : 1 ≤ (if x.exp % 2 = 0 then x.sig else 2 * x.sig) := by
    split <;> omega
  have hev : ((if x.exp % 2 = 0 then x.exp else x.exp - 1) / 2) * 2 =
      (if x.exp % 2 = 0 then x.exp else x.exp - 1) := by
    split <;> omega
  have hval : (x.sig : ℚ) * (2 : ℚ) ^ x.exp =
      ((if x.exp % 2 = 0 then x.sig else 2 * x.sig : Nat) : ℚ) *
        (2 : ℚ) ^ (if x.exp % 2 = 0 then x.exp else x.exp - 1) := by
    split
    · rfl
    · push_cast
      rw [zpow_sub₀ (by norm_num : (2 : ℚ) ≠ 0), zpow_one]
      field_simp
      ring
  have hxv : x.val = (x.sig : ℚ) * (2 : ℚ) ^ x.exp := by
    have := val_eq_sign_abs x
    rw [h3, abs_val] at this
    simpa using this
  rw [hs] at h ⊢
  rw [hxv, hval]
  clear hs hxv hval
  generalize (if x.exp % 2 = 0 then x.sig else 2 * x.sig) = m at *
  generalize (if x.exp % 2 = 0 then x.exp else x.exp - 1) = e at *
  obtain ⟨s1, s2⟩ := isqrt_spec (m * 2 ^ 64)
  have hr32 : 2 ^ 32 ≤ isqrt (m * 2 ^ 64) := by
    by_contra hlt
    have a1 : isqrt (m * 2 ^ 64) + 1 ≤ 2 ^ 32 := by omega
    have a2 := Nat.mul_le_mul a1 a1
    have a3 : 1 * 2 ^ 64 ≤ m * 2 ^ 64 := Nat.mul_le_mul_right _ hm1
    have a4 : (2 : Nat) ^ 32 * 2 ^ 32 = 1 * 2 ^ 64 := by norm_num
    rw [a4] at a2
    generalize (isqrt (m * 2 ^ 64) + 1) * (isqrt (m * 2 ^ 64) + 1) = A at *
    generalize m * 2 ^ 64 = B at *
    generalize 1 * 2 ^ 64 = C at *
    omega
  generalize hM : 2 * isqrt (m * 2 ^ 64) +
      (if isqrt (m * 2 ^ 64) * isqrt (m * 2 ^ 64) = m * 2 ^ 64 then 0 else 1) = M at *
  have hM33 : 2 ^ 33 ≤ M := by
    rw [← hM]
    have : (2 : Nat) ^ 33 = 2 * 2 ^ 32 := by norm_num
    omega
  have hM0 : M ≠ 0 := by
    have := Nat.two_pow_pos 33
    omega
  obtain ⟨-, l2⟩ := ilog2_spec hM0
  have hL : 33 ≤ ilog2 M := by
    have := Nat.lt_of_le_of_lt hM33 l2
    rw [Nat.pow_lt_pow_iff_right (by decide)] at this
    omega
  have hf := isFinite_of_isNormal h
  have hv := abs_val_round false (e / 2 - 33) hM0 hf
  have hS := roundSig_ge_of_isNormal false (e / 2 - 33) hM0 h
  have hu : ulpExp M (e / 2 - 33) = max ((ilog2 M : Int) + (e / 2 - 33) - 23) (-149) := rfl
  have hqe : ¬ ulpExp M (e / 2 - 33) ≤ e / 2 - 33 := by omega
  rw [if_neg hqe] at hv hS
  have hk2 : 2 ≤ (ulpExp M (e / 2 - 33) - (e / 2 - 33)).toNat := by omega
  obtain ⟨lo, hi, b1, b2, b3, b4⟩ := sqrt_sticky_bracket (m * 2 ^ 64) _ hk2
  rw [hM] at b3 b4
  have hk : ((ulpExp M (e / 2 - 33) - (e / 2 - 33)).toNat : Int) =
      ulpExp M (e / 2 - 33) - (e / 2 - 33) := by omega
  have hpk : (2 : ℚ) ^ ulpExp M (e / 2 - 33) =
      (2 : ℚ) ^ (ulpExp M (e / 2 - 33) - (e / 2 - 33)).toNat * (2 : ℚ) ^ (e / 2 - 33) := by
    rw [← zpow_natCast, hk, ← zpow_add₀ (by norm_num : (2 : ℚ) ≠ 0)]
    congr 1
    omega
  have hpe : (2 : ℚ) ^ e = 2 ^ 66 * ((2 : ℚ) ^ (e / 2 - 33)) ^ 2 := by
    have h66 : (2 : ℚ) ^ 66 = (2 : ℚ) ^ (66 : Int) := by
      rw [← zpow_natCast]
      rfl
    rw [h66, pow_two, ← zpow_add₀ (by norm_num : (2 : ℚ) ≠ 0),
      ← zpow_add₀ (by norm_num : (2 : ℚ) ≠ 0)]
    congr 1
    omega
  have hvr : (round false M (e / 2 - 33)).val =
      (rne M (ulpExp M (e / 2 - 33) - (e / 2 - 33)).toNat : ℚ) *
        ((2 : ℚ) ^ (ulpExp M (e / 2 - 33) - (e / 2 - 33)).toNat * (2 : ℚ) ^ (e / 2 - 33)) := by
    have e1 := val_eq_sign_abs (round false M (e / 2 - 33))
    have e2 : (round false M (e / 2 - 33)).sign = false := rfl
    rw [e2, hv, hpk] at e1
    simpa using e1
  have q1 : (lo : ℚ) * lo ≤ (m : ℚ) * 2 ^ 64 := by exact_mod_cast b1
  have q2 : (m : ℚ) * 2 ^ 64 ≤ (hi : ℚ) * hi := by exact_mod_cast b2
  have q3 : (2 : ℚ) * ((rne M (ulpExp M (e / 2 - 33) - (e / 2 - 33)).toNat : ℚ) *
      2 ^ (ulpExp M (e / 2 - 33) - (e / 2 - 33)).toNat) ≤
      4 * (lo : ℚ) + 2 ^ (ulpExp M (e / 2 - 33) - (e / 2 - 33)).toNat := by exact_mod_cast b3
  have q4 : 4 * (hi : ℚ) ≤ (2 : ℚ) * ((rne M (ulpExp M (e / 2 - 33) - (e / 2 - 33)).toNat : ℚ) *
      2 ^ (ulpExp M (e / 2 - 33) - (e / 2 - 33)).toNat) +
        2 ^ (ulpExp M (e / 2 - 33) - (e / 2 - 33)).toNat := by exact_mod_cast b4
  have q5 : ((2 : ℚ) ^ 23) ≤ (rne M (ulpExp M (e / 2 - 33) - (e / 2 - 33)).toNat : ℚ) := by
    exact_mod_cast hS
  have hK : (0 : ℚ) < 2 ^ (ulpExp M (e / 2 - 33) - (e / 2 - 33)).toNat := by positivity
  have hE : (0 : ℚ) < (2 : ℚ) ^ (e / 2 - 33) := by positivity
  have hlo : (0 : ℚ) ≤ (lo : ℚ) := Nat.cast_nonneg _
  have hhi : (0 : ℚ) ≤ (hi : ℚ) := Nat.cast_nonneg _
  rw [hvr, hpe]
  generalize (rne M (ulpExp M (e / 2 - 33) - (e / 2 - 33)).toNat : ℚ) = S at *
  generalize (2 : ℚ) ^ (ulpExp M (e / 2 - 33) - (e / 2 - 33)).toNat = K at *
  generalize (2 : ℚ) ^ (e / 2 - 33) = E at *
  generalize (m : ℚ) = mq at *
  generalize (lo : ℚ) = a at *
  generalize (hi : ℚ) = b at *
  have hS0 : (0 : ℚ) < S := lt_of_lt_of_le (by positivity) q5
  have hSK : 2 ^ 23 * K ≤ S * K := mul_le_mul_of_nonneg_right q5 hK.le
  refine ⟨by positivity, ?_, ?_⟩
  · -- lower bound
    have c1 : (1 - 1 / 2 ^ 24) * (S * K) ≤ 2 * a := by
      norm_num at hSK q3 ⊢
      linarith
    have c0 : 0 ≤ (1 - 1 / 2 ^ 24) * (S * K) := by positivity
    have c2 : ((1 - 1 / 2 ^ 24) * (S * K)) ^ 2 ≤ (2 * a) ^ 2 := pow_le_pow_left₀ c0 c1 2
    have c3 : (1 - 1 / 2 ^ 24) ^ 2 * (S * (K * E)) ^ 2 =
        (((1 - 1 / 2 ^ 24) * (S * K)) ^ 2) * E ^ 2 := by ring
    have c4 : mq * (2 ^ 66 * E ^ 2) = (4 * (mq * 2 ^ 64)) * E ^ 2 := by ring
    rw [c3, c4]
    apply mul_le_mul_of_nonneg_right _ (by positivity)
    calc ((1 - 1 / 2 ^ 24) * (S * K)) ^ 2 ≤ (2 * a) ^ 2 := c2
      _ = 4 * (a * a) := by ring
      _ ≤ 4 * (mq * 2 ^ 64) := by linarith
  · have c1 : 2 * b ≤ (1 + 1 / 2 ^ 24) * (S * K) := by
      norm_num at hSK q4 ⊢
      linarith
    have c0 : 0 ≤ 2 * b := by positivity
    have c2 : (2 * b) ^ 2 ≤ ((1 + 1 / 2 ^ 24) * (S * K)) ^ 2 := pow_le_pow_left₀ c0 c1 2
    have c3 : (1 + 1 / 2 ^ 24) ^ 2 * (S * (K * E)) ^ 2 =
        (((1 + 1 / 2 ^ 24) * (S * K)) ^ 2) * E ^ 2 := by ring
    have c4 : mq * (2 ^ 66 * E ^ 2) = (4 * (mq * 2 ^ 64)) * E ^ 2 := by ring
    rw [c3, c4]
    apply mul_le_mul_of_nonneg_right _ (by positivity)
    calc 4 * (mq * 2 ^ 64) ≤ 4 * (b * b) := by linarith
      _ = (2 * b) ^ 2 := by ring
      _ ≤ ((1 + 1 / 2 ^ 24) * (S * K)) ^ 2 := c2

/-- A rounded value of a nonnegative number is nonnegative and within a factor
`1 ± 2 ^ -24` of it. -/
theorem near_nonneg {e r : ℚ} (he : 0 ≤ e) (h : |r - e| ≤ |r| / 2 ^ 24) :
    0 ≤ r ∧ (1 - 1 / 2 ^ 24) * r ≤ e ∧ e ≤ (1 + 1 / 2 ^ 24) * r := by
  obtain ⟨t, a, b, rfl⟩ := exists_rel h
  have ht : 0 < t := lt_of_lt_of_le (by norm_num) a
  have hr : 0 ≤ r := by
    by_contra hneg
    have : r * t < 0 := mul_neg_of_neg_of_pos (not_le.mp hneg) ht
    linarith
  refine ⟨hr, ?_, ?_⟩
  · calc (1 - 1 / 2 ^ 24) * r = r * (1 - 1 / 2 ^ 24) := by ring
      _ ≤ r * t := mul_le_mul_of_nonneg_left a hr
  · calc r * t ≤ r * (1 + 1 / 2 ^ 24) := mul_le_mul_of_nonneg_left b hr
      _ = (1 + 1 / 2 ^ 24) * r := by ring

/-- The squared length of a 2D vector against its rounded length. -/
theorem sumsq2_bounds {x y px py ls l : ℚ} (h1 : |px - x * x| ≤ |px| / 2 ^ 24)
    (h2 : |py - y * y| ≤ |py| / 2 ^ 24) (h3 : |ls - (px + py)| ≤ |ls| / 2 ^ 24)
    (h4 : (1 - 1 / 2 ^ 24) ^ 2 * l ^ 2 ≤ ls) (h5 : ls ≤ (1 + 1 / 2 ^ 24) ^ 2 * l ^ 2) :
    (1 - 1 / 2 ^ 24) ^ 5 * l ^ 2 ≤ x * x + y * y ∧ x * x + y * y ≤ (1 + 1 / 2 ^ 24) ^ 5 * l ^ 2 := by
  obtain ⟨p1, a1, b1⟩ := near_nonneg (mul_self_nonneg x) h1
  obtain ⟨p2, a2, b2⟩ := near_nonneg (mul_self_nonneg y) h2
  obtain ⟨p3, a3, b3⟩ := near_nonneg (add_nonneg p1 p2) h3
  have hl : 0 ≤ l ^ 2 := by positivity
  generalize l ^ 2 = l2 at *
  generalize x * x = xx at *
  generalize y * y = yy at *
  norm_num at *
  constructor <;> linarith

/-- The squared length of a 3D vector against its rounded length. -/
theorem sumsq3_bounds {x y z px py pz s ls l : ℚ} (h1 : |px - x * x| ≤ |px| / 2 ^ 24)
    (h2 : |py - y * y| ≤ |py| / 2 ^ 24) (h2z : |pz - z * z| ≤ |pz| / 2 ^ 24)
    (h3 : |s - (px + py)| ≤ |s| / 2 ^ 24) (h3z : |ls - (s + pz)| ≤ |ls| / 2 ^ 24)
    (h4 : (1 - 1 / 2 ^ 24) ^ 2 * l ^ 2 ≤ ls) (h5 : ls ≤ (1 + 1 / 2 ^ 24) ^ 2 * l ^ 2) :
    (1 - 1 / 2 ^ 24) ^ 5 * l ^ 2 ≤ x * x + y * y + z * z ∧
      x * x + y * y + z * z ≤ (1 + 1 / 2 ^ 24) ^ 5 * l ^ 2 := by
  obtain ⟨p1, a1, b1⟩ := near_nonneg (mul_self_nonneg x) h1
  obtain ⟨p2, a2, b2⟩ := near_nonneg (mul_self_nonneg y) h2
  obtain ⟨pz0, az, bz⟩ := near_nonneg (mul_self_nonneg z) h2z
  obtain ⟨p3, a3, b3⟩ := near_nonneg (add_nonneg p1 p2) h3
  obtain ⟨p4, a4, b4⟩ := near_nonneg (add_nonneg p3 pz0) h3z
  have hl : 0 ≤ l ^ 2 := by positivity
  generalize l ^ 2 = l2 at *
  generalize x * x = xx at *
  generalize y * y = yy at *
  generalize z * z = zz at *
  norm_num at *
  constructor <;> linarith

/-- The rounded length of a vector scaled by the rounded reciprocal of its
rounded length is within `2 ^ -21` of one. -/
theorem unit_length_bound {A B l r i : ℚ} (hr : 0 < r)
    (hA1 : (1 - 1 / 2 ^ 24) ^ 5 * l ^ 2 ≤ A) (hA2 : A ≤ (1 + 1 / 2 ^ 24) ^ 5 * l ^ 2)
    (hB1 : (1 - 1 / 2 ^ 24) ^ 5 * r ^ 2 ≤ B) (hB2 : B ≤ (1 + 1 / 2 ^ 24) ^ 5 * r ^ 2)
    (hi : |i * l - 1| ≤ |i * l| / 2 ^ 24)
    (hC1 : (1 - 1 / 2 ^ 24) ^ 2 * B ≤ A * i ^ 2) (hC2 : A * i ^ 2 ≤ (1 + 1 / 2 ^ 24) ^ 2 * B) :
    |r - 1| ≤ 1 / 2 ^ 21 := by
  obtain ⟨w0, w1, w2⟩ := near_nonneg (by norm_num : (0 : ℚ) ≤ 1) hi
  have hw1 : ((1 - 1 / 2 ^ 24) * (i * l)) ^ 2 ≤ 1 ^ 2 :=
    pow_le_pow_left₀ (mul_nonneg (by norm_num) w0) w1 2
  have hw2 : (1 : ℚ) ^ 2 ≤ ((1 + 1 / 2 ^ 24) * (i * l)) ^ 2 :=
    pow_le_pow_left₀ (by norm_num) w2 2
  have i2 : 0 ≤ i ^ 2 := by positivity
  have hA1i := mul_le_mul_of_nonneg_right hA1 i2
  have hA2i := mul_le_mul_of_nonneg_right hA2 i2
  have e1 : (1 - 1 / 2 ^ 24) ^ 5 * l ^ 2 * i ^ 2 = (1 - 1 / 2 ^ 24) ^ 5 * (i * l) ^ 2 := by ring
  have e2 : (1 + 1 / 2 ^ 24) ^ 5 * l ^ 2 * i ^ 2 = (1 + 1 / 2 ^ 24) ^ 5 * (i * l) ^ 2 := by ring
  have e3 : ((1 - 1 / 2 ^ 24) * (i * l)) ^ 2 = (1 - 1 / 2 ^ 24) ^ 2 * (i * l) ^ 2 := by ring
  have e4 : ((1 + 1 / 2 ^ 24) * (i * l)) ^ 2 = (1 + 1 / 2 ^ 24) ^ 2 * (i * l) ^ 2 := by ring
  rw [e1] at hA1i
  rw [e2] at hA2i
  rw [e3] at hw1
  rw [e4] at hw2
  generalize (i * l) ^ 2 = W at *
  generalize A * i ^ 2 = Ai at *
  have hr2lo : (1 - 1 / 2 ^ 21) ^ 2 ≤ r ^ 2 := by
    generalize r ^ 2 = r2 at *
    norm_num at *
    linarith
  have hr2hi : r ^ 2 ≤ (1 + 1 / 2 ^ 21) ^ 2 := by
    generalize r ^ 2 = r2 at *
    norm_num at *
    linarith
  rw [abs_le]
  constructor
  · by_contra hc
    have hc2 : r < 1 - 1 / 2 ^ 21 := by linarith
    have : r ^ 2 < (1 - 1 / 2 ^ 21) ^ 2 := pow_lt_pow_left₀ hc2 hr.le (by norm_num)
    linarith
  · by_contra hc
    have hc2 : 1 + 1 / 2 ^ 21 < r := by linarith
    have : (1 + 1 / 2 ^ 21) ^ 2 < r ^ 2 := pow_lt_pow_left₀ hc2 (by norm_num) (by norm_num)
    linarith

theorem isFinite_of_not_nan_inf {x : F32} (h1 : x.isNaN = false) (h2 : x.isInf = false) :
    x.isFinite = true := by
  simp only [isNaN, isInf, isFinite, decide_eq_true_eq, decide_eq_false_iff_not] at *
  omega

/-- A float that is not a NaN and has a positive value compares greater than zero. -/
theorem gt_zero_of_val_pos {x : F32} (hn : x.isNaN = false) (h : 0 < x.val) :
    gt x zero = true := by
  have hu : 0 < x.units := by
    unfold val at h
    have h2 : (0 : ℚ) < (x.units : ℚ) := by
      by_contra hc
      have : (x.units : ℚ) / 2 ^ 149 ≤ 0 :=
        div_nonpos_of_nonpos_of_nonneg (not_lt.mp hc) (by positivity)
      linarith
    exact_mod_cast h2
  have hs : x.sign = false := by
    cases hx : x.sign
    · rfl
    · have := units_sign_true hx
      omega
  have hm : x.mag.val ≠ 0 := by
    intro h0
    have := (units_eq_zero_iff x).mpr h0
    omega
  unfold gt lt key
  rw [hn, hs]
  simp only [show zero.isNaN = false from rfl, show zero.sign = false from rfl,
    show zero.mag.val = 0 from rfl, Bool.not_false, Bool.true_and, Bool.false_eq_true, if_false,
    decide_eq_true_eq]
  omega

/-- The square of a rounded value against the square of the exact value. -/
theorem sq_rel {a b : ℚ} (h : |a - b| ≤ |a| / 2 ^ 24) :
    (1 - 1 / 2 ^ 24) ^ 2 * (a * a) ≤ b * b ∧ b * b ≤ (1 + 1 / 2 ^ 24) ^ 2 * (a * a) := by
  obtain ⟨t, h1, h2, rfl⟩ := exists_rel h
  have ht : 0 ≤ t := le_trans (by norm_num) h1
  have p1 : (1 - 1 / 2 ^ 24) ^ 2 ≤ t ^ 2 := pow_le_pow_left₀ (by norm_num) h1 2
  have p2 : t ^ 2 ≤ (1 + 1 / 2 ^ 24) ^ 2 := pow_le_pow_left₀ ht h2 2
  have ha : 0 ≤ a * a := mul_self_nonneg a
  constructor
  · calc (1 - 1 / 2 ^ 24) ^ 2 * (a * a) ≤ t ^ 2 * (a * a) := mul_le_mul_of_nonneg_right p1 ha
      _ = a * t * (a * t) := by ring
  · calc a * t * (a * t) = t ^ 2 * (a * a) := by ring
      _ ≤ (1 + 1 / 2 ^ 24) ^ 2 * (a * a) := mul_le_mul_of_nonneg_right p2 ha

end F32

namespace Vec2

/-- The rounded length of a vector against its exact squared length. -/
theorem length2_near {v : Vec2} (h : lengthIsRegular v = true) :
    0 < (Length v).val ∧
    (1 - 1 / 2 ^ 24) ^ 5 * (Length v).val ^ 2 ≤ v.x.val * v.x.val + v.y.val * v.y.val ∧
    v.x.val * v.x.val + v.y.val * v.y.val ≤ (1 + 1 / 2 ^ 24) ^ 5 * (Length v).val ^ 2 := by
  simp only [lengthIsRegular, Bool.and_eq_true] at h
  obtain ⟨⟨hx, hy⟩, hl⟩ := h
  obtain ⟨s0, s1, s2⟩ := F32.sqrt_near hl
  obtain ⟨a1, -, -, a4⟩ := F32.pos_of_sqrt_isNormal hl
  have hf := F32.isFinite_of_not_nan_inf a1 a4
  exact ⟨s0, F32.sumsq2_bounds (F32.mul_near hx) (F32.mul_near hy) (F32.add_near hf) s1 s2⟩

theorem normalize_of_isNormal {v : Vec2} (hl : (Length v).isNormal = true) :
    Normalize v = ⟨F32.mul v.x (F32.div F32.one (Length v)),
      F32.mul v.y (F32.div F32.one (Length v))⟩ := by
  obtain ⟨s0, -, -⟩ := F32.sqrt_near hl
  have hg : F32.gt (Length v) F32.zero = true :=
    F32.gt_zero_of_val_pos (F32.isNaN_false_of_finite (F32.isFinite_of_isNormal hl)) s0
  simp only [Normalize, div, hg, F32.ne_zero_of_gt_zero hg, if_true]

/-- The rounded length of `Normalize(v)` is within `2 ^ -21` of one when no
operation overflows or underflows. -/
theorem normalize2_length_near {v : Vec2} (h : normalizeIsRegular v = true) :
    (Length (Normalize v)).isNormal = true ∧ |(Length (Normalize v)).val - 1| ≤ 1 / 2 ^ 21 := by
  simp only [normalizeIsRegular, Bool.and_eq_true] at h
  obtain ⟨⟨⟨⟨hl, hi⟩, hx⟩, hy⟩, hn⟩ := h
  obtain ⟨-, a1, a2⟩ := length2_near hl
  obtain ⟨r0, b1, b2⟩ := length2_near hn
  have hln : (Length v).isNormal = true := by
    simp only [lengthIsRegular, Bool.and_eq_true] at hl
    exact hl.2
  have hrn : (Length (Normalize v)).isNormal = true := by
    simp only [lengthIsRegular, Bool.and_eq_true] at hn
    exact hn.2
  refine ⟨hrn, ?_⟩
  have hd := F32.div_near hi
  rw [F32.val_one] at hd
  obtain ⟨c1, c2⟩ := F32.sq_rel (F32.mul_near hx)
  obtain ⟨d1, d2⟩ := F32.sq_rel (F32.mul_near hy)
  have en : Normalize v = ⟨F32.mul v.x (F32.div F32.one (Length v)),
      F32.mul v.y (F32.div F32.one (Length v))⟩ := normalize_of_isNormal hln
  have ex : (Normalize v).x = F32.mul v.x (F32.div F32.one (Length v)) := by rw [en]
  have ey : (Normalize v).y = F32.mul v.y (F32.div F32.one (Length v)) := by rw [en]
  rw [ex, ey] at b1 b2
  apply F32.unit_length_bound r0 a1 a2 b1 b2 hd
  · calc (1 - 1 / 2 ^ 24) ^ 2 * _ ≤ v.x.val * (F32.div F32.one (Length v)).val *
          (v.x.val * (F32.div F32.one (Length v)).val) +
          v.y.val * (F32.div F32.one (Length v)).val *
          (v.y.val * (F32.div F32.one (Length v)).val) := by rw [mul_add]; exact add_le_add c1 d1
      _ = _ := by ring
  · calc _ = v.x.val * (F32.div F32.one (Length v)).val *
          (v.x.val * (F32.div F32.one (Length v)).val) +
          v.y.val * (F32.div F32.one (Length v)).val *
          (v.y.val * (F32.div F32.one (Length v)).val) := by ring
      _ ≤ (1 + 1 / 2 ^ 24) ^ 2 * _ := by rw [mul_add]; exact add_le_add c2 d2

end Vec2

namespace Vec3

/-- The rounded length of a vector against its exact squared length. -/
theorem length3_near {v : Vec3} (h : lengthIsRegular v = true) :
    0 < (Length v).val ∧
    (1 - 1 / 2 ^ 24) ^ 5 * (Length v).val ^ 2 ≤
      v.x.val * v.x.val + v.y.val * v.y.val + v.z.val * v.z.val ∧
    v.x.val * v.x.val + v.y.val * v.y.val + v.z.val * v.z.val ≤
      (1 + 1 / 2 ^ 24) ^ 5 * (Length v).val ^ 2 := by
  simp only [lengthIsRegular, Bool.and_eq_true] at h
  obtain ⟨⟨⟨hx, hy⟩, hz⟩, hl⟩ := h
  obtain ⟨s0, s1, s2⟩ := F32.sqrt_near hl
  obtain ⟨a1, -, -, a4⟩ := F32.pos_of_sqrt_isNormal hl
  have hf := F32.isFinite_of_not_nan_inf a1 a4
  have hf2 := (F32.isFinite_of_add hf).1
  exact ⟨s0, F32.sumsq3_bounds (F32.mul_near hx) (F32.mul_near hy) (F32.mul_near hz)
    (F32.add_near hf2) (F32.add_near hf) s1 s2⟩

theorem normalize3_of_isNormal {v : Vec3} (hl : (Length v).isNormal = true) :
    Normalize v = ⟨F32.mul v.x (F32.div F32.one (Length v)),
      F32.mul v.y (F32.div F32.one (Length v)), F32.mul v.z (F32.div F32.one (Length v))⟩ := by
  obtain ⟨s0, -, -⟩ := F32.sqrt_near hl
  have hg : F32.gt (Length v) F32.zero = true :=
    F32.gt_zero_of_val_pos (F32.isNaN_false_of_finite (F32.isFinite_of_isNormal hl)) s0
  simp only [Normalize, div, hg, F32.ne_zero_of_gt_zero hg, if_true]

/-- The rounded length of `Normalize(v)` is within `2 ^ -21` of one when no
operation overflows or underflows. -/
theorem normalize3_length_near {v : Vec3} (h : normalizeIsRegular v = true) :
    (Length (Normalize v)).isNormal = true ∧ |(Length (Normalize v)).val - 1| ≤ 1 / 2 ^ 21 := by
  simp only [normalizeIsRegular, Bool.and_eq_true] at h
  obtain ⟨⟨⟨⟨⟨hl, hi⟩, hx⟩, hy⟩, hz⟩, hn⟩ := h
  obtain ⟨-, a1, a2⟩ := length3_near hl
  obtain ⟨r0, b1, b2⟩ := length3_near hn
  have hln : (Length v).isNormal = true := by
    simp only [lengthIsRegular, Bool.and_eq_true] at hl
    exact hl.2
  have hrn : (Length (Normalize v)).isNormal = true := by
    simp only [lengthIsRegular, Bool.and_eq_true] at hn
    exact hn.2
  refine ⟨hrn, ?_⟩
  have hd := F32.div_near hi
  rw [F32.val_one] at hd
  obtain ⟨c1, c2⟩ := F32.sq_rel (F32.mul_near hx)
  obtain ⟨d1, d2⟩ := F32.sq_rel (F32.mul_near hy)
  obtain ⟨g1, g2⟩ := F32.sq_rel (F32.mul_near hz)
  have en := normalize3_of_isNormal hln
  have ex : (Normalize v).x = F32.mul v.x (F32.div F32.one (Length v)) := by rw [en]
  have ey : (Normalize v).y = F32.mul v.y (F32.div F32.one (Length v)) := by rw [en]
  have ez : (Normalize v).z = F32.mul v.z (F32.div F32.one (Length v)) := by rw [en]
  rw [ex, ey, ez] at b1 b2
  apply F32.unit_length_bound r0 a1 a2 b1 b2 hd
  · calc (1 - 1 / 2 ^ 24) ^ 2 * _ ≤ v.x.val * (F32.div F32.one (Length v)).val *
          (v.x.val * (F32.div F32.one (Length v)).val) +
          v.y.val * (F32.div F32.one (Length v)).val *
          (v.y.val * (F32.div F32.one (Length v)).val) +
          v.z.val * (F32.div F32.one (Length v)).val *
          (v.z.val * (F32.div F32.one (Length v)).val) := by
            rw [mul_add, mul_add]; exact add_le_add (add_le_add c1 d1) g1
      _ = _ := by ring
  · calc _ = v.x.val * (F32.div F32.one (Length v)).val *
          (v.x.val * (F32.div F32.one (Length v)).val) +
          v.y.val * (F32.div F32.one (Length v)).val *
          (v.y.val * (F32.div F32.one (Length v)).val) +
          v.z.val * (F32.div F32.one (Length v)).val *
          (v.z.val * (F32.div F32.one (Length v)).val) := by ring
      _ ≤ (1 + 1 / 2 ^ 24) ^ 2 * _ := by
            rw [mul_add, mul_add]; exact add_le_add (add_le_add c2 d2) g2

end Vec3

namespace F32

/-- A rounding error bounded by the size of the result is bounded by the size
of the exact value. -/
theorem near_exact {r e : ℚ} (h : |r - e| ≤ |r| / 2 ^ 24) : |r - e| ≤ |e| / (2 ^ 24 - 1) := by
  have h1 : |r| ≤ |r - e| + |e| := by
    calc |r| = |(r - e) + e| := by ring_nf
      _ ≤ |r - e| + |e| := abs_add _ _
  rw [le_div_iff₀ (by norm_num)]
  rw [le_div_iff₀ (by norm_num)] at h
  linarith

/-- Forward error of a rounded product of two approximations. -/
theorem mul_step {a a0 b b0 r Ea Ba Eb Bb : ℚ} (ha : |a - a0| ≤ Ea) (hBa : |a0| ≤ Ba)
    (hb : |b - b0| ≤ Eb) (hBb : |b0| ≤ Bb) (h : |r - a * b| ≤ |r| / 2 ^ 24) :
    |r - a0 * b0| ≤ (Ba + Ea) * (Bb + Eb) / (2 ^ 24 - 1) + Ea * (Bb + Eb) + Ba * Eb := by
  have hEa : 0 ≤ Ea := le_trans (abs_nonneg _) ha
  have hEb : 0 ≤ Eb := le_trans (abs_nonneg _) hb
  have hBa0 : 0 ≤ Ba := le_trans (abs_nonneg _) hBa
  have hBb0 : 0 ≤ Bb := le_trans (abs_nonneg _) hBb
  have h1 := near_exact h
  have ea : |a| ≤ Ba + Ea := by
    calc |a| = |a0 + (a - a0)| := by ring_nf
      _ ≤ |a0| + |a - a0| := abs_add _ _
      _ ≤ Ba + Ea := add_le_add hBa ha
  have eb : |b| ≤ Bb + Eb := by
    calc |b| = |b0 + (b - b0)| := by ring_nf
      _ ≤ |b0| + |b - b0| := abs_add _ _
      _ ≤ Bb + Eb := add_le_add hBb hb
  have e1 : |a * b| ≤ (Ba + Ea) * (Bb + Eb) := by
    rw [abs_mul]
    exact mul_le_mul ea eb (abs_nonneg _) (by positivity)
  have e2 : |(a - a0) * b| ≤ Ea * (Bb + Eb) := by
    rw [abs_mul]
    exact mul_le_mul ha eb (abs_nonneg _) hEa
  have e3 : |a0 * (b - b0)| ≤ Ba * Eb := by
    rw [abs_mul]
    exact mul_le_mul hBa hb (abs_nonneg _) hBa0
  have e4 : |a * b| / (2 ^ 24 - 1) ≤ (Ba + Ea) * (Bb + Eb) / (2 ^ 24 - 1) :=
    div_le_div_of_nonneg_right e1 (by norm_num)
  calc |r - a0 * b0| = |(r - a * b) + ((a - a0) * b + a0 * (b - b0))| := by ring_nf
    _ ≤ |r - a * b| + |(a - a0) * b + a0 * (b - b0)| := abs_add _ _
    _ ≤ |r - a * b| + (|(a - a0) * b| + |a0 * (b - b0)|) := by
        gcongr
        exact abs_add _ _
    _ ≤ (Ba + Ea) * (Bb + Eb) / (2 ^ 24 - 1) + Ea * (Bb + Eb) + Ba * Eb := by linarith

/-- Forward error of a rounded sum of two approximations. -/
theorem add_step {a a0 b b0 r Ea Eb B : ℚ} (ha : |a - a0| ≤ Ea) (hb : |b - b0| ≤ Eb)
    (hB : |a0 + b0| ≤ B) (h : |r - (a + b)| ≤ |r| / 2 ^ 24) :
    |r - (a0 + b0)| ≤ (B + Ea + Eb) / (2 ^ 24 - 1) + Ea + Eb := by
  have h1 := near_exact h
  have e0 : |(a - a0) + (b - b0)| ≤ Ea + Eb := le_trans (abs_add _ _) (add_le_add ha hb)
  have e1 : |a + b| ≤ B + Ea + Eb := by
    calc |a + b| = |(a0 + b0) + ((a - a0) + (b - b0))| := by ring_nf
      _ ≤ |a0 + b0| + |(a - a0) + (b - b0)| := abs_add _ _
      _ ≤ B + Ea + Eb := by linarith
  have e4 : |a + b| / (2 ^ 24 - 1) ≤ (B + Ea + Eb) / (2 ^ 24 - 1) :=
    div_le_div_of_nonneg_right e1 (by norm_num)
  calc |r - (a0 + b0)| = |(r - (a + b)) + ((a - a0) + (b - b0))| := by ring_nf
    _ ≤ |r - (a + b)| + |(a - a0) + (b - b0)| := abs_add _ _
    _ ≤ (B + Ea + Eb) / (2 ^ 24 - 1) + Ea + Eb := by linarith

/-- Forward error of a rounded difference of two approximations. -/
theorem sub_step {a a0 b b0 r Ea Eb B : ℚ} (ha : |a - a0| ≤ Ea) (hb : |b - b0| ≤ Eb)
    (hB : |a0 - b0| ≤ B) (h : |r - (a - b)| ≤ |r| / 2 ^ 24) :
    |r - (a0 - b0)| ≤ (B + Ea + Eb) / (2 ^ 24 - 1) + Ea + Eb := by
  have hb2 : |(-b) - (-b0)| ≤ Eb := by
    have : (-b) - (-b0) = -(b - b0) := by ring
    rw [this, abs_neg]
    exact hb
  have := add_step (r := r) (B := B) ha hb2 (by rw [← sub_eq_add_neg]; exact hB)
    (by rw [← sub_eq_add_neg]; exact h)
  rw [← sub_eq_add_neg] at this
  exact this

/-- A component of a vector whose squared length is at most `1 + 2 ^ -22` is at
most `1 + 2 ^ -23` in size. -/
theorem abs_le_of_sq_le_unit {p N : ℚ} (h1 : p * p ≤ N) (h2 : N ≤ 1 + 1 / 2 ^ 22) :
    |p| ≤ 1 + 1 / 2 ^ 23 := by
  rw [abs_le]
  constructor
  · by_contra hc
    have hc2 : p < -(1 + 1 / 2 ^ 23) := by linarith
    have : (1 + 1 / 2 ^ 23) * (1 + 1 / 2 ^ 23) < p * p := by nlinarith
    norm_num at this h2
    linarith
  · by_contra hc
    have hc2 : 1 + 1 / 2 ^ 23 < p := by linarith
    have : (1 + 1 / 2 ^ 23) * (1 + 1 / 2 ^ 23) < p * p := by nlinarith
    norm_num at this h2
    linarith

/-- Forward error of the rounded dot product of a 2D vector with a normal of
about unit length. -/
theorem dot2_err {x y p q p1 p2 d : ℚ} (hp : |p| ≤ 1 + 1 / 2 ^ 23) (hq : |q| ≤ 1 + 1 / 2 ^ 23)
    (h1 : |p1 - x * p| ≤ |p1| / 2 ^ 24) (h2 : |p2 - y * q| ≤ |p2| / 2 ^ 24)
    (hd : |d - (p1 + p2)| ≤ |d| / 2 ^ 24) :
    |d - (x * p + y * q)| ≤ 25 / 8 * (|x| + |y|) / 2 ^ 24 ∧
      |x * p + y * q| ≤ (1 + 1 / 2 ^ 23) * (|x| + |y|) := by
  have z1 : |x - x| ≤ 0 := by simp
  have z2 : |y - y| ≤ 0 := by simp
  have zp : |p - p| ≤ 0 := by simp
  have zq : |q - q| ≤ 0 := by simp
  have s1 := mul_step z1 (le_refl |x|) zp hp h1
  have s2 := mul_step z2 (le_refl |y|) zq hq h2
  have b1 : |x * p| ≤ |x| * (1 + 1 / 2 ^ 23) := by
    rw [abs_mul]
    exact mul_le_mul_of_nonneg_left hp (abs_nonneg _)
  have b2 : |y * q| ≤ |y| * (1 + 1 / 2 ^ 23) := by
    rw [abs_mul]
    exact mul_le_mul_of_nonneg_left hq (abs_nonneg _)
  have hB : |x * p + y * q| ≤ (1 + 1 / 2 ^ 23) * (|x| + |y|) := by
    calc |x * p + y * q| ≤ |x * p| + |y * q| := abs_add _ _
      _ ≤ (1 + 1 / 2 ^ 23) * (|x| + |y|) := by linarith
  have s3 := add_step s1 s2 hB hd
  refine ⟨le_trans s3 ?_, hB⟩
  have hx := abs_nonneg x
  have hy := abs_nonneg y
  generalize |x| = X at *
  generalize |y| = Y at *
  norm_num
  linarith

/-- Forward error of the rounded dot product of a 3D vector with a normal of
about unit length. -/
theorem dot3_err {x y z p q c p1 p2 p3 s d : ℚ} (hp : |p| ≤ 1 + 1 / 2 ^ 23)
    (hq : |q| ≤ 1 + 1 / 2 ^ 23) (hc : |c| ≤ 1 + 1 / 2 ^ 23)
    (h1 : |p1 - x * p| ≤ |p1| / 2 ^ 24) (h2 : |p2 - y * q| ≤ |p2| / 2 ^ 24)
    (h3 : |p3 - z * c| ≤ |p3| / 2 ^ 24) (hs : |s - (p1 + p2)| ≤ |s| / 2 ^ 24)
    (hd : |d - (s + p3)| ≤ |d| / 2 ^ 24) :
    |d - (x * p + y * q + z * c)| ≤ 25 / 8 * (|x| + |y| + |z|) / 2 ^ 24 ∧
      |x * p + y * q + z * c| ≤ (1 + 1 / 2 ^ 23) * (|x| + |y| + |z|) := by
  have z1 : |x - x| ≤ 0 := by simp
  have z2 : |y - y| ≤ 0 := by simp
  have z3 : |z - z| ≤ 0 := by simp
  have zp : |p - p| ≤ 0 := by simp
  have zq : |q - q| ≤ 0 := by simp
  have zc : |c - c| ≤ 0 := by simp
  have s1 := mul_step z1 (le_refl |x|) zp hp h1
  have s2 := mul_step z2 (le_refl |y|) zq hq h2
  have s3 := mul_step z3 (le_refl |z|) zc hc h3
  have b1 : |x * p| ≤ |x| * (1 + 1 / 2 ^ 23) := by
    rw [abs_mul]
    exact mul_le_mul_of_nonneg_left hp (abs_nonneg _)
  have b2 : |y * q| ≤ |y| * (1 + 1 / 2 ^ 23) := by
    rw [abs_mul]
    exact mul_le_mul_of_nonneg_left hq (abs_nonneg _)
  have b3 : |z * c| ≤ |z| * (1 + 1 / 2 ^ 23) := by
    rw [abs_mul]
    exact mul_le_mul_of_nonneg_left hc (abs_nonneg _)
  have hB2 : |x * p + y * q| ≤ (1 + 1 / 2 ^ 23) * (|x| + |y|) := by
    calc |x * p + y * q| ≤ |x * p| + |y * q| := abs_add _ _
      _ ≤ (1 + 1 / 2 ^ 23) * (|x| + |y|) := by linarith
  have hB : |x * p + y * q + z * c| ≤ (1 + 1 / 2 ^ 23) * (|x| + |y| + |z|) := by
    calc |x * p + y * q + z * c| ≤ |x * p + y * q| + |z * c| := abs_add _ _
      _ ≤ (1 + 1 / 2 ^ 23) * (|x| + |y| + |z|) := by linarith
  have s4 := add_step s1 s2 hB2 hs
  have s5 := add_step s4 s3 hB hd
  refine ⟨le_trans s5 ?_, hB⟩
  have hx := abs_nonneg x
  have hy := abs_nonneg y
  have hz := abs_nonneg z
  generalize |x| = X at *
  generalize |y| = Y at *
  generalize |z| = Z at *
  norm_num
  linarith

/-- Forward error of one component of a reflection: `w - (c * 2) * d` against
`w - 2 * c * D`, for a dot product `d` that approximates `D`. -/
theorem reflect_comp_err {w c m d D t r S : ℚ} (hc : |c| ≤ 1 + 1 / 2 ^ 23) (hw : |w| ≤ S)
    (hD : |D| ≤ (1 + 1 / 2 ^ 23) * S) (hd : |d - D| ≤ 25 / 8 * S / 2 ^ 24)
    (hm : |m - c * 2| ≤ |m| / 2 ^ 24) (ht : |t - m * d| ≤ |t| / 2 ^ 24)
    (hr : |r - (w - t)| ≤ |r| / 2 ^ 24) :
    |r - (w - 2 * c * D)| ≤ 14 * S / 2 ^ 24 := by
  have hS : 0 ≤ S := le_trans (abs_nonneg _) hw
  have zc : |c - c| ≤ 0 := by simp
  have z2 : |(2 : ℚ) - 2| ≤ 0 := by simp
  have zw : |w - w| ≤ 0 := by simp
  have s1 := mul_step zc hc z2 (le_refl |(2 : ℚ)|) hm
  have b1 : |c * 2| ≤ (1 + 1 / 2 ^ 23) * 2 := by
    rw [abs_mul]
    exact mul_le_mul hc (le_of_eq (abs_of_pos (by norm_num))) (abs_nonneg _) (by norm_num)
  have s2 := mul_step s1 b1 hd hD ht
  have b2 : |w - c * 2 * D| ≤ S + (1 + 1 / 2 ^ 23) * 2 * ((1 + 1 / 2 ^ 23) * S) := by
    calc |w - c * 2 * D| = |w + -(c * 2 * D)| := by ring_nf
      _ ≤ |w| + |-(c * 2 * D)| := abs_add _ _
      _ = |w| + |c * 2| * |D| := by rw [abs_neg, abs_mul]
      _ ≤ S + (1 + 1 / 2 ^ 23) * 2 * ((1 + 1 / 2 ^ 23) * S) :=
          add_le_add hw (mul_le_mul b1 hD (abs_nonneg _) (by norm_num))
  have s3 := sub_step zw s2 b2 hr
  have e : w - 2 * c * D = w - c * 2 * D := by ring
  rw [e]
  refine le_trans s3 ?_
  have h2 : |(2 : ℚ)| = 2 := abs_of_pos (by norm_num)
  rw [h2]
  norm_num
  linarith

theorem abs_mul_le_mul {a b A B : ℚ} (ha : |a| ≤ A) (hb : |b| ≤ B) : |a * b| ≤ A * B := by
  rw [abs_mul]
  exact mul_le_mul ha hb (abs_nonneg _) (le_trans (abs_nonneg _) ha)

theorem abs_le_add_of_sub {r e E B : ℚ} (h : |r - e| ≤ E) (hB : |e| ≤ B) : |r| ≤ B + E := by
  calc |r| = |e + (r - e)| := by ring_nf
    _ ≤ |e| + |r - e| := abs_add _ _
    _ ≤ B + E := add_le_add hB h

theorem abs_sub_mul_le {w a b W A B : ℚ} (hw : |w| ≤ W) (ha : |a| ≤ A) (hb : |b| ≤ B) :
    |w - a * b| ≤ W + A * B := by
  calc |w - a * b| = |w + -(a * b)| := by ring_nf
    _ ≤ |w| + |-(a * b)| := abs_add _ _
    _ = |w| + |a * b| := by rw [abs_neg]
    _ ≤ W + A * B := add_le_add hw (abs_mul_le_mul ha hb)

/-- Two reflections about a normal of about unit length, first component of a
2D vector: the forward errors of the two reflections and the defect of the
normal add up to at most `2 ^ -16` of the size of the vector. -/
theorem reflect2_twice_err {x y p q r1 r2 f : ℚ} (hN : |p * p + q * q - 1| ≤ 1 / 2 ^ 22)
    (h1 : |r1 - (x - 2 * p * (x * p + y * q))| ≤ 14 * (|x| + |y|) / 2 ^ 24)
    (h2 : |r2 - (y - 2 * q * (x * p + y * q))| ≤ 14 * (|x| + |y|) / 2 ^ 24)
    (h3 : |f - (r1 - 2 * p * (r1 * p + r2 * q))| ≤ 14 * (|r1| + |r2|) / 2 ^ 24) :
    |f - x| ≤ (|x| + |y|) / 2 ^ 16 := by
  have hNle : p * p + q * q ≤ 1 + 1 / 2 ^ 22 := by
    have := (abs_le.mp hN).2
    linarith
  have hp : |p| ≤ 1 + 1 / 2 ^ 23 :=
    abs_le_of_sq_le_unit (by nlinarith [mul_self_nonneg q]) hNle
  have hq : |q| ≤ 1 + 1 / 2 ^ 23 :=
    abs_le_of_sq_le_unit (by nlinarith [mul_self_nonneg p]) hNle
  have h2p : |2 * p| ≤ 2 * (1 + 1 / 2 ^ 23) :=
    abs_mul_le_mul (le_of_eq (abs_of_pos (by norm_num : (0 : ℚ) < 2))) hp
  have h2q : |2 * q| ≤ 2 * (1 + 1 / 2 ^ 23) :=
    abs_mul_le_mul (le_of_eq (abs_of_pos (by norm_num : (0 : ℚ) < 2))) hq
  have hD : |x * p + y * q| ≤ |x| * (1 + 1 / 2 ^ 23) + |y| * (1 + 1 / 2 ^ 23) :=
    le_trans (abs_add _ _) (add_le_add (abs_mul_le_mul (le_refl _) hp)
      (abs_mul_le_mul (le_refl _) hq))
  have hr1 := abs_le_add_of_sub h1 (abs_sub_mul_le (le_refl |x|) h2p hD)
  have hr2 := abs_le_add_of_sub h2 (abs_sub_mul_le (le_refl |y|) h2q hD)
  have t2 : |(r1 - (x - 2 * p * (x * p + y * q))) -
      2 * p * ((r1 - (x - 2 * p * (x * p + y * q))) * p +
        (r2 - (y - 2 * q * (x * p + y * q))) * q)| ≤
      14 * (|x| + |y|) / 2 ^ 24 + 2 * (1 + 1 / 2 ^ 23) *
        (14 * (|x| + |y|) / 2 ^ 24 * (1 + 1 / 2 ^ 23) +
          14 * (|x| + |y|) / 2 ^ 24 * (1 + 1 / 2 ^ 23)) :=
    abs_sub_mul_le h1 h2p
      (le_trans (abs_add _ _) (add_le_add (abs_mul_le_mul h1 hp) (abs_mul_le_mul h2 hq)))
  have t3 : |4 * p * (x * p + y * q) * (p * p + q * q - 1)| ≤
      4 * (1 + 1 / 2 ^ 23) * (|x| * (1 + 1 / 2 ^ 23) + |y| * (1 + 1 / 2 ^ 23)) * (1 / 2 ^ 22) :=
    abs_mul_le_mul (abs_mul_le_mul
      (abs_mul_le_mul (le_of_eq (abs_of_pos (by norm_num : (0 : ℚ) < 4))) hp) hD) hN
  have e : f - x = (f - (r1 - 2 * p * (r1 * p + r2 * q))) +
      ((r1 - (x - 2 * p * (x * p + y * q))) -
        2 * p * ((r1 - (x - 2 * p * (x * p + y * q))) * p +
          (r2 - (y - 2 * q * (x * p + y * q))) * q)) +
      4 * p * (x * p + y * q) * (p * p + q * q - 1) := by ring
  rw [e]
  refine le_trans (abs_add _ _) ?_
  refine le_trans (add_le_add (abs_add _ _) (le_refl _)) ?_
  have hx' := abs_nonneg x
  have hy' := abs_nonneg y
  generalize |f - (r1 - 2 * p * (r1 * p + r2 * q))| = T1 at *
  generalize |(r1 - (x - 2 * p * (x * p + y * q))) -
      2 * p * ((r1 - (x - 2 * p * (x * p + y * q))) * p +
        (r2 - (y - 2 * q * (x * p + y * q))) * q)| = T2 at *
  generalize |4 * p * (x * p + y * q) * (p * p + q * q - 1)| = T3 at *
  generalize |r1| = R1 at *
  generalize |r2| = R2 at *
  generalize |x| = X at *
  generalize |y| = Y at *
  norm_num at h3 t2 t3 hr1 hr2 ⊢
  linarith

/-- Two reflections about a normal of about unit length, first component of a
3D vector. -/
theorem reflect3_twice_err {x y z p q c r1 r2 r3 f : ℚ}
    (hN : |p * p + q * q + c * c - 1| ≤ 1 / 2 ^ 22)
    (h1 : |r1 - (x - 2 * p * (x * p + y * q + z * c))| ≤ 14 * (|x| + |y| + |z|) / 2 ^ 24)
    (h2 : |r2 - (y - 2 * q * (x * p + y * q + z * c))| ≤ 14 * (|x| + |y| + |z|) / 2 ^ 24)
    (h3 : |r3 - (z - 2 * c * (x * p + y * q + z * c))| ≤ 14 * (|x| + |y| + |z|) / 2 ^ 24)
    (h4 : |f - (r1 - 2 * p * (r1 * p + r2 * q + r3 * c))| ≤
      14 * (|r1| + |r2| + |r3|) / 2 ^ 24) :
    |f - x| ≤ (|x| + |y| + |z|) / 2 ^ 16 := by
  have hNle : p * p + q * q + c * c ≤ 1 + 1 / 2 ^ 22 := by
    have := (abs_le.mp hN).2
    linarith
  have hp : |p| ≤ 1 + 1 / 2 ^ 23 :=
    abs_le_of_sq_le_unit (by nlinarith [mul_self_nonneg q, mul_self_nonneg c]) hNle
  have hq : |q| ≤ 1 + 1 / 2 ^ 23 :=
    abs_le_of_sq_le_unit (by nlinarith [mul_self_nonneg p, mul_self_nonneg c]) hNle
  have hc : |c| ≤ 1 + 1 / 2 ^ 23 :=
    abs_le_of_sq_le_unit (by nlinarith [mul_self_nonneg p, mul_self_nonneg q]) hNle
  have h2p : |2 * p| ≤ 2 * (1 + 1 / 2 ^ 23) :=
    abs_mul_le_mul (le_of_eq (abs_of_pos (by norm_num : (0 : ℚ) < 2))) hp
  have h2q : |2 * q| ≤ 2 * (1 + 1 / 2 ^ 23) :=
    abs_mul_le_mul (le_of_eq (abs_of_pos (by norm_num : (0 : ℚ) < 2))) hq
  have h2c : |2 * c| ≤ 2 * (1 + 1 / 2 ^ 23) :=
    abs_mul_le_mul (le_of_eq (abs_of_pos (by norm_num : (0 : ℚ) < 2))) hc
  have hD : |x * p + y * q + z * c| ≤
      |x| * (1 + 1 / 2 ^ 23) + |y| * (1 + 1 / 2 ^ 23) + |z| * (1 + 1 / 2 ^ 23) :=
    le_trans (abs_add _ _) (add_le_add
      (le_trans (abs_add _ _) (add_le_add (abs_mul_le_mul (le_refl _) hp)
        (abs_mul_le_mul (le_refl _) hq)))
      (abs_mul_le_mul (le_refl _) hc))
  have hr1 := abs_le_add_of_sub h1 (abs_sub_mul_le (le_refl |x|) h2p hD)
  have hr2 := abs_le_add_of_sub h2 (abs_sub_mul_le (le_refl |y|) h2q hD)
  have hr3 := abs_le_add_of_sub h3 (abs_sub_mul_le (le_refl |z|) h2c hD)
  have t2 : |(r1 - (x - 2 * p * (x * p + y * q + z * c))) -
      2 * p * ((r1 - (x - 2 * p * (x * p + y * q + z * c))) * p +
        (r2 - (y - 2 * q * (x * p + y * q + z * c))) * q +
        (r3 - (z - 2 * c * (x * p + y * q + z * c))) * c)| ≤
      14 * (|x| + |y| + |z|) / 2 ^ 24 + 2 * (1 + 1 / 2 ^ 23) *
        (14 * (|x| + |y| + |z|) / 2 ^ 24 * (1 + 1 / 2 ^ 23) +
          14 * (|x| + |y| + |z|) / 2 ^ 24 * (1 + 1 / 2 ^ 23) +
          14 * (|x| + |y| + |z|) / 2 ^ 24 * (1 + 1 / 2 ^ 23)) :=
    abs_sub_mul_le h1 h2p
      (le_trans (abs_add _ _) (add_le_add
        (le_trans (abs_add _ _) (add_le_add (abs_mul_le_mul h1 hp) (abs_mul_le_mul h2 hq)))
        (abs_mul_le_mul h3 hc)))
  have t3 : |4 * p * (x * p + y * q + z * c) * (p * p + q * q + c * c - 1)| ≤
      4 * (1 + 1 / 2 ^ 23) *
        (|x| * (1 + 1 / 2 ^ 23) + |y| * (1 + 1 / 2 ^ 23) + |z| * (1 + 1 / 2 ^ 23)) *
        (1 / 2 ^ 22) :=
    abs_mul_le_mul (abs_mul_le_mul
      (abs_mul_le_mul (le_of_eq (abs_of_pos (by norm_num : (0 : ℚ) < 4))) hp) hD) hN
  have e : f - x = (f - (r1 - 2 * p * (r1 * p + r2 * q + r3 * c))) +
      ((r1 - (x - 2 * p * (x * p + y * q + z * c))) -
        2 * p * ((r1 - (x - 2 * p * (x * p + y * q + z * c))) * p +
          (r2 - (y - 2 * q * (x * p + y * q + z * c))) * q +
          (r3 - (z - 2 * c * (x * p + y * q + z * c))) * c)) +
      4 * p * (x * p + y * q + z * c) * (p * p + q * q + c * c - 1) := by ring
  rw [e]
  refine le_trans (abs_add _ _) ?_
  refine le_trans (add_le_add (abs_add _ _) (le_refl _)) ?_
  have hx' := abs_nonneg x
  have hy' := abs_nonneg y
  have hz' := abs_nonneg z
  generalize |f - (r1 - 2 * p * (r1 * p + r2 * q + r3 * c))| = T1 at *
  generalize |(r1 - (x - 2 * p * (x * p + y * q + z * c))) -
      2 * p * ((r1 - (x - 2 * p * (x * p + y * q + z * c))) * p +
        (r2 - (y - 2 * q * (x * p + y * q + z * c))) * q +
        (r3 - (z - 2 * c * (x * p + y * q + z * c))) * c)| = T2 at *
  generalize |4 * p * (x * p + y * q + z * c) * (p * p + q * q + c * c - 1)| = T3 at *
  generalize |r1| = R1 at *
  generalize |r2| = R2 at *
  generalize |r3| = R3 at *
  generalize |x| = X at *
  generalize |y| = Y at *
  generalize |z| = Z at *
  norm_num at h4 t2 t3 hr1 hr2 hr3 ⊢
  linarith

/-- Two floats that compare equal are finite together. -/
theorem isFinite_of_eq {x y : F32} (h : eq x y = true) (hy : y.isFinite = true) :
    x.isFinite = true := by
  have hk := key_eq_of_eq h
  unfold key at hk
  simp only [isFinite, decide_eq_true_eq] at hy ⊢
  split at hk <;> split at hk <;> omega

/-- The squared length of a 2D normal with `Dot(n, n) == 1.0f`. -/
theorem unit2_defect {p q pp qq d : ℚ} (h1 : |pp - p * p| ≤ |pp| / 2 ^ 24)
    (h2 : |qq - q * q| ≤ |qq| / 2 ^ 24) (h3 : |d - (pp + qq)| ≤ |d| / 2 ^ 24) (hd : d = 1) :
    |p * p + q * q - 1| ≤ 1 / 2 ^ 22 := by
  obtain ⟨p1, a1, b1⟩ := near_nonneg (mul_self_nonneg p) h1
  obtain ⟨p2, a2, b2⟩ := near_nonneg (mul_self_nonneg q) h2
  obtain ⟨p3, a3, b3⟩ := near_nonneg (add_nonneg p1 p2) h3
  subst hd
  rw [abs_le]
  generalize p * p = P at *
  generalize q * q = Q at *
  norm_num at *
  constructor <;> linarith

/-- The squared length of a 3D normal with `Dot(n, n) == 1.0f`. -/
theorem unit3_defect {p q c pp qq cc s d : ℚ} (h1 : |pp - p * p| ≤ |pp| / 2 ^ 24)
    (h2 : |qq - q * q| ≤ |qq| / 2 ^ 24) (h2c : |cc - c * c| ≤ |cc| / 2 ^ 24)
    (h3 : |s - (pp + qq)| ≤ |s| / 2 ^ 24) (h4 : |d - (s + cc)| ≤ |d| / 2 ^ 24) (hd : d = 1) :
    |p * p + q * q + c * c - 1| ≤ 1 / 2 ^ 22 := by
  obtain ⟨p1, a1, b1⟩ := near_nonneg (mul_self_nonneg p) h1
  obtain ⟨p2, a2, b2⟩ := near_nonneg (mul_self_nonneg q) h2
  obtain ⟨pc, ac, bc⟩ := near_nonneg (mul_self_nonneg c) h2c
  obtain ⟨p3, a3, b3⟩ := near_nonneg (add_nonneg p1 p2) h3
  obtain ⟨p4, a4, b4⟩ := near_nonneg (add_nonneg p3 pc) h4
  subst hd
  rw [abs_le]
  generalize p * p = P at *
  generalize q * q = Q at *
  generalize c * c = C at *
  norm_num at *
  constructor <;> linarith

end F32

namespace Vec2

theorem unit2_near {n : Vec2} (h : isUnit n = true) :
    |n.x.val * n.x.val + n.y.val * n.y.val - 1| ≤ 1 / 2 ^ 22 := by
  simp only [isUnit, Bool.and_eq_true] at h
  obtain ⟨⟨hx, hy⟩, he⟩ := h
  have hf : (Dot n n).isFinite = true := F32.isFinite_of_eq he (by decide)
  have hv : (Dot n n).val = 1 := by rw [F32.val_of_eq he, F32.val_one]
  exact F32.unit2_defect (F32.mul_near hx) (F32.mul_near hy) (F32.add_near hf) hv

/-- Forward error of one reflection about a normal of about unit length. -/
theorem reflect2_near {v n : Vec2} (hN : |n.x.val * n.x.val + n.y.val * n.y.val - 1| ≤ 1 / 2 ^ 22)
    (h : reflectIsRegular v n = true) :
    |(Reflect v n).x.val - (v.x.val - 2 * n.x.val * (v.x.val * n.x.val + v.y.val * n.y.val))| ≤
      14 * (|v.x.val| + |v.y.val|) / 2 ^ 24 ∧
    |(Reflect v n).y.val - (v.y.val - 2 * n.y.val * (v.x.val * n.x.val + v.y.val * n.y.val))| ≤
      14 * (|v.x.val| + |v.y.val|) / 2 ^ 24 := by
  simp only [reflectIsRegular, Bool.and_eq_true] at h
  obtain ⟨⟨⟨⟨⟨⟨⟨⟨m1, m2⟩, p1⟩, p2⟩, df⟩, t1⟩, t2⟩, r1⟩, r2⟩ := h
  have hNle : n.x.val * n.x.val + n.y.val * n.y.val ≤ 1 + 1 / 2 ^ 22 := by
    have := (abs_le.mp hN).2
    linarith
  have hp : |n.x.val| ≤ 1 + 1 / 2 ^ 23 :=
    F32.abs_le_of_sq_le_unit (by nlinarith [mul_self_nonneg n.y.val]) hNle
  have hq : |n.y.val| ≤ 1 + 1 / 2 ^ 23 :=
    F32.abs_le_of_sq_le_unit (by nlinarith [mul_self_nonneg n.x.val]) hNle
  obtain ⟨d1, d2⟩ := F32.dot2_err hp hq (F32.mul_near p1) (F32.mul_near p2) (F32.add_near df)
  have hx : |v.x.val| ≤ |v.x.val| + |v.y.val| := by linarith [abs_nonneg v.y.val]
  have hy : |v.y.val| ≤ |v.x.val| + |v.y.val| := by linarith [abs_nonneg v.x.val]
  have n1 := F32.mul_near m1
  have n2 := F32.mul_near m2
  rw [F32.val_two] at n1 n2
  exact ⟨F32.reflect_comp_err hp hx d2 d1 n1 (F32.mul_near t1) (F32.sub_near r1),
    F32.reflect_comp_err hq hy d2 d1 n2 (F32.mul_near t2) (F32.sub_near r2)⟩

/-- Two reflections about a unit normal return the vector within `2 ^ -16` of
its size when no operation overflows or underflows. -/
theorem reflect2_twice_near {v n : Vec2} (hu : isUnit n = true)
    (h1 : reflectIsRegular v n = true) (h2 : reflectIsRegular (Reflect v n) n = true) :
    |(Reflect (Reflect v n) n).x.val - v.x.val| ≤ (|v.x.val| + |v.y.val|) / 2 ^ 16 ∧
    |(Reflect (Reflect v n) n).y.val - v.y.val| ≤ (|v.x.val| + |v.y.val|) / 2 ^ 16 := by
  have hN := unit2_near hu
  obtain ⟨a1, a2⟩ := reflect2_near hN h1
  obtain ⟨b1, b2⟩ := reflect2_near hN h2
  constructor
  · exact F32.reflect2_twice_err hN a1 a2 b1
  · have hN' : |n.y.val * n.y.val + n.x.val * n.x.val - 1| ≤ 1 / 2 ^ 22 := by
      rw [add_comm (n.y.val * n.y.val)]
      exact hN
    have e1 : v.y.val * n.y.val + v.x.val * n.x.val = v.x.val * n.x.val + v.y.val * n.y.val := by
      ring
    have e2 : |v.y.val| + |v.x.val| = |v.x.val| + |v.y.val| := by ring
    have e3 : (Reflect v n).y.val * n.y.val + (Reflect v n).x.val * n.x.val =
        (Reflect v n).x.val * n.x.val + (Reflect v n).y.val * n.y.val := by ring
    have e4 : |(Reflect v n).y.val| + |(Reflect v n).x.val| =
        |(Reflect v n).x.val| + |(Reflect v n).y.val| := by ring
    have := F32.reflect2_twice_err (x := v.y.val) (y := v.x.val) (p := n.y.val) (q := n.x.val)
      (f := (Reflect (Reflect v n) n).y.val) hN' (by rw [e1, e2]; exact a2)
      (by rw [e1, e2]; exact a1) (by rw [e3, e4]; exact b2)
    rw [e2] at this
    exact this

end Vec2

namespace Vec3

theorem unit3_near {n : Vec3} (h : isUnit n = true) :
    |n.x.val * n.x.val + n.y.val * n.y.val + n.z.val * n.z.val - 1| ≤ 1 / 2 ^ 22 := by
  simp only [isUnit, Bool.and_eq_true] at h
  obtain ⟨⟨⟨hx, hy⟩, hz⟩, he⟩ := h
  have hf : (Dot n n).isFinite = true := F32.isFinite_of_eq he (by decide)
  have hf2 := (F32.isFinite_of_add hf).1
  have hv : (Dot n n).val = 1 := by rw [F32.val_of_eq he, F32.val_one]
  exact F32.unit3_defect (F32.mul_near hx) (F32.mul_near hy) (F32.mul_near hz)
    (F32.add_near hf2) (F32.add_near hf) hv

/-- Forward error of one reflection about a normal of about unit length. -/
theorem reflect3_near {v n : Vec3}
    (hN : |n.x.val * n.x.val + n.y.val * n.y.val + n.z.val * n.z.val - 1| ≤ 1 / 2 ^ 22)
    (h : reflectIsRegular v n = true) :
    |(Reflect v n).x.val - (v.x.val - 2 * n.x.val *
        (v.x.val * n.x.val + v.y.val * n.y.val + v.z.val * n.z.val))| ≤
      14 * (|v.x.val| + |v.y.val| + |v.z.val|) / 2 ^ 24 ∧
    |(Reflect v n).y.val - (v.y.val - 2 * n.y.val *
        (v.x.val * n.x.val + v.y.val * n.y.val + v.z.val * n.z.val))| ≤
      14 * (|v.x.val| + |v.y.val| + |v.z.val|) / 2 ^ 24 ∧
    |(Reflect v n).z.val - (v.z.val - 2 * n.z.val *
        (v.x.val * n.x.val + v.y.val * n.y.val + v.z.val * n.z.val))| ≤
      14 * (|v.x.val| + |v.y.val| + |v.z.val|) / 2 ^ 24 := by
  simp only [reflectIsRegular, Bool.and_eq_true] at h
  obtain ⟨⟨⟨⟨⟨⟨⟨⟨⟨⟨⟨⟨m1, m2⟩, m3⟩, p1⟩, p2⟩, p3⟩, df⟩, t1⟩, t2⟩, t3⟩, r1⟩, r2⟩, r3⟩ := h
  have hNle : n.x.val * n.x.val + n.y.val * n.y.val + n.z.val * n.z.val ≤ 1 + 1 / 2 ^ 22 := by
    have := (abs_le.mp hN).2
    linarith
  have hp : |n.x.val| ≤ 1 + 1 / 2 ^ 23 :=
    F32.abs_le_of_sq_le_unit
      (by nlinarith [mul_self_nonneg n.y.val, mul_self_nonneg n.z.val]) hNle
  have hq : |n.y.val| ≤ 1 + 1 / 2 ^ 23 :=
    F32.abs_le_of_sq_le_unit
      (by nlinarith [mul_self_nonneg n.x.val, mul_self_nonneg n.z.val]) hNle
  have hc : |n.z.val| ≤ 1 + 1 / 2 ^ 23 :=
    F32.abs_le_of_sq_le_unit
      (by nlinarith [mul_self_nonneg n.x.val, mul_self_nonneg n.y.val]) hNle
  have df2 := (F32.isFinite_of_add df).1
  obtain ⟨d1, d2⟩ := F32.dot3_err hp hq hc (F32.mul_near p1) (F32.mul_near p2) (F32.mul_near p3)
    (F32.add_near df2) (F32.add_near df)
  have hx : |v.x.val| ≤ |v.x.val| + |v.y.val| + |v.z.val| := by
    linarith [abs_nonneg v.y.val, abs_nonneg v.z.val]
  have hy : |v.y.val| ≤ |v.x.val| + |v.y.val| + |v.z.val| := by
    linarith [abs_nonneg v.x.val, abs_nonneg v.z.val]
  have hz : |v.z.val| ≤ |v.x.val| + |v.y.val| + |v.z.val| := by
    linarith [abs_nonneg v.x.val, abs_nonneg v.y.val]
  have n1 := F32.mul_near m1
  have n2 := F32.mul_near m2
  have n3 := F32.mul_near m3
  rw [F32.val_two] at n1 n2 n3
  exact ⟨F32.reflect_comp_err hp hx d2 d1 n1 (F32.mul_near t1) (F32.sub_near r1),
    F32.reflect_comp_err hq hy d2 d1 n2 (F32.mul_near t2) (F32.sub_near r2),
    F32.reflect_comp_err hc hz d2 d1 n3 (F32.mul_near t3) (F32.sub_near r3)⟩

/-- Two reflections about a unit normal return the vector within `2 ^ -16` of
its size when no operation overflows or underflows. -/
theorem reflect3_twice_near {v n : Vec3} (hu : isUnit n = true)
    (h1 : reflectIsRegular v n = true) (h2 : reflectIsRegular (Reflect v n) n = true) :
    |(Reflect (Reflect v n) n).x.val - v.x.val| ≤
      (|v.x.val| + |v.y.val| + |v.z.val|) / 2 ^ 16 ∧
    |(Reflect (Reflect v n) n).y.val - v.y.val| ≤
      (|v.x.val| + |v.y.val| + |v.z.val|) / 2 ^ 16 ∧
    |(Reflect (Reflect v n) n).z.val - v.z.val| ≤
      (|v.x.val| + |v.y.val| + |v.z.val|) / 2 ^ 16 := by
  have hN := unit3_near hu
  obtain ⟨a1, a2, a3⟩ := reflect3_near hN h1
  obtain ⟨b1, b2, b3⟩ := reflect3_near hN h2
  refine ⟨F32.reflect3_twice_err hN a1 a2 a3 b1, ?_, ?_⟩
  · have hN' : |n.y.val * n.y.val + n.x.val * n.x.val + n.z.val * n.z.val - 1| ≤ 1 / 2 ^ 22 := by
      rw [add_comm (n.y.val * n.y.val)]
      exact hN
    have e1 : v.y.val * n.y.val + v.x.val * n.x.val + v.z.val * n.z.val =
        v.x.val * n.x.val + v.y.val * n.y.val + v.z.val * n.z.val := by ring
    have e2 : |v.y.val| + |v.x.val| + |v.z.val| = |v.x.val| + |v.y.val| + |v.z.val| := by ring
    have e3 : (Reflect v n).y.val * n.y.val + (Reflect v n).x.val * n.x.val +
        (Reflect v n).z.val * n.z.val = (Reflect v n).x.val * n.x.val +
        (Reflect v n).y.val * n.y.val + (Reflect v n).z.val * n.z.val := by ring
    have e4 : |(Reflect v n).y.val| + |(Reflect v n).x.val| + |(Reflect v n).z.val| =
        |(Reflect v n).x.val| + |(Reflect v n).y.val| + |(Reflect v n).z.val| := by ring
    have := F32.reflect3_twice_err (x := v.y.val) (y := v.x.val) (z := v.z.val) (p := n.y.val)
      (q := n.x.val) (c := n.z.val) (f := (Reflect (Reflect v n) n).y.val) hN'
      (by rw [e1, e2]; exact a2) (by rw [e1, e2]; exact a1) (by rw [e1, e2]; exact a3)
      (by rw [e3, e4]; exact b2)
    rw [e2] at this
    exact this
  · have hN' : |n.z.val * n.z.val + n.y.val * n.y.val + n.x.val * n.x.val - 1| ≤ 1 / 2 ^ 22 := by
      have e : n.z.val * n.z.val + n.y.val * n.y.val + n.x.val * n.x.val =
          n.x.val * n.x.val + n.y.val * n.y.val + n.z.val * n.z.val := by ring
      rw [e]
      exact hN
    have e1 : v.z.val * n.z.val + v.y.val * n.y.val + v.x.val * n.x.val =
        v.x.val * n.x.val + v.y.val * n.y.val + v.z.val * n.z.val := by ring
    have e2 : |v.z.val| + |v.y.val| + |v.x.val| = |v.x.val| + |v.y.val| + |v.z.val| := by ring
    have e3 : (Reflect v n).z.val * n.z.val + (Reflect v n).y.val * n.y.val +
        (Reflect v n).x.val * n.x.val = (Reflect v n).x.val * n.x.val +
        (Reflect v n).y.val * n.y.val + (Reflect v n).z.val * n.z.val := by ring
    have e4 : |(Reflect v n).z.val| + |(Reflect v n).y.val| + |(Reflect v n).x.val| =
        |(Reflect v n).x.val| + |(Reflect v n).y.val| + |(Reflect v n).z.val| := by ring
    have := F32.reflect3_twice_err (x := v.z.val) (y := v.y.val) (z := v.x.val) (p := n.z.val)
      (q := n.y.val) (c := n.x.val) (f := (Reflect (Reflect v n) n).z.val) hN'
      (by rw [e1, e2]; exact a3) (by rw [e1, e2]; exact a2) (by rw [e1, e2]; exact a1)
      (by rw [e3, e4]; exact b3)
    rw [e2] at this
    exact this

end Vec3

/-! ## Identities that hold up to rounding -/

/-- C8 (as amended): when `Length(v) > 0.0f`, `Normalize(v)` is `v` multiplied
component by component by the float `1.0f / Length(v)`; that scalar is never
negative, and it is positive when `Length(v)` is finite.  When moreover no
operation of `Length(v)`, of the scaling and of `Length(Normalize(v))`
overflows or underflows, `Length(Normalize(v))` is a normal number that
differs from one by at most `2 ^ -21`.  For `Vec2` and `Vec3`. -/
theorem normalize_scales (v : Vec2) (w : Vec3) :
    (F32.gt (Vec2.Length v) F32.zero = true →
      Vec2.Normalize v = Vec2.mul v (F32.div F32.one (Vec2.Length v)) ∧
      F32.le F32.zero (F32.div F32.one (Vec2.Length v)) = true ∧
      ((Vec2.Length v).isFinite = true →
        F32.gt (F32.div F32.one (Vec2.Length v)) F32.zero = true)) ∧
    (Vec2.normalizeIsRegular v = true →
      (Vec2.Length (Vec2.Normalize v)).isNormal = true ∧
      |(Vec2.Length (Vec2.Normalize v)).val - 1| ≤ 1 / 2 ^ 21) ∧
    (F32.gt (Vec3.Length w) F32.zero = true →
      Vec3.Normalize w = Vec3.mul w (F32.div F32.one (Vec3.Length w)) ∧
      F32.le F32.zero (F32.div F32.one (Vec3.Length w)) = true ∧
      ((Vec3.Length w).isFinite = true →
        F32.gt (F32.div F32.one (Vec3.Length w)) F32.zero = true)) ∧
    (Vec3.normalizeIsRegular w = true →
      (Vec3.Length (Vec3.Normalize w)).isNormal = true ∧
      |(Vec3.Length (Vec3.Normalize w)).val - 1| ≤ 1 / 2 ^ 21) := by
  refine ⟨fun hv => ⟨?_, F32.div_one_of_gt_zero hv⟩, Vec2.normalize2_length_near,
    fun hw => ⟨?_, F32.div_one_of_gt_zero hw⟩, Vec3.normalize3_length_near⟩
  · simp only [Vec2.Normalize, Vec2.div, Vec2.mul, hv, F32.ne_zero_of_gt_zero hv, if_true]
  · simp only [Vec3.Normalize, Vec3.div, Vec3.mul, hw, F32.ne_zero_of_gt_zero hw, if_true]

theorem normalize_scales_witness :
    (F32.gt (Vec2.Length ⟨F32.one, F32.one⟩) F32.zero = true ∧
      (Vec2.Length ⟨F32.one, F32.one⟩).isFinite = true ∧
      Vec2.normalizeIsRegular ⟨F32.one, F32.one⟩ = true ∧
      F32.gt (Vec3.Length ⟨F32.one, F32.two, F32.ofInt 3⟩) F32.zero = true ∧
      (Vec3.Length ⟨F32.one, F32.two, F32.ofInt 3⟩).isFinite = true ∧
      Vec3.normalizeIsRegular ⟨F32.one, F32.two, F32.ofInt 3⟩ = true) ∧
    Vec2.Normalize ⟨F32.one, F32.one⟩ =
      Vec2.mul ⟨F32.one, F32.one⟩ (F32.div F32.one (Vec2.Length ⟨F32.one, F32.one⟩)) ∧
    F32.gt (F32.div F32.one (Vec2.Length ⟨F32.one, F32.one⟩)) F32.zero = true ∧
    |(Vec2.Length (Vec2.Normalize ⟨F32.one, F32.one⟩)).val - 1| ≤ 1 / 2 ^ 21 ∧
    Vec3.Normalize ⟨F32.one, F32.two, F32.ofInt 3⟩ =
      Vec3.mul ⟨F32.one, F32.two, F32.ofInt 3⟩
        (F32.div F32.one (Vec3.Length ⟨F32.one, F32.two, F32.ofInt 3⟩)) ∧
    F32.gt (F32.div F32.one (Vec3.Length ⟨F32.one, F32.two, F32.ofInt 3⟩)) F32.zero = true ∧
    |(Vec3.Length (Vec3.Normalize ⟨F32.one, F32.two, F32.ofInt 3⟩)).val - 1| ≤ 1 / 2 ^ 21 :=
  have h := normalize_scales ⟨F32.one, F32.one⟩ ⟨F32.one, F32.two, F32.ofInt 3⟩
  ⟨by decide, (h.1 (by decide)).1, (h.1 (by decide)).2.2 (by decide), (h.2.1 (by decide)).2,
    (h.2.2.1 (by decide)).1, (h.2.2.1 (by decide)).2.2 (by decide), (h.2.2.2 (by decide)).2⟩

/-- C8 fails as stated: `v = (1, 1)` has nonzero length, yet
`Length(Normalize(v))` is `0.99999994f` (`0x3F7FFFFF`), not `1.0f`; and for
`v = (2^64, 0)` the squared length overflows, `Length(v)` is infinite,
`1.0f / Length(v)` is zero and `Normalize(v)` is `(0, 0)`. -/
theorem normalize_scales_counterexample :
    F32.eq (Vec2.Length ⟨F32.one, F32.one⟩) F32.zero = false ∧
    Vec2.Length (Vec2.Normalize ⟨F32.one, F32.one⟩) = ⟨false, 0x3F7FFFFF⟩ ∧
    F32.eq (Vec2.Length (Vec2.Normalize ⟨F32.one, F32.one⟩)) F32.one = false ∧
    F32.eq (Vec2.Length ⟨⟨false, 0x5F800000⟩, F32.zero⟩) F32.zero = false ∧
    Vec2.Normalize ⟨⟨false, 0x5F800000⟩, F32.zero⟩ = ⟨F32.zero, F32.zero⟩ := by
  decide

/-- C13 (as amended): when no step of `(v * s) / s` overflows or underflows
(the reciprocal `1.0f / s` is a normal number, and each component of `v` is a
zero or gives normal products), every component of `(v * s) / s` is finite and
differs from the component of `v` by at most `2 ^ -22` of its size; and when
the reciprocal and the products `v * s` are exact, `(v * s) / s == v`.  For
`Vec2` and `Vec3`. -/
theorem scale_div_cancel (v : Vec2) (w : Vec3) (s : F32) :
    (Vec2.scaleDivIsRegular v s = true →
      ((Vec2.div (Vec2.mul v s) s).x.isFinite = true ∧
        |(Vec2.div (Vec2.mul v s) s).x.val - v.x.val| ≤ |v.x.val| / 2 ^ 22) ∧
      ((Vec2.div (Vec2.mul v s) s).y.isFinite = true ∧
        |(Vec2.div (Vec2.mul v s) s).y.val - v.y.val| ≤ |v.y.val| / 2 ^ 22)) ∧
    (Vec3.scaleDivIsRegular w s = true →
      ((Vec3.div (Vec3.mul w s) s).x.isFinite = true ∧
        |(Vec3.div (Vec3.mul w s) s).x.val - w.x.val| ≤ |w.x.val| / 2 ^ 22) ∧
      ((Vec3.div (Vec3.mul w s) s).y.isFinite = true ∧
        |(Vec3.div (Vec3.mul w s) s).y.val - w.y.val| ≤ |w.y.val| / 2 ^ 22) ∧
      ((Vec3.div (Vec3.mul w s) s).z.isFinite = true ∧
        |(Vec3.div (Vec3.mul w s) s).z.val - w.z.val| ≤ |w.z.val| / 2 ^ 22)) ∧
    (F32.divIsExact F32.one s = true ∧ F32.mulIsExact v.x s = true ∧
        F32.mulIsExact v.y s = true →
      Vec2.eq (Vec2.div (Vec2.mul v s) s) v = true) ∧
    (F32.divIsExact F32.one s = true ∧ F32.mulIsExact w.x s = true ∧
        F32.mulIsExact w.y s = true ∧ F32.mulIsExact w.z s = true →
      Vec3.eq (Vec3.div (Vec3.mul w s) s) w = true) := by
  refine ⟨?_, ?_, ?_, ?_⟩
  · intro h
    simp only [Vec2.scaleDivIsRegular, Bool.and_eq_true] at h
    have hr : (F32.div F32.one s).isNormal = true := by
      have := h.1
      simp only [F32.scaleDivIsRegular, Bool.and_eq_true] at this
      exact this.1
    simp only [Vec2.div, Vec2.mul, F32.ne_zero_of_div_isNormal hr, if_true]
    exact ⟨F32.scale_div_near h.1, F32.scale_div_near h.2⟩
  · intro h
    simp only [Vec3.scaleDivIsRegular, Bool.and_eq_true] at h
    have hr : (F32.div F32.one s).isNormal = true := by
      have := h.2
      simp only [F32.scaleDivIsRegular, Bool.and_eq_true] at this
      exact this.1
    simp only [Vec3.div, Vec3.mul, F32.ne_zero_of_div_isNormal hr, if_true]
    exact ⟨F32.scale_div_near h.1.1, F32.scale_div_near h.1.2, F32.scale_div_near h.2⟩
  · intro h
    simp only [Vec2.eq, Vec2.div, Vec2.mul, F32.ne_zero_of_recip_exact h.1, if_true,
      Bool.and_eq_true]
    exact ⟨F32.mul_recip_of_exact h.1 h.2.1, F32.mul_recip_of_exact h.1 h.2.2⟩
  · intro h
    simp only [Vec3.eq, Vec3.div, Vec3.mul, F32.ne_zero_of_recip_exact h.1, if_true,
      Bool.and_eq_true]
    exact ⟨⟨F32.mul_recip_of_exact h.1 h.2.1, F32.mul_recip_of_exact h.1 h.2.2.1⟩,
      F32.mul_recip_of_exact h.1 h.2.2.2⟩

theorem scale_div_cancel_witness :
    (Vec2.scaleDivIsRegular ⟨F32.ofInt 3, F32.zero⟩ (F32.ofInt 7) = true ∧
      Vec3.scaleDivIsRegular ⟨F32.ofInt 3, F32.zero, F32.negOne⟩ (F32.ofInt 7) = true) ∧
    |(Vec2.div (Vec2.mul ⟨F32.ofInt 3, F32.zero⟩ (F32.ofInt 7)) (F32.ofInt 7)).x.val -
        (F32.ofInt 3).val| ≤ |(F32.ofInt 3).val| / 2 ^ 22 ∧
    |(Vec3.div (Vec3.mul ⟨F32.ofInt 3, F32.zero, F32.negOne⟩ (F32.ofInt 7)) (F32.ofInt 7)).z.val -
        F32.negOne.val| ≤ |F32.negOne.val| / 2 ^ 22 ∧
    Vec2.eq (Vec2.div (Vec2.mul ⟨F32.one, F32.ofInt 3⟩ F32.two) F32.two)
      ⟨F32.one, F32.ofInt 3⟩ = true ∧
    Vec3.eq (Vec3.div (Vec3.mul ⟨F32.one, F32.ofInt 3, F32.negOne⟩ F32.two) F32.two)
      ⟨F32.one, F32.ofInt 3, F32.negOne⟩ = true :=
  ⟨by decide,
    ((scale_div_cancel ⟨F32.ofInt 3, F32.zero⟩ ⟨F32.ofInt 3, F32.zero, F32.negOne⟩
      (F32.ofInt 7)).1 (by decide)).1.2,
    ((scale_div_cancel ⟨F32.ofInt 3, F32.zero⟩ ⟨F32.ofInt 3, F32.zero, F32.negOne⟩
      (F32.ofInt 7)).2.1 (by decide)).2.2.2,
    (scale_div_cancel ⟨F32.one, F32.ofInt 3⟩ ⟨F32.one, F32.ofInt 3, F32.negOne⟩ F32.two).2.2.1
      (by decide),
    (scale_div_cancel ⟨F32.one, F32.ofInt 3⟩ ⟨F32.one, F32.ofInt 3, F32.negOne⟩ F32.two).2.2.2
      (by decide)⟩

/-- C13 fails as stated: with `v = (3, 0)` and `s = 7` the product `21` is
multiplied by the rounded reciprocal `0.14285715f`, which gives `3.0000002f`
(`0x40400001`), so `(v * s) / s` is not `== v`; likewise in 3D. -/
theorem scale_div_cancel_counterexample :
    F32.ne (F32.ofInt 7) F32.zero = true ∧
    Vec2.div (Vec2.mul ⟨F32.ofInt 3, F32.zero⟩ (F32.ofInt 7)) (F32.ofInt 7) =
      ⟨⟨false, 0x40400001⟩, F32.zero⟩ ∧
    Vec2.eq (Vec2.div (Vec2.mul ⟨F32.ofInt 3, F32.zero⟩ (F32.ofInt 7)) (F32.ofInt 7))
      ⟨F32.ofInt 3, F32.zero⟩ = false ∧
    Vec3.eq (Vec3.div (Vec3.mul ⟨F32.ofInt 3, F32.zero, F32.zero⟩ (F32.ofInt 7)) (F32.ofInt 7))
      ⟨F32.ofInt 3, F32.zero, F32.zero⟩ = false := by
  decide

/-- C17 (as amended): when `n` has unit length as computed (`Dot(n, n) == 1.0f`)
and no operation of the two reflections, or of `Dot(n, n)`, overflows or
underflows, every component of `Reflect(Reflect(v, n), n)` is finite and
differs from the component of `v` by at most `2 ^ -16` of the sum of the sizes
of the components of `v`; and when nothing rounds at all (the last subtraction
apart), `Reflect(Reflect(v, n), n) == v`.  For `Vec2` and `Vec3`. -/
theorem reflect_twice (v n : Vec2) (w m : Vec3) :
    (Vec2.isUnit n = true ∧ Vec2.reflectIsRegular v n = true ∧
        Vec2.reflectIsRegular (Vec2.Reflect v n) n = true →
      ((Vec2.Reflect (Vec2.Reflect v n) n).x.isFinite = true ∧
        |(Vec2.Reflect (Vec2.Reflect v n) n).x.val - v.x.val| ≤
          (|v.x.val| + |v.y.val|) / 2 ^ 16) ∧
      ((Vec2.Reflect (Vec2.Reflect v n) n).y.isFinite = true ∧
        |(Vec2.Reflect (Vec2.Reflect v n) n).y.val - v.y.val| ≤
          (|v.x.val| + |v.y.val|) / 2 ^ 16)) ∧
    (Vec3.isUnit m = true ∧ Vec3.reflectIsRegular w m = true ∧
        Vec3.reflectIsRegular (Vec3.Reflect w m) m = true →
      ((Vec3.Reflect (Vec3.Reflect w m) m).x.isFinite = true ∧
        |(Vec3.Reflect (Vec3.Reflect w m) m).x.val - w.x.val| ≤
          (|w.x.val| + |w.y.val| + |w.z.val|) / 2 ^ 16) ∧
      ((Vec3.Reflect (Vec3.Reflect w m) m).y.isFinite = true ∧
        |(Vec3.Reflect (Vec3.Reflect w m) m).y.val - w.y.val| ≤
          (|w.x.val| + |w.y.val| + |w.z.val|) / 2 ^ 16) ∧
      ((Vec3.Reflect (Vec3.Reflect w m) m).z.isFinite = true ∧
        |(Vec3.Reflect (Vec3.Reflect w m) m).z.val - w.z.val| ≤
          (|w.x.val| + |w.y.val| + |w.z.val|) / 2 ^ 16)) ∧
    (Vec2.dotIsExact n n = true ∧ F32.eq (Vec2.Dot n n) F32.one = true ∧
        Vec2.reflectIsExact v n = true ∧ Vec2.reflectTermIsExact (Vec2.Reflect v n) n = true →
      Vec2.eq (Vec2.Reflect (Vec2.Reflect v n) n) v = true) ∧
    (Vec3.dotIsExact m m = true ∧ F32.eq (Vec3.Dot m m) F32.one = true ∧
        Vec3.reflectIsExact w m = true ∧ Vec3.reflectTermIsExact (Vec3.Reflect w m) m = true →
      Vec3.eq (Vec3.Reflect (Vec3.Reflect w m) m) w = true) := by
  refine ⟨?_, ?_, fun h => Vec2.reflect2_twice_of_exact h.1 h.2.1 h.2.2.1 h.2.2.2,
    fun h => Vec3.reflect3_twice_of_exact h.1 h.2.1 h.2.2.1 h.2.2.2⟩
  · intro h
    obtain ⟨e1, e2⟩ := Vec2.reflect2_twice_near h.1 h.2.1 h.2.2
    have hr := h.2.2
    simp only [Vec2.reflectIsRegular, Bool.and_eq_true] at hr
    exact ⟨⟨hr.1.2, e1⟩, ⟨hr.2, e2⟩⟩
  · intro h
    obtain ⟨e1, e2, e3⟩ := Vec3.reflect3_twice_near h.1 h.2.1 h.2.2
    have hr := h.2.2
    simp only [Vec3.reflectIsRegular, Bool.and_eq_true] at hr
    exact ⟨⟨hr.1.1.2, e1⟩, ⟨hr.1.2, e2⟩, ⟨hr.2, e3⟩⟩

theorem reflect_twice_witness :
    (Vec2.isUnit ⟨⟨false, 0x3F19999A⟩, ⟨false, 0x3F4CCCCD⟩⟩ = true ∧
      Vec3.isUnit ⟨F32.zero, ⟨false, 0x3F19999A⟩, ⟨false, 0x3F4CCCCD⟩⟩ = true) ∧
    |(Vec2.Reflect (Vec2.Reflect ⟨F32.one, F32.zero⟩ ⟨⟨false, 0x3F19999A⟩, ⟨false, 0x3F4CCCCD⟩⟩)
        ⟨⟨false, 0x3F19999A⟩, ⟨false, 0x3F4CCCCD⟩⟩).x.val - F32.one.val| ≤
      (|F32.one.val| + |F32.zero.val|) / 2 ^ 16 ∧
    |(Vec3.Reflect (Vec3.Reflect ⟨F32.zero, F32.one, F32.zero⟩
        ⟨F32.zero, ⟨false, 0x3F19999A⟩, ⟨false, 0x3F4CCCCD⟩⟩)
        ⟨F32.zero, ⟨false, 0x3F19999A⟩, ⟨false, 0x3F4CCCCD⟩⟩).y.val - F32.one.val| ≤
      (|F32.zero.val| + |F32.one.val| + |F32.zero.val|) / 2 ^ 16 ∧
    Vec2.eq (Vec2.Reflect (Vec2.Reflect ⟨F32.one, F32.negOne⟩ ⟨F32.zero, F32.one⟩)
      ⟨F32.zero, F32.one⟩) ⟨F32.one, F32.negOne⟩ = true ∧
    Vec3.eq (Vec3.Reflect (Vec3.Reflect ⟨F32.one, F32.ofInt 3, F32.two⟩
      ⟨F32.zero, F32.negOne, F32.zero⟩) ⟨F32.zero, F32.negOne, F32.zero⟩)
      ⟨F32.one, F32.ofInt 3, F32.two⟩ = true :=
  ⟨by decide,
    ((reflect_twice ⟨F32.one, F32.zero⟩ ⟨⟨false, 0x3F19999A⟩, ⟨false, 0x3F4CCCCD⟩⟩
      ⟨F32.zero, F32.one, F32.zero⟩ ⟨F32.zero, ⟨false, 0x3F19999A⟩, ⟨false, 0x3F4CCCCD⟩⟩).1
      (by decide)).1.2,
    ((reflect_twice ⟨F32.one, F32.zero⟩ ⟨⟨false, 0x3F19999A⟩, ⟨false, 0x3F4CCCCD⟩⟩
      ⟨F32.zero, F32.one, F32.zero⟩ ⟨F32.zero, ⟨false, 0x3F19999A⟩, ⟨false, 0x3F4CCCCD⟩⟩).2.1
      (by decide)).2.1.2,
    (reflect_twice ⟨F32.one, F32.negOne⟩ ⟨F32.zero, F32.one⟩ ⟨F32.one, F32.ofInt 3, F32.two⟩
      ⟨F32.zero, F32.negOne, F32.zero⟩).2.2.1 (by decide),
    (reflect_twice ⟨F32.one, F32.negOne⟩ ⟨F32.zero, F32.one⟩ ⟨F32.one, F32.ofInt 3, F32.two⟩
      ⟨F32.zero, F32.negOne, F32.zero⟩).2.2.2 (by decide)⟩

/-- C17 fails as stated: `n = (0.6f, 0.8f)` has `Dot(n, n) == 1.0f`, yet for
`v = (1, 0)` the double reflection is `(1.0000001f, 1.1920929e-7f)`, not `v`;
likewise `n = (0, 0.6f, 0.8f)` and `v = (0, 1, 0)` in 3D. -/
theorem reflect_twice_counterexample :
    F32.eq (Vec2.Dot ⟨⟨false, 0x3F19999A⟩, ⟨false, 0x3F4CCCCD⟩⟩
      ⟨⟨false, 0x3F19999A⟩, ⟨false, 0x3F4CCCCD⟩⟩) F32.one = true ∧
    Vec2.Reflect (Vec2.Reflect ⟨F32.one, F32.zero⟩ ⟨⟨false, 0x3F19999A⟩, ⟨false, 0x3F4CCCCD⟩⟩)
      ⟨⟨false, 0x3F19999A⟩, ⟨false, 0x3F4CCCCD⟩⟩ = ⟨⟨false, 0x3F800001⟩, ⟨false, 0x34000000⟩⟩ ∧
    Vec2.eq
      (Vec2.Reflect (Vec2.Reflect ⟨F32.one, F32.zero⟩ ⟨⟨false, 0x3F19999A⟩, ⟨false, 0x3F4CCCCD⟩⟩)
        ⟨⟨false, 0x3F19999A⟩, ⟨false, 0x3F4CCCCD⟩⟩) ⟨F32.one, F32.zero⟩ = false ∧
    F32.eq (Vec3.Dot ⟨F32.zero, ⟨false, 0x3F19999A⟩, ⟨false, 0x3F4CCCCD⟩⟩
      ⟨F32.zero, ⟨false, 0x3F19999A⟩, ⟨false, 0x3F4CCCCD⟩⟩) F32.one = true ∧
    Vec3.eq
      (Vec3.Reflect (Vec3.Reflect ⟨F32.zero, F32.one, F32.zero⟩
        ⟨F32.zero, ⟨false, 0x3F19999A⟩, ⟨false, 0x3F4CCCCD⟩⟩)
        ⟨F32.zero, ⟨false, 0x3F19999A⟩, ⟨false, 0x3F4CCCCD⟩⟩)
      ⟨F32.zero, F32.one, F32.zero⟩ = false := by
  decide

end MyMath
